import Mathlib

/-! # The dedup S3 server: request decoding, write pipeline, read pipeline

A shallow embedding of `src/s3server.go` and `src/sysconst.go`.

Conventions of the embedding.

* A Go `[]byte` is a `List Byte`; a byte is a natural number (the digest
  reduces every byte modulo 256). Lengths, offsets, sizes and counts are
  natural numbers: the server only ever builds them from lengths and sums of
  lengths.
* Mutable objects are passed and returned explicitly.
* The block writer and the block prefetcher are goroutines with at most one
  in flight. The embedding runs each at the point where it is spawned and
  keeps its result in the channel field until the coordinator receives it.
  A `select` is resolved by the environment: the one of `Read` by an event,
  the one of the writer by the list `World.late` of the writers that give up
  after `RWTimeOutSecs`.
* A Go runtime panic (slice bounds, index out of range, division by zero,
  closing a closed channel) is an `Except.error`.
* Loops of the source are run with fuel; `none` means the fuel ran out, or a
  receive or send on a channel that nobody will serve, and the development
  proves that the fuel supplied is enough.
* The backend `CloudIO`, the protobuf codec, the fault-injection switches,
  the clock and `ReadBufferSize` are declared outside the two source files;
  they are parameters of the embedding.
-/

namespace S3

/-! ## `sysconst.go` -/

abbrev Byte := Nat

def DataBlockSize : Nat := 131072
def MaxDataBlocks : Nat := 4
def RWTimeOutSecs : Nat := 30
def ZeroDataETag : String := "d41d8cd98f00b204e9800998ecf8427e"

def ServerName : String := "CloudZzzz"
def Server : String := "Server"
def Date : String := "Date"
def LastModified : String := "Last-Modified"
def ETag : String := "ETag"
def ContentLength : String := "Content-Length"
def BucketListOp : String := "/?list-type=2"

def StatusOK : Nat := 200
def StatusOKStr : String := "OK"
def InternalError : Nat := 500
def InternalErrorStr : String := "InternalError"
def InvalidRequest : Nat := 400

/-! ## Go standard library: `crypto/md5`, `encoding/hex`, `strings` -/

def md5S : List Nat :=
  [7, 12, 17, 22, 7, 12, 17, 22, 7, 12, 17, 22, 7, 12, 17, 22,
   5, 9, 14, 20, 5, 9, 14, 20, 5, 9, 14, 20, 5, 9, 14, 20,
   4, 11, 16, 23, 4, 11, 16, 23, 4, 11, 16, 23, 4, 11, 16, 23,
   6, 10, 15, 21, 6, 10, 15, 21, 6, 10, 15, 21, 6, 10, 15, 21]

def md5K : List Nat :=
  [0xd76aa478, 0xe8c7b756, 0x242070db, 0xc1bdceee, 0xf57c0faf, 0x4787c62a, 0xa8304613, 0xfd469501,
   0x698098d8, 0x8b44f7af, 0xffff5bb1, 0x895cd7be, 0x6b901122, 0xfd987193, 0xa679438e, 0x49b40821,
   0xf61e2562, 0xc040b340, 0x265e5a51, 0xe9b6c7aa, 0xd62f105d, 0x02441453, 0xd8a1e681, 0xe7d3fbc8,
   0x21e1cde6, 0xc33707d6, 0xf4d50d87, 0x455a14ed, 0xa9e3e905, 0xfcefa3f8, 0x676f02d9, 0x8d2a4c8a,
   0xfffa3942, 0x8771f681, 0x6d9d6122, 0xfde5380c, 0xa4beea44, 0x4bdecfa9, 0xf6bb4b60, 0xbebfbc70,
   0x289b7ec6, 0xeaa127fa, 0xd4ef3085, 0x04881d05, 0xd9d4d039, 0xe6db99e5, 0x1fa27cf8, 0xc4ac5665,
   0xf4292244, 0x432aff97, 0xab9423a7, 0xfc93a039, 0x655b59c3, 0x8f0ccc92, 0xffeff47d, 0x85845dd1,
   0x6fa87e4f, 0xfe2ce6e0, 0xa3014314, 0x4e0811a1, 0xf7537e82, 0xbd3af235, 0x2ad7d2bb, 0xeb86d391]

def w32 : Nat := 4294967296

def rotl32 (x s : Nat) : Nat := ((x <<< s) % w32) ||| (x >>> (32 - s))

def not32 (x : Nat) : Nat := w32 - 1 - x % w32

/-- Little-endian 32-bit word made of the first four bytes of `bs`. -/
def leWord (bs : List Byte) : Nat :=
  (bs.getD 0 0 % 256) + (bs.getD 1 0 % 256) * 256 + (bs.getD 2 0 % 256) * 65536
    + (bs.getD 3 0 % 256) * 16777216

/-- The `k` low bytes of `x`, least significant first. -/
def leBytes : Nat → Nat → List Byte
  | 0, _ => []
  | k + 1, x => (x % 256) :: leBytes k (x / 256)

def words16 : Nat → List Byte → List Nat
  | 0, _ => []
  | k + 1, bs => leWord bs :: words16 k (bs.drop 4)

structure MD5State where
  a : Nat
  b : Nat
  c : Nat
  d : Nat
deriving DecidableEq, Repr

def md5Init : MD5State := ⟨0x67452301, 0xefcdab89, 0x98badcfe, 0x10325476⟩

def md5Step (m : List Nat) (st : MD5State) (i : Nat) : MD5State :=
  let f :=
    if i < 16 then (st.b &&& st.c) ||| (not32 st.b &&& st.d)
    else if i < 32 then (st.d &&& st.b) ||| (not32 st.d &&& st.c)
    else if i < 48 then st.b ^^^ st.c ^^^ st.d
    else st.c ^^^ (st.b ||| not32 st.d)
  let g :=
    if i < 16 then i
    else if i < 32 then (5 * i + 1) % 16
    else if i < 48 then (3 * i + 5) % 16
    else (7 * i) % 16
  let x := (st.a + f + md5K.getD i 0 + m.getD g 0) % w32
  ⟨st.d, (st.b + rotl32 x (md5S.getD i 0)) % w32, st.b, st.c⟩

def md5Rounds (m : List Nat) : Nat → Nat → MD5State → MD5State
  | 0, _, st => st
  | k + 1, i, st => md5Rounds m k (i + 1) (md5Step m st i)

def md5Chunk (st : MD5State) (chunk : List Byte) : MD5State :=
  let r := md5Rounds (words16 16 chunk) 64 0 st
  ⟨(st.a + r.a) % w32, (st.b + r.b) % w32, (st.c + r.c) % w32, (st.d + r.d) % w32⟩

def md5Chunks : Nat → List Byte → MD5State → MD5State
  | 0, _, st => st
  | k + 1, bs, st => md5Chunks k (bs.drop 64) (md5Chunk st (bs.take 64))

def md5Pad (msg : List Byte) : List Byte :=
  let l := msg.length
  msg ++ 128 :: List.replicate ((119 - l % 64) % 64) 0
    ++ leBytes 8 ((8 * l) % 18446744073709551616)

/-- The 16 bytes `h.Sum(nil)` returns for an `md5.New()` digester `h` that was
fed `msg` since its creation or last `Reset` (RFC 1321). -/
def md5Sum (msg : List Byte) : List Byte :=
  let p := md5Pad msg
  let st := md5Chunks (p.length / 64) p md5Init
  leBytes 4 st.a ++ leBytes 4 st.b ++ leBytes 4 st.c ++ leBytes 4 st.d

def hexDigit (n : Nat) : Char := "0123456789abcdef".toList.getD n '0'

/-- Go `hex.EncodeToString`: two lowercase hex digits per byte. -/
def hexEncodeToString (bs : List Byte) : String :=
  String.mk (bs.flatMap fun b => [hexDigit (b / 16 % 16), hexDigit (b % 16)])

/-- The lowercase hex MD5 of a byte string, `hex.EncodeToString(m.Sum(nil))`. -/
def md5Hex (msg : List Byte) : String := hexEncodeToString (md5Sum msg)

/-- Prepends a character to the first piece of a split. -/
def consHead (c : Char) : List (List Char) → List (List Char)
  | [] => [[c]]
  | h :: t => (c :: h) :: t

/-- Go `strings.Split(s, sep)` for a one-character separator, on characters. -/
def splitChars (sep : Char) : List Char → List (List Char)
  | [] => [[]]
  | c :: cs => if c = sep then [] :: splitChars sep cs else consHead c (splitChars sep cs)

/-- Go `strings.SplitN(s, sep, n)` for a one-character separator, on
characters: at most `n` pieces, the last one the unsplit remainder. -/
def splitNChars (sep : Char) : Nat → List Char → List (List Char)
  | 0, _ => []
  | 1, s => [s]
  | _ + 2, [] => [[]]
  | n + 2, c :: cs =>
    if c = sep then [] :: splitNChars sep (n + 1) cs
    else consHead c (splitNChars sep (n + 2) cs)

def Split (s : String) (sep : Char) : List String :=
  (splitChars sep s.toList).map String.mk

def SplitN (s : String) (sep : Char) (n : Nat) : List String :=
  (splitNChars sep n s.toList).map String.mk

/-- Go `strings.HasPrefix`. -/
def HasPrefix (s p : String) : Bool := p.toList.isPrefixOf s.toList

/-! ## Data model -/

/-- The protobuf message `ObjectSMD` (declared outside the two source files). -/
structure ObjectSMD where
  Bucket : String
  Name : String
  Mtime : Int
  Size : Nat
  Etag : String
deriving DecidableEq, Repr

/-- The protobuf message `DataBlock`. -/
structure DataBlock where
  BlockSize : Nat
  Blocks : List String
  DdBlocks : Nat
deriving DecidableEq, Repr

/-- The protobuf message `ObjectMD`. -/
structure ObjectMD where
  Smd : ObjectSMD
  Data : DataBlock
deriving DecidableEq, Repr

/-- An `error` value returned by a reader: `io.EOF` or any other error. -/
inductive ReadErr where
  | EOF
  | other (msg : String)
deriving DecidableEq, Repr

/-- One answer the request body will give: the bytes it hands over and the
error it returns with them. -/
structure Chunk where
  data : List Byte
  err : Option ReadErr
deriving DecidableEq, Repr

/-- The request body `r.Body`, an `io.Reader`: the answers it has yet to
give. Once they are used up every `Read` returns `(0, io.EOF)`. -/
abbrev Body := List Chunk

/-- The call `r.Body.Read(p)` with `len(p) = k`: the bytes placed at the start
of `p`, the error, and the body afterwards. An answer longer than `p` is
handed over in pieces. -/
def bodyRead (body : Body) (k : Nat) : List Byte × Option ReadErr × Body :=
  match body with
  | [] => ([], some ReadErr.EOF, [])
  | c :: rest =>
    if c.data.length ≤ k then (c.data, c.err, rest)
    else (c.data.take k, none, { c with data := c.data.drop k } :: rest)

/-- The `*http.Request` fields the server reads. -/
structure Request where
  Method : String
  Host : String
  URL : String
  ContentLength : Nat
  Body : Body
deriving Repr

/-- Go `http.Header.Set` on a header held as a list of pairs. -/
def headerSet (h : List (String × String)) (k v : String) : List (String × String) :=
  (h.filter fun kv => kv.1 != k) ++ [(k, v)]

/-- Go `http.Header.Get`; `none` when the header is absent. -/
def headerGet (h : List (String × String)) (k : String) : Option String :=
  (h.find? fun kv => kv.1 == k).map Prod.snd

structure dataBlockReadResult where
  blkIdx : Nat
  buf : List Byte
  n : Nat
  status : Nat
  errmsg : String
deriving DecidableEq, Repr

/-- The zero value of `dataBlockReadResult`. -/
def dataBlockReadResult.zero : dataBlockReadResult := ⟨0, [], 0, 0, ""⟩

/-- The reader behind a GET response body. `respStatusCode` and `respStatus`
are the two fields of the shared `*http.Response` that `Read` assigns; `c`
holds the result the prefetcher in flight offers on the channel; `closed`
tells whether the channel `closed` has been closed. -/
structure objectDataIOReader where
  respStatusCode : Nat
  respStatus : String
  objmd : ObjectMD
  off : Nat
  currBlock : dataBlockReadResult
  waitBlock : Bool
  c : Option dataBlockReadResult
  closed : Bool
  closeCalled : Bool
deriving DecidableEq, Repr

/-- The `*http.Response` fields the server assigns. -/
structure Response where
  ProtoMajor : Nat
  ProtoMinor : Nat
  StatusCode : Nat
  Status : String
  Header : List (String × String)
  ContentLength : Nat
  Body : Option objectDataIOReader
deriving DecidableEq, Repr

/-- The backend interface `CloudIO` over a store of type `σ`. The three
queries leave the store as it is. `ReadDataBlockRange` returns the buffer as
the call leaves it, then `n`, the status and the message. -/
structure CloudIO (σ : Type) where
  PutBucket : σ → String → (Nat × String) × σ
  DeleteBucket : σ → String → (Nat × String) × σ
  HeadBucket : σ → String → (Nat × String) × σ
  GetBucket : σ → String → Response → Response × σ
  IsDataBlockExist : σ → String → Bool
  WriteDataBlock : σ → List Byte → String → (Nat × String) × σ
  ReadDataBlockRange : σ → String → Nat → List Byte → List Byte × Nat × Nat × String
  WriteObjectMD : σ → String → String → List Byte → (Nat × String) × σ
  ReadObjectMD : σ → String → String → List Byte × Nat × String

/-- The server `S3Server` with its backend `s3io`, and with it the
declarations the two source files use and do not contain: the constant
`ReadBufferSize`, the protobuf codec (`none` is a codec error), the switch
`FIEnabled()` and the date format `time.RFC1123`. -/
structure S3Server (σ : Type) where
  s3io : CloudIO σ
  ReadBufferSize : Nat
  Marshal : ObjectMD → Option (List Byte)
  Unmarshal : List Byte → Option ObjectMD
  FIEnabled : Bool
  RFC1123 : Int → String

/-- A call observed at the backend or a handler entered, for counting. -/
inductive Event where
  | WriteDataBlock (buf : List Byte) (md5str : String)
  | WriteObjectMD (bkname objname : String) (mdbyte : List Byte)
  | Handler (name : String)
deriving DecidableEq, Repr

/-- What a request runs against: the store, the answers of the coming
`RandomFI()` calls (`false` once they are used up), the clock reading
`time.Now().Unix()`, the log of events so far, and the block indices whose
writer task meets nobody at its `select` within `RWTimeOutSecs` and gives up
before the loop of `putObjectData` comes back to it. -/
structure World (σ : Type) where
  store : σ
  fi : List Bool
  now : Int
  trace : List Event
  late : List Nat

/-- The fault-injection coin `RandomFI()`. -/
def RandomFI {σ : Type} (w : World σ) : Bool × World σ :=
  match w.fi with
  | [] => (false, w)
  | b :: rest => (b, { w with fi := rest })

def World.log {σ : Type} (w : World σ) (e : Event) : World σ :=
  { w with trace := w.trace ++ [e] }

/-- Go `copy(dst[off:], src)` for `off + len(src) ≤ len(dst)`. -/
def copyAt (dst : List Byte) (off : Nat) (src : List Byte) : List Byte :=
  dst.take off ++ src ++ dst.drop (off + src.length)

/-! ## Request decoding -/

def newResponse : Response :=
  { ProtoMajor := 1, ProtoMinor := 1, StatusCode := InvalidRequest,
    Status := "not support request", Header := headerSet [] Server ServerName,
    ContentLength := 0, Body := none }

def getBucketFromHost (host : String) : String :=
  let urls := Split host '.'
  if urls.length = 3 then ""
  else if urls.length = 4 then
    if HasPrefix (urls.getD 1 "") "s3" then urls.getD 0 "" else ""
  else ""

def getBucketAndObjectName (r : Request) : String × String :=
  let bkname := getBucketFromHost r.Host
  if bkname = "" then
    let strs := SplitN r.URL '/' 3
    let l := strs.length
    if l = 3 then (strs.getD 1 "", "/" ++ strs.getD 2 "")
    else if l = 2 then (strs.getD 1 "", "/")
    else ("", "")
  else (bkname, r.URL)

def isBucketOp (objname : String) : Bool :=
  objname = "" || objname = "/" || HasPrefix objname "/?" || HasPrefix objname "?"

/-! ## Write pipeline -/

/-- The loop of `readFullBuf`: `rlen` bytes of `readBuf` are filled. -/
def readFullBufLoop : Nat → Body → List Byte → Nat → Bool →
    Option (Nat × Option ReadErr × List Byte × Body)
  | 0, _, _, _, _ => none
  | fuel + 1, body, readBuf, rlen, readZero =>
    if rlen < readBuf.length then
      match bodyRead body (readBuf.length - rlen) with
      | (data, err, body1) =>
        let readBuf1 := copyAt readBuf rlen data
        let rlen1 := rlen + data.length
        if err ≠ none then some (rlen1, err, readBuf1, body1)
        else if data.length = 0 then
          if readZero then some (rlen1, err, readBuf1, body1)
          else readFullBufLoop fuel body1 readBuf1 rlen1 true
        else readFullBufLoop fuel body1 readBuf1 rlen1 readZero
    else some (rlen, none, readBuf, body)

/-- The method `readFullBuf`: returns `(n, err)`, the buffer and the body. -/
def readFullBuf (body : Body) (readBuf : List Byte) :
    Option (Nat × Option ReadErr × List Byte × Body) :=
  readFullBufLoop (readBuf.length + 2) body readBuf 0 false

/-- What a PUT pipeline step hands back: status, message, the metadata under
construction, the body and the world. -/
structure PutResult (σ : Type) where
  status : Nat
  errmsg : String
  md : ObjectMD
  body : Body
  w : World σ

def putSmallObjectData {σ : Type} (s : S3Server σ) (r : Request) (md : ObjectMD)
    (w : World σ) : Option (PutResult σ) :=
  match readFullBuf r.Body (List.replicate r.ContentLength 0) with
  | none => none
  | some (n, err, readBuf, body) =>
    if err ≠ none ∧ err ≠ some ReadErr.EOF then
      some ⟨InternalError, "failed to read data from http", md, body, w⟩
    else if err ≠ none ∧ n ≠ r.ContentLength then
      some ⟨InvalidRequest, "data less than ContentLength", md, body, w⟩
    else
      let md5str := hexEncodeToString (md5Sum readBuf)
      if !s.s3io.IsDataBlockExist w.store md5str then
        match s.s3io.WriteDataBlock w.store readBuf md5str with
        | ((status, errmsg), store1) =>
          let w1 := ({ w with store := store1 }).log (Event.WriteDataBlock readBuf md5str)
          if status ≠ StatusOK then some ⟨status, errmsg, md, body, w1⟩
          else
            let md1 : ObjectMD :=
              { Smd := { md.Smd with Etag := md5str },
                Data := { md.Data with BlockSize := s.ReadBufferSize,
                                       Blocks := md.Data.Blocks ++ [md5str] } }
            some ⟨StatusOK, StatusOKStr, md1, body, w1⟩
      else
        let md1 : ObjectMD :=
          { Smd := { md.Smd with Etag := md5str },
            Data := { BlockSize := s.ReadBufferSize,
                      Blocks := md.Data.Blocks ++ [md5str], DdBlocks := 1 } }
        some ⟨StatusOK, StatusOKStr, md1, body, w⟩

structure writeDataBlockResult where
  md5str : String
  exist : Bool
  status : Nat
  errmsg : String
deriving DecidableEq, Repr

/-- The writer task `writeOneDataBlock`, up to its `select`: the result it
offers on the channel, the two digesters afterwards, and the world. Its
`select` is taken where the task is started, in `putObjectDataLoop`: the
result is on the channel unless the task gives up after `RWTimeOutSecs`. -/
def writeOneDataBlock {σ : Type} (s : S3Server σ) (buf : List Byte) (md5ck etag : List Byte)
    (w : World σ) : writeDataBlockResult × List Byte × List Byte × World σ :=
  let md5str := hexEncodeToString (md5Sum (md5ck ++ buf))
  let etag1 := etag ++ buf
  if !s.s3io.IsDataBlockExist w.store md5str then
    match s.s3io.WriteDataBlock w.store buf md5str with
    | ((status, errmsg), store1) =>
      (⟨md5str, false, status, errmsg⟩, [], etag1,
        ({ w with store := store1 }).log (Event.WriteDataBlock buf md5str))
  else (⟨md5str, true, StatusOK, StatusOKStr⟩, [], etag1, w)

/-- The locals of the streaming loop of `putObjectData`. `c` holds the result
the writer in flight offers on the channel, `none` with `waitWrite` set when
that writer has given up after `RWTimeOutSecs`. -/
structure PutLoop (σ : Type) where
  readBuf : List Byte
  writeBuf : List Byte
  md5ck : List Byte
  etag : List Byte
  totalBlocks : Nat
  ddBlocks : Nat
  c : Option writeDataBlockResult
  waitWrite : Bool
  rlen : Nat
  md : ObjectMD
  body : Body
  w : World σ

/-- The block `if waitWrite { res := <-c ... }`: `Sum.inl` is the early return
on a failed write, `none` the receive that waits for ever for a writer that
has given up. -/
def waitDataBlock {σ : Type} (st : PutLoop σ) : Option (PutResult σ ⊕ PutLoop σ) :=
  if st.waitWrite then
    match st.c with
    | none => none
    | some res =>
      if res.status ≠ StatusOK then
        some (Sum.inl ⟨res.status, res.errmsg, st.md, st.body, st.w⟩)
      else
        some (Sum.inr { st with
          c := none
          ddBlocks := if res.exist then st.ddBlocks + 1 else st.ddBlocks
          totalBlocks := st.totalBlocks + 1
          md := { st.md with Data := { st.md.Data with
                    Blocks := st.md.Data.Blocks ++ [res.md5str] } } })
  else some (Sum.inr st)

/-- The `for rlen < r.ContentLength` loop of `putObjectData`: `Sum.inl` is a
`return` from inside the loop, `Sum.inr` the state when the loop is left,
`none` a run that does not return. The send `quit <- true` waits for ever when
the writer in flight has given up. -/
def putObjectDataLoop {σ : Type} (s : S3Server σ) (r : Request) :
    Nat → PutLoop σ → Option (PutResult σ ⊕ PutLoop σ)
  | 0, _ => none
  | fuel + 1, st =>
    if st.rlen < r.ContentLength then
      match readFullBuf st.body st.readBuf with
      | none => none
      | some (n, err0, readBuf, body) =>
        let rlen := st.rlen + n
        let fi1 := RandomFI st.w
        let fi2 := RandomFI fi1.2
        if fi1.1 ∧ fi2.1 then
          some (Sum.inl ⟨InternalError, "exit early to test chan timeout", st.md, body, fi2.2⟩)
        else
          let w := if fi1.1 then fi2.2 else fi1.2
          let err := if fi1.1 then some ReadErr.EOF else err0
          let st1 : PutLoop σ := { st with readBuf := readBuf, body := body, rlen := rlen, w := w }
          if err ≠ none ∧ err ≠ some ReadErr.EOF then
            if st.waitWrite = true ∧ st.c = none then none
            else some (Sum.inl ⟨InternalError, "failed to read data from http", st.md, body, w⟩)
          else if err ≠ none ∧ rlen ≠ r.ContentLength then
            if st.waitWrite = true ∧ st.c = none then none
            else some (Sum.inl ⟨InvalidRequest, "data less than ContentLength", st.md, body, w⟩)
          else if err ≠ none ∧ n = 0 then some (Sum.inr st1)
          else
            match waitDataBlock st1 with
            | none => none
            | some (Sum.inl res) => some (Sum.inl res)
            | some (Sum.inr st2) =>
              match writeOneDataBlock s (st2.readBuf.take n) st2.md5ck st2.etag st2.w with
              | (res, md5ck, etag, w3) =>
                putObjectDataLoop s r fuel { st2 with
                  readBuf := st2.writeBuf, writeBuf := st2.readBuf, waitWrite := true,
                  c := if st2.totalBlocks ∈ st2.w.late then none else some res,
                  md5ck := md5ck, etag := etag, w := w3 }
    else some (Sum.inr st)

/-- Number of loop rounds a body can feed: every round takes at least one
answer or one byte from it, or is the last. -/
def bodyFuel (body : Body) : Nat :=
  (body.map fun c => c.data.length + 1).sum + 2

/-- The end of `putObjectData`, from "wait the last write" on. -/
def putObjectDataEnd {σ : Type} (st : PutLoop σ) : Option (PutResult σ) :=
  match waitDataBlock st with
  | none => none
  | some (Sum.inl res) => some res
  | some (Sum.inr st1) =>
    let md1 : ObjectMD :=
      { Smd := { st1.md.Smd with Etag := hexEncodeToString (md5Sum st1.etag) },
        Data := { st1.md.Data with DdBlocks := st1.ddBlocks } }
    some ⟨StatusOK, StatusOKStr, md1, st1.body, st1.w⟩

/-- The streaming path of `putObjectData` from the loop head on. -/
def putObjectDataFrom {σ : Type} (s : S3Server σ) (r : Request) (fuel : Nat)
    (st : PutLoop σ) : Option (PutResult σ) :=
  match putObjectDataLoop s r fuel st with
  | none => none
  | some (Sum.inl res) => some res
  | some (Sum.inr st1) => putObjectDataEnd st1

def putObjectData {σ : Type} (s : S3Server σ) (r : Request) (md : ObjectMD) (w : World σ) :
    Option (PutResult σ) :=
  if r.ContentLength ≤ s.ReadBufferSize then putSmallObjectData s r md w
  else
    putObjectDataFrom s r (bodyFuel r.Body)
      { readBuf := List.replicate s.ReadBufferSize 0,
        writeBuf := List.replicate s.ReadBufferSize 0,
        md5ck := [], etag := [], totalBlocks := 0, ddBlocks := 0, c := none,
        waitWrite := false, rlen := 0, md := md, body := r.Body, w := w }

/-- What `putObject` leaves: the response, the metadata record it built, the
body and the world. -/
structure PutObjectResult (σ : Type) where
  resp : Response
  md : ObjectMD
  body : Body
  w : World σ

def putObject {σ : Type} (s : S3Server σ) (r : Request) (resp : Response)
    (bkname objname : String) (w : World σ) : Option (PutObjectResult σ) :=
  let md : ObjectMD :=
    { Smd := { Bucket := bkname, Name := objname, Mtime := w.now, Size := r.ContentLength,
               Etag := "" },
      Data := { BlockSize := s.ReadBufferSize, Blocks := [], DdBlocks := 0 } }
  match putObjectData s r md w with
  | none => none
  | some res =>
    if res.status ≠ StatusOK then
      some ⟨{ resp with StatusCode := res.status, Status := res.errmsg }, res.md, res.body, res.w⟩
    else
      match s.Marshal res.md with
      | none =>
        some ⟨{ resp with StatusCode := InternalError, Status := "failed to Marshal ObjectMD" },
          res.md, res.body, res.w⟩
      | some mdbyte =>
        match s.s3io.WriteObjectMD res.w.store bkname objname mdbyte with
        | ((status, errmsg), store1) =>
          let w1 := ({ res.w with store := store1 }).log
            (Event.WriteObjectMD bkname objname mdbyte)
          if status ≠ StatusOK then
            some ⟨{ resp with StatusCode := status, Status := errmsg }, res.md, res.body, w1⟩
          else
            some ⟨{ resp with Header := headerSet resp.Header ETag res.md.Smd.Etag,
                              StatusCode := StatusOK, Status := StatusOKStr },
              res.md, res.body, w1⟩

/-! ## Read pipeline -/

def readBlock {σ : Type} (s : S3Server σ) (store : σ) (objmd : ObjectMD) (blk : Nat)
    (b : List Byte) : dataBlockReadResult :=
  if blk ≥ objmd.Data.Blocks.length then
    { blkIdx := blk, buf := b, n := 0, status := InternalError,
      errmsg := "no more block to read" }
  else
    match s.s3io.ReadDataBlockRange store (objmd.Data.Blocks.getD blk "") 0 b with
    | (buf, n, status, errmsg) =>
      if status = StatusOK ∧ n ≠ objmd.Data.BlockSize ∧ blk ≠ objmd.Data.Blocks.length - 1 then
        { blkIdx := blk, buf := buf, n := n, status := InternalError,
          errmsg := "read less data for a full block" }
      else { blkIdx := blk, buf := buf, n := n, status := status, errmsg := errmsg }

def closeChan {σ : Type} (s : S3Server σ) (d : objectDataIOReader) :
    Except String objectDataIOReader :=
  if s.FIEnabled ∧ d.closeCalled then Except.ok d
  else if d.closed then Except.error "close of closed channel"
  else Except.ok { d with closed := true, closeCalled := true }

def Close {σ : Type} (s : S3Server σ) (d : objectDataIOReader) :
    Except String objectDataIOReader :=
  closeChan s d

/-- The prefetcher task `prefetchBlock`, up to its `select`: the block result
is left on the channel for the consumer. -/
def prefetchBlock {σ : Type} (s : S3Server σ) (d : objectDataIOReader) (blk : Nat)
    (b : List Byte) (w : World σ) : Except String (objectDataIOReader × World σ) :=
  let fi := RandomFI w
  match (if fi.1 then closeChan s d else Except.ok d) with
  | Except.error e => Except.error e
  | Except.ok d1 => Except.ok ({ d1 with c := some (readBlock s w.store d.objmd blk b) }, fi.2)

/-- The case of the `select` in `Read` the environment lets through. -/
inductive SelectEv where
  | recv
  | closed
  | timeout
deriving DecidableEq, Repr

/-- What `Read` hands back: `(n, err)`, the buffer `p`, the reader and the
world afterwards. -/
structure ReadResult (σ : Type) where
  n : Nat
  err : Option ReadErr
  p : List Byte
  d : objectDataIOReader
  w : World σ

/-- Go `copy(p, src)`. -/
def goCopy (p src : List Byte) : List Byte :=
  src.take p.length ++ p.drop src.length

/-- The tail of `Read` from "check the current block read status" on. -/
def readFill {σ : Type} (d : objectDataIOReader) (idx blockOff : Nat) (p : List Byte)
    (w : World σ) : Except String (ReadResult σ) :=
  if d.currBlock.status ≠ StatusOK then
    if idx ≥ d.objmd.Data.Blocks.length then Except.error "index out of range"
    else
      Except.ok ⟨0, some (ReadErr.other d.currBlock.errmsg), p,
        { d with respStatusCode := d.currBlock.status, respStatus := d.currBlock.errmsg }, w⟩
  else
    let endOff := blockOff + p.length
    if endOff ≤ d.currBlock.n then
      if endOff > d.currBlock.buf.length then Except.error "slice bounds out of range"
      else
        let n := p.length
        let d1 := { d with off := d.off + n }
        Except.ok ⟨n, if d1.off = d.objmd.Smd.Size then some ReadErr.EOF else none,
          goCopy p ((d.currBlock.buf.take endOff).drop blockOff), d1, w⟩
    else
      if blockOff > d.currBlock.n ∨ d.currBlock.n > d.currBlock.buf.length then
        Except.error "slice bounds out of range"
      else
        let n := d.currBlock.n - blockOff
        let d1 := { d with off := d.off + n }
        Except.ok ⟨n, if d1.off = d.objmd.Smd.Size then some ReadErr.EOF else none,
          goCopy p ((d.currBlock.buf.take d.currBlock.n).drop blockOff), d1, w⟩

def Read {σ : Type} (s : S3Server σ) (ev : SelectEv) (d : objectDataIOReader) (p : List Byte)
    (w : World σ) : Except String (ReadResult σ) :=
  if d.off ≥ d.objmd.Smd.Size then Except.ok ⟨0, some ReadErr.EOF, p, d, w⟩
  else if d.objmd.Data.BlockSize = 0 then Except.error "integer divide by zero"
  else
    let idx := d.off / d.objmd.Data.BlockSize
    let blockOff := d.off % d.objmd.Data.BlockSize
    if idx < d.currBlock.blkIdx then
      Except.ok ⟨0, some (ReadErr.other "Invalid read request, read previous data again"), p,
        { d with respStatusCode := InvalidRequest, respStatus := "read previous data again" }, w⟩
    else if idx > d.currBlock.blkIdx then
      if !d.waitBlock then
        Except.ok ⟨0, some (ReadErr.other "InternalError, no prefetch task"), p,
          { d with respStatusCode := InternalError, respStatus := "no prefetch task" }, w⟩
      else
        let fi := RandomFI w
        match (if fi.1 then closeChan s d else Except.ok d) with
        | Except.error e => Except.error e
        | Except.ok d1 =>
          match ev, d1.c, d1.closed with
          | SelectEv.recv, some nextBlock, _ =>
            let d2 := { d1 with waitBlock := false, currBlock := nextBlock, c := none }
            if nextBlock.status = StatusOK ∧ d2.off + nextBlock.n < d2.objmd.Smd.Size then
              match prefetchBlock s { d2 with waitBlock := true } (nextBlock.blkIdx + 1)
                  d1.currBlock.buf fi.2 with
              | Except.error e => Except.error e
              | Except.ok (d3, w3) => readFill d3 idx blockOff p w3
            else readFill d2 idx blockOff p fi.2
          | SelectEv.closed, _, true =>
            Except.ok ⟨0, some (ReadErr.other "connection closed prematurely"), p,
              { d1 with respStatusCode := InternalError,
                        respStatus := "connection closed prematurely" }, fi.2⟩
          | _, _, _ =>
            Except.ok ⟨0, some (ReadErr.other "read timeout"), p,
              { d1 with respStatusCode := InternalError,
                        respStatus := "internal read timeout" }, fi.2⟩
    else readFill d idx blockOff p w

def getObjectMD {σ : Type} (s : S3Server σ) (store : σ) (bkname objname : String) :
    Option ObjectMD × Nat × String :=
  match s.s3io.ReadObjectMD store bkname objname with
  | (b, status, errmsg) =>
    if status ≠ StatusOK then (none, status, errmsg)
    else
      match s.Unmarshal b with
      | none => (none, InternalError, InternalErrorStr)
      | some objmd => (some objmd, StatusOK, StatusOKStr)

def getObjectOp {σ : Type} (s : S3Server σ) (resp : Response) (bkname objname : String)
    (w : World σ) : Except String (Response × World σ) :=
  match getObjectMD s w.store bkname objname with
  | (none, status, errmsg) => Except.ok ({ resp with StatusCode := status, Status := errmsg }, w)
  | (some objmd, status, errmsg) =>
    let resp1 := { resp with StatusCode := status, Status := errmsg }
    if status ≠ StatusOK then Except.ok (resp1, w)
    else
      let resp2 := { resp1 with ContentLength := objmd.Smd.Size }
      if objmd.Smd.Size = 0 then Except.ok (resp2, w)
      else
        let currBlock := readBlock s w.store objmd 0 (List.replicate objmd.Data.BlockSize 0)
        let rd : objectDataIOReader :=
          { respStatusCode := resp2.StatusCode, respStatus := resp2.Status, objmd := objmd,
            off := 0, currBlock := currBlock, waitBlock := false, c := none, closed := false,
            closeCalled := false }
        if currBlock.status ≠ StatusOK then
          if objmd.Data.Blocks.length = 0 then Except.error "index out of range"
          else
            Except.ok ({ resp2 with StatusCode := currBlock.status, Status := currBlock.errmsg }, w)
        else if objmd.Smd.Size > objmd.Data.BlockSize then
          match prefetchBlock s { rd with waitBlock := true } 1
              (List.replicate objmd.Data.BlockSize 0) w with
          | Except.error e => Except.error e
          | Except.ok (rd1, w1) => Except.ok ({ resp2 with Body := some rd1 }, w1)
        else Except.ok ({ resp2 with Body := some rd }, w)

def headObject {σ : Type} (s : S3Server σ) (resp : Response) (bkname objname : String)
    (w : World σ) : Response :=
  match getObjectMD s w.store bkname objname with
  | (none, status, errmsg) => { resp with StatusCode := status, Status := errmsg }
  | (some objmd, status, errmsg) =>
    let resp1 := { resp with StatusCode := status, Status := errmsg }
    if status ≠ StatusOK then resp1
    else
      { resp1 with
        Header := headerSet (headerSet resp1.Header LastModified (s.RFC1123 objmd.Smd.Mtime))
                    ETag objmd.Smd.Etag
        ContentLength := objmd.Smd.Size }

/-- A client of the response body: it calls `Read` with a buffer of
`bufLen i` bytes at call `i`, every awaited prefetch being delivered, until
`Read` returns an error (`io.EOF` included), and collects the bytes `p[:n]`. -/
def readAll {σ : Type} (s : S3Server σ) (bufLen : Nat → Nat) :
    Nat → Nat → objectDataIOReader → World σ → List Byte →
    Option (Except String (List Byte × ReadErr × objectDataIOReader × World σ))
  | 0, _, _, _, _ => none
  | fuel + 1, i, d, w, acc =>
    match Read s SelectEv.recv d (List.replicate (bufLen i) 0) w with
    | Except.error e => some (Except.error e)
    | Except.ok res =>
      match res.err with
      | some e => some (Except.ok (acc ++ res.p.take res.n, e, res.d, res.w))
      | none => readAll s bufLen fuel (i + 1) res.d res.w (acc ++ res.p.take res.n)

/-! ## Dispatcher -/

/-- How a handler run ends: it returns, it panics, or it does not return. -/
inductive Run (α : Type) where
  | ret (a : α)
  | panic (msg : String)
  | stuck

/-- What a handler leaves: the response, the request body and the world. -/
structure Served (σ : Type) where
  resp : Response
  body : Body
  w : World σ

def ofPut {σ : Type} (o : Option (PutObjectResult σ)) : Run (Served σ) :=
  match o with
  | none => Run.stuck
  | some res => Run.ret ⟨res.resp, res.body, res.w⟩

def putOp {σ : Type} (s : S3Server σ) (r : Request) (resp : Response)
    (bkname objname : String) (w : World σ) : Run (Served σ) :=
  if isBucketOp objname then
    if objname = "" ∨ objname = "/" then
      match s.s3io.PutBucket w.store bkname with
      | ((status, errmsg), store1) =>
        Run.ret ⟨{ resp with StatusCode := status, Status := errmsg }, r.Body,
          { w with store := store1 }⟩
    else Run.ret ⟨resp, r.Body, w⟩
  else ofPut (putObject s r resp bkname objname w)

def getOp {σ : Type} (s : S3Server σ) (r : Request) (resp : Response)
    (bkname objname : String) (w : World σ) : Run (Served σ) :=
  if isBucketOp objname then
    if objname = "" ∨ objname = "/" ∨ objname = BucketListOp then
      match s.s3io.GetBucket w.store bkname resp with
      | (resp1, store1) => Run.ret ⟨resp1, r.Body, { w with store := store1 }⟩
    else Run.ret ⟨resp, r.Body, w⟩
  else
    match getObjectOp s resp bkname objname w with
    | Except.error e => Run.panic e
    | Except.ok (resp1, w1) => Run.ret ⟨resp1, r.Body, w1⟩

def delOp {σ : Type} (s : S3Server σ) (r : Request) (resp : Response)
    (bkname objname : String) (w : World σ) : Run (Served σ) :=
  if isBucketOp objname then
    if objname = "" ∨ objname = "/" then
      match s.s3io.DeleteBucket w.store bkname with
      | ((status, errmsg), store1) =>
        Run.ret ⟨{ resp with StatusCode := status, Status := errmsg }, r.Body,
          { w with store := store1 }⟩
    else Run.ret ⟨resp, r.Body, w⟩
  else ofPut (putObject s r resp bkname objname w)

def headOp {σ : Type} (s : S3Server σ) (r : Request) (resp : Response)
    (bkname objname : String) (w : World σ) : Run (Served σ) :=
  if isBucketOp objname then
    if objname = "" ∨ objname = "/" then
      match s.s3io.HeadBucket w.store bkname with
      | ((status, errmsg), store1) =>
        Run.ret ⟨{ resp with StatusCode := status, Status := errmsg }, r.Body,
          { w with store := store1 }⟩
    else Run.ret ⟨{ resp with Status := "invalid head bucket operation" }, r.Body, w⟩
  else Run.ret ⟨headObject s resp bkname objname w, r.Body, w⟩

/-- The tail of `ServeHTTP` after the handler, up to the call
`resp.Write(w)`: the `Date` header is set, and the result is the response
handed to `resp.Write`. The transfer of the body by `resp.Write` and the
`resp.Body.Close()` after a failed write are not part of it. -/
def finish {σ : Type} (s : S3Server σ) (o : Run (Served σ)) : Run (Served σ) :=
  match o with
  | Run.ret res =>
    Run.ret { res with resp := { res.resp with
      Header := headerSet res.resp.Header Date (s.RFC1123 res.w.now) } }
  | Run.panic e => Run.panic e
  | Run.stuck => Run.stuck

/-- The handler `ServeHTTP`: the response handed to `resp.Write(w)`, the
request body and the world afterwards. Entering a handler is logged. -/
def ServeHTTP {σ : Type} (s : S3Server σ) (r : Request) (w : World σ) : Run (Served σ) :=
  let resp := newResponse
  let names := getBucketAndObjectName r
  let bkname := names.1
  let objname := names.2
  if bkname = "" then
    Run.ret ⟨{ resp with StatusCode := InvalidRequest,
                         Status := "InvalidRequest, no bucketname" }, r.Body, w⟩
  else if r.Method = "POST" then finish s (Run.ret ⟨resp, r.Body, w⟩)
  else if r.Method = "PUT" then
    finish s (putOp s r resp bkname objname (w.log (Event.Handler "putOp")))
  else if r.Method = "GET" then
    finish s (getOp s r resp bkname objname (w.log (Event.Handler "getOp")))
  else if r.Method = "HEAD" then
    finish s (headOp s r resp bkname objname (w.log (Event.Handler "headOp")))
  else if r.Method = "DELETE" then
    finish s (delOp s r resp bkname objname (w.log (Event.Handler "delOp")))
  else if r.Method = "OPTIONS" then finish s (Run.ret ⟨resp, r.Body, w⟩)
  else finish s (Run.ret ⟨{ resp with StatusCode := InvalidRequest }, r.Body, w⟩)

/-! ## A reference backend

An in-memory content-addressed store, used to run the pipelines on concrete
requests. -/

/-- Modelled from the spec: the backend behind `CloudIO` is not part of the
two source files. Blocks are kept under their digest, metadata blobs under
bucket and name; every call succeeds except a read of what is not there. -/
structure MemStore where
  blocks : List (String × List Byte)
  mds : List ((String × String) × List Byte)
  buckets : List String
deriving DecidableEq, Repr

def MemStore.empty : MemStore := ⟨[], [], []⟩

def NoSuchKey : Nat := 404

/-- Modelled from the spec: the interface of section 6 over `MemStore`. -/
def memBackend : CloudIO MemStore where
  PutBucket st b := ((StatusOK, StatusOKStr), { st with buckets := b :: st.buckets })
  DeleteBucket st b :=
    ((StatusOK, StatusOKStr), { st with buckets := st.buckets.filter fun x => x != b })
  HeadBucket st b :=
    (if st.buckets.contains b then (StatusOK, StatusOKStr) else (404, "NoSuchBucket"), st)
  GetBucket st _ resp := ({ resp with StatusCode := StatusOK, Status := StatusOKStr }, st)
  IsDataBlockExist st d := (st.blocks.lookup d).isSome
  WriteDataBlock st buf d := ((StatusOK, StatusOKStr), { st with blocks := (d, buf) :: st.blocks })
  ReadDataBlockRange st d off buf :=
    match st.blocks.lookup d with
    | none => (buf, 0, NoSuchKey, "NoSuchKey")
    | some c =>
      let data := (c.drop off).take buf.length
      (data ++ buf.drop data.length, data.length, StatusOK, StatusOKStr)
  WriteObjectMD st bk nm b := ((StatusOK, StatusOKStr), { st with mds := ((bk, nm), b) :: st.mds })
  ReadObjectMD st bk nm :=
    match st.mds.lookup (bk, nm) with
    | none => ([], NoSuchKey, "NoSuchKey")
    | some b => (b, StatusOK, StatusOKStr)

/-- A server over the reference backend with block size `B`. Its codec knows
the records of `known` and encodes each as the one-byte blob holding its
position in that list. -/
def memServer (B : Nat) (known : List ObjectMD) : S3Server MemStore where
  s3io := memBackend
  ReadBufferSize := B
  Marshal md := if known.indexOf md < known.length then some [known.indexOf md] else none
  Unmarshal b :=
    match b with
    | [i] => known[i]?
    | _ => none
  FIEnabled := false
  RFC1123 t := toString t

/-- The world a request meets when nothing has happened yet: an empty store,
no fault injected, clock at `0`, no writer task that gives up. -/
def World.init (store : MemStore) : World MemStore := ⟨store, [], 0, [], []⟩

/-- The response of `ServeHTTP` to a request without bucket name. -/
def noBucketResponse : Response :=
  { newResponse with StatusCode := 400, Status := "InvalidRequest, no bucketname" }

/-! ## Concrete inputs -/

/-- A record of nine bytes in blocks of four. -/
def md9 : ObjectMD :=
  { Smd := { Bucket := "b1", Name := "/k1", Mtime := 0, Size := 9,
             Etag := "8596c1af55b14b7b320112944fcb8536" },
    Data := { BlockSize := 4,
              Blocks := ["08d6c05a21512a79a1dfeb9d2a8f262f", "dece8077759a2b36b96fbd1203a832ab",
                         "5e732a1878be2342dbfeff5fe3ca5aa3"],
              DdBlocks := 0 } }

/-- A reader over `md9` one byte into its first block. -/
def rd9 : objectDataIOReader :=
  { respStatusCode := 200, respStatus := "OK", objmd := md9, off := 1,
    currBlock := { blkIdx := 0, buf := [1, 2, 3, 4], n := 4, status := 200, errmsg := "OK" },
    waitBlock := true,
    c := some { blkIdx := 1, buf := [5, 6, 7, 8], n := 4, status := 200, errmsg := "OK" },
    closed := false, closeCalled := false }

/-- The record of an empty object as `putObject` builds it on an empty store. -/
def mdZero : ObjectMD :=
  { Smd := { Bucket := "b1", Name := "/k1", Mtime := 0, Size := 0, Etag := ZeroDataETag },
    Data := { BlockSize := DataBlockSize, Blocks := [ZeroDataETag], DdBlocks := 0 } }

/-- The request `PUT /b1/k1` with an empty body and `Content-Length: 0`. -/
def reqZero : Request :=
  { Method := "PUT", Host := "s3.amazonaws.com", URL := "/b1/k1", ContentLength := 0, Body := [] }

/-! ## Vocabulary of the statements -/

/-- A body whose answers each hand over at least one byte without error, the
last one possibly together with `io.EOF`, but for zero-byte answers without
error: at most one of them when `zero` is false, none when it is true. -/
def tolerated : Bool → Body → Bool
  | _, [] => true
  | zero, c :: rest =>
    if c.data.isEmpty then c.err == none && !zero && tolerated true rest
    else (c.err == none || (c.err == some ReadErr.EOF && rest.isEmpty)) && tolerated zero rest

/-- A body that answers every read with at least one byte and without error,
the last answer possibly together with `io.EOF`, but for at most one
zero-byte answer without error (the one `readFullBuf` allows). -/
def wellBehaved (body : Body) : Bool := tolerated false body

/-- The bytes a body hands over in all. -/
def payload (body : Body) : List Byte := body.flatMap Chunk.data

/-- The body is well behaved and the bytes it hands over are exactly `b`:
it never stops short of `b` with an error, and it does not answer zero bytes
without error twice. -/
def Delivers (body : Body) (b : List Byte) : Prop :=
  wellBehaved body = true ∧ payload body = b

/-- The number of blocks of a payload, `ceil(size / B)`. -/
def nBlocks (B size : Nat) : Nat := (size + B - 1) / B

/-- Block `i` of a payload: its bytes `[i*B, min(size, (i+1)*B))`. -/
def blockAt (B : Nat) (b : List Byte) (i : Nat) : List Byte := (b.drop (i * B)).take B

/-- The blocks of a payload in ascending index. -/
def blocksOf (B : Nat) (b : List Byte) : List (List Byte) :=
  (List.range (nBlocks B b.length)).map (blockAt B b)

/-- The blocks the write pipeline handles for a payload: its blocks, and for
the empty payload one empty block. -/
def putBlocks (B : Nat) (b : List Byte) : List (List Byte) :=
  if b = [] then [[]] else blocksOf B b

/-- The store after the writer task has handled `blk`. -/
def storeAfterBlock {σ : Type} (s : S3Server σ) (store : σ) (blk : List Byte) : σ :=
  if s.s3io.IsDataBlockExist store (md5Hex blk) then store
  else (s.s3io.WriteDataBlock store blk (md5Hex blk)).2

/-- The store after the writer task has handled the blocks in turn. -/
def storeAfter {σ : Type} (s : S3Server σ) : List (List Byte) → σ → σ
  | [], store => store
  | blk :: rest, store => storeAfter s rest (storeAfterBlock s store blk)

/-- The `WriteDataBlock` calls handling the blocks in turn makes. -/
def writesOf {σ : Type} (s : S3Server σ) : List (List Byte) → σ → List Event
  | [], _ => []
  | blk :: rest, store =>
    (if s.s3io.IsDataBlockExist store (md5Hex blk) then []
      else [Event.WriteDataBlock blk (md5Hex blk)])
    ++ writesOf s rest (storeAfterBlock s store blk)

/-- How many of the blocks are found in the store when their turn comes. -/
def ddOf {σ : Type} (s : S3Server σ) : List (List Byte) → σ → Nat
  | [], _ => 0
  | blk :: rest, store =>
    (if s.s3io.IsDataBlockExist store (md5Hex blk) then 1 else 0)
    + ddOf s rest (storeAfterBlock s store blk)

/-- Every block that is not found in the store when its turn comes is
written with status OK. -/
def allWritten {σ : Type} (s : S3Server σ) : List (List Byte) → σ → Prop
  | [], _ => True
  | blk :: rest, store =>
    (s.s3io.IsDataBlockExist store (md5Hex blk) = false →
      (s.s3io.WriteDataBlock store blk (md5Hex blk)).1.1 = StatusOK)
    ∧ allWritten s rest (storeAfterBlock s store blk)

/-- The digest the writer in flight will report, if one is in flight. -/
def pendDigest (c : Option writeDataBlockResult) : List String :=
  match c with
  | none => []
  | some res => [res.md5str]

/-- The dedup hit the writer in flight will report, if one is in flight. -/
def pendDD (c : Option writeDataBlockResult) : Nat :=
  match c with
  | none => 0
  | some res => if res.exist then 1 else 0

/-- The writer in flight, if any, reports status OK. -/
def pendOK (c : Option writeDataBlockResult) : Prop :=
  ∀ res, c = some res → res.status = StatusOK

/-- What a successful run of the streaming path from the loop state `st`
leaves when the body still has `rest` to deliver. -/
def StreamSpec {σ : Type} (s : S3Server σ) (st : PutLoop σ) (rest : List Byte)
    (res : PutResult σ) : Prop :=
  res.md.Smd = { st.md.Smd with Etag := md5Hex (st.etag ++ rest) } ∧
  res.md.Data.BlockSize = st.md.Data.BlockSize ∧
  res.md.Data.Blocks = st.md.Data.Blocks ++ pendDigest st.c
    ++ (blocksOf s.ReadBufferSize rest).map md5Hex ∧
  res.md.Data.DdBlocks = st.ddBlocks + pendDD st.c
    + ddOf s (blocksOf s.ReadBufferSize rest) st.w.store ∧
  res.w.store = storeAfter s (blocksOf s.ReadBufferSize rest) st.w.store ∧
  res.w.trace = st.w.trace ++ writesOf s (blocksOf s.ReadBufferSize rest) st.w.store ∧
  res.w.now = st.w.now ∧
  pendOK st.c ∧ allWritten s (blocksOf s.ReadBufferSize rest) st.w.store

/-- What a successful `putObjectData` leaves for a payload `b`, started on
the record `md` in the world `w`. -/
def PutSpec {σ : Type} (s : S3Server σ) (md : ObjectMD) (w : World σ) (b : List Byte)
    (res : PutResult σ) : Prop :=
  res.md.Smd = { md.Smd with Etag := md5Hex b } ∧
  res.md.Data.BlockSize = s.ReadBufferSize ∧
  res.md.Data.Blocks = md.Data.Blocks ++ (putBlocks s.ReadBufferSize b).map md5Hex ∧
  res.md.Data.DdBlocks = ddOf s (putBlocks s.ReadBufferSize b) w.store ∧
  res.w.store = storeAfter s (putBlocks s.ReadBufferSize b) w.store ∧
  res.w.trace = w.trace ++ writesOf s (putBlocks s.ReadBufferSize b) w.store ∧
  res.w.now = w.now ∧
  allWritten s (putBlocks s.ReadBufferSize b) w.store

/-- The request `PUT /b1/k1` whose body hands over nine bytes in two answers,
the second with `io.EOF`. -/
def req9 : Request :=
  { Method := "PUT", Host := "s3.amazonaws.com", URL := "/b1/k1", ContentLength := 9,
    Body := [⟨[1, 2, 3], none⟩, ⟨[4, 5, 6, 7, 8, 9], some ReadErr.EOF⟩] }

/-- The nine bytes of `req9`. -/
def bytes9 : List Byte := [1, 2, 3, 4, 5, 6, 7, 8, 9]

/-- A backend that keeps its blocks: `IsDataBlockExist(d)` is true after a
successful `WriteDataBlock(_, d)`, and stays true through later block and
metadata writes. -/
structure KeepsBlocks {σ : Type} (io : CloudIO σ) : Prop where
  exist_after_write : ∀ st buf d, (io.WriteDataBlock st buf d).1.1 = StatusOK →
    io.IsDataBlockExist (io.WriteDataBlock st buf d).2 d = true
  exist_mono_write : ∀ st buf d d', io.IsDataBlockExist st d' = true →
    io.IsDataBlockExist (io.WriteDataBlock st buf d).2 d' = true
  exist_mono_md : ∀ st bk nm mdbyte d', io.IsDataBlockExist st d' = true →
    io.IsDataBlockExist (io.WriteObjectMD st bk nm mdbyte).2 d' = true

/-- Whether an event is a `WriteDataBlock` call. -/
def Event.isWriteDataBlock : Event → Bool
  | Event.WriteDataBlock _ _ => true
  | _ => false

/-- The number of `WriteDataBlock` calls in a log. -/
def countWrites (trace : List Event) : Nat := (trace.filter Event.isWriteDataBlock).length

/-- The request `PUT /b2/k2` with the nine bytes of `req9` in one answer. -/
def req9b : Request :=
  { Method := "PUT", Host := "s3.amazonaws.com", URL := "/b2/k2", ContentLength := 9,
    Body := [⟨[1, 2, 3, 4, 5, 6, 7, 8, 9], none⟩] }

/-- The record of the second PUT of the nine bytes, under `/b2/k2`. -/
def md9b : ObjectMD :=
  { Smd := { md9.Smd with Bucket := "b2", Name := "/k2" },
    Data := { md9.Data with DdBlocks := 3 } }

/-- A backend in which writing a block makes no other block appear. -/
structure WriteFrame {σ : Type} (io : CloudIO σ) : Prop where
  frame : ∀ st buf d d', d' ≠ d → io.IsDataBlockExist st d' = false →
    io.IsDataBlockExist (io.WriteDataBlock st buf d).2 d' = false

/-- One block of zero bytes. -/
@[irreducible]
def zeroBlock : List Byte := List.replicate DataBlockSize 0

/-- A payload of two equal blocks: `2 * 131072` zero bytes. -/
@[irreducible]
def dupBytes : List Byte := List.replicate (2 * DataBlockSize) 0

/-- The request `PUT /b1/big` whose body delivers `dupBytes` in one answer. -/
def reqDup : Request :=
  { Method := "PUT", Host := "s3.amazonaws.com", URL := "/b1/big",
    ContentLength := 2 * DataBlockSize, Body := [⟨dupBytes, none⟩] }

/-- The record of `dupBytes` as a first PUT on an empty store builds it. -/
def mdDup : ObjectMD :=
  { Smd := { Bucket := "b1", Name := "/big", Mtime := 0, Size := dupBytes.length,
             Etag := md5Hex dupBytes },
    Data := { BlockSize := DataBlockSize, Blocks := [md5Hex zeroBlock, md5Hex zeroBlock],
              DdBlocks := 1 } }

/-- Modelled from the spec: a backend out of service for block writes. It is
the reference backend except that `WriteDataBlock` answers 503 and stores
nothing. -/
def failBackend : CloudIO MemStore :=
  { memBackend with WriteDataBlock := fun st _ _ => ((503, "ServiceUnavailable"), st) }

/-- A server with block size `DataBlockSize` over `failBackend`. -/
def failServer : S3Server MemStore :=
  { memServer DataBlockSize [] with s3io := failBackend }

/-- Two blocks and one byte: `2 * 131072 + 1` zero bytes. -/
@[irreducible]
def shortBytes : List Byte := List.replicate (2 * DataBlockSize + 1) 0

/-- The request `PUT /b1/big` that announces `3 * 131072` bytes and whose
body delivers `shortBytes`, then `io.EOF`. -/
def reqShort : Request :=
  { Method := "PUT", Host := "s3.amazonaws.com", URL := "/b1/big",
    ContentLength := 3 * DataBlockSize, Body := [⟨shortBytes, none⟩] }

/-- The request `PUT /b1/k1` that announces nine bytes and whose body
delivers three, then `io.EOF`. -/
def req3of9 : Request :=
  { Method := "PUT", Host := "s3.amazonaws.com", URL := "/b1/k1", ContentLength := 9,
    Body := [⟨[1, 2, 3], none⟩] }

/-- A backend that stores each block written by `WriteDataBlock` under its
digest and returns it in full from `ReadDataBlockRange`, and that returns a
metadata blob as it was written: `content st d` is the block the store `st`
holds under the digest `d`. -/
structure ContentStore {σ : Type} (io : CloudIO σ)
    (content : σ → String → Option (List Byte)) : Prop where
  exist_iff : ∀ st d, io.IsDataBlockExist st d = (content st d).isSome
  write_block : ∀ st buf d, (io.WriteDataBlock st buf d).1.1 = StatusOK →
    ∀ d', content (io.WriteDataBlock st buf d).2 d' = if d' = d then some buf else content st d'
  write_md : ∀ st bk nm mdbyte d, content (io.WriteObjectMD st bk nm mdbyte).2 d = content st d
  read_block : ∀ st d c buf, content st d = some c → c.length ≤ buf.length →
    (io.ReadDataBlockRange st d 0 buf).2.1 = c.length ∧
    (io.ReadDataBlockRange st d 0 buf).2.2.1 = StatusOK ∧
    (io.ReadDataBlockRange st d 0 buf).1.take c.length = c ∧
    (io.ReadDataBlockRange st d 0 buf).1.length = buf.length
  read_md : ∀ st bk nm mdbyte, (io.WriteObjectMD st bk nm mdbyte).1.1 = StatusOK →
    (io.ReadObjectMD (io.WriteObjectMD st bk nm mdbyte).2 bk nm).1 = mdbyte ∧
    (io.ReadObjectMD (io.WriteObjectMD st bk nm mdbyte).2 bk nm).2.1 = StatusOK

/-- The result of a block read holds block `k` of the payload `b`. -/
def GoodBlock (B : Nat) (b : List Byte) (pr : dataBlockReadResult) (k : Nat) : Prop :=
  pr.blkIdx = k ∧ pr.status = StatusOK ∧ pr.n = (blockAt B b k).length ∧
  pr.buf.take pr.n = blockAt B b k ∧ pr.buf.length = B

/-- The state of a reader over the payload `b` in blocks of `B` whose
resident block is block `k`: the offset lies in or at the end of that block,
and when a further block exists its prefetch is on the channel. -/
def ReaderAt (B : Nat) (b : List Byte) (d : objectDataIOReader) (k : Nat) : Prop :=
  d.objmd.Smd.Size = b.length ∧ d.objmd.Data.BlockSize = B ∧
  d.objmd.Data.Blocks = (blocksOf B b).map md5Hex ∧
  GoodBlock B b d.currBlock k ∧ k * B < b.length ∧
  k * B ≤ d.off ∧ d.off ≤ k * B + d.currBlock.n ∧
  ((k + 1) * B < b.length → d.waitBlock = true ∧ ∃ pr, d.c = some pr ∧ GoodBlock B b pr (k + 1))

/-- The request `GET /` on a path-style host: its bucket name decodes to empty. -/
def reqNoBucket : Request :=
  { Method := "GET", Host := "s3.amazonaws.com", URL := "/", ContentLength := 0, Body := [] }

/-- A body whose first two answers are zero bytes without error. -/
def bodyTwoZero (rest : Body) : Body := ⟨[], none⟩ :: ⟨[], none⟩ :: rest

/-- The backend returns every block of the record `md` held in the store `st`
with status OK, into a buffer of `block_size` bytes it fills in place:
`block_size` bytes for every block but the last, and for the last the
remaining `size - (len(blocks) - 1) * block_size` bytes. -/
def ReadsSized {σ : Type} (s : S3Server σ) (st : σ) (md : ObjectMD) : Prop :=
  ∀ k buf, k < md.Data.Blocks.length → buf.length = md.Data.BlockSize →
    (s.s3io.ReadDataBlockRange st (md.Data.Blocks.getD k "") 0 buf).2.2.1 = StatusOK ∧
    (s.s3io.ReadDataBlockRange st (md.Data.Blocks.getD k "") 0 buf).2.1
      = (if k + 1 = md.Data.Blocks.length
          then md.Smd.Size - (md.Data.Blocks.length - 1) * md.Data.BlockSize
          else md.Data.BlockSize) ∧
    (s.s3io.ReadDataBlockRange st (md.Data.Blocks.getD k "") 0 buf).1.length = buf.length

/-- The states of a body reader reachable from `getObjectOp` by `Read` calls,
every awaited prefetch being delivered: the reader `getObjectOp` puts in the
response, and the reader after a `Read` that returned. -/
inductive Reachable {σ : Type} (s : S3Server σ) (resp : Response) (bkname objname : String)
    (w0 : World σ) : objectDataIOReader → World σ → Prop where
  | start (resp1 : Response) (w1 : World σ) (rd : objectDataIOReader) :
      getObjectOp s resp bkname objname w0 = Except.ok (resp1, w1) →
      resp1.Body = some rd → Reachable s resp bkname objname w0 rd w1
  | read (d : objectDataIOReader) (w : World σ) (p : List Byte) (res : ReadResult σ) :
      Reachable s resp bkname objname w0 d w →
      Read s SelectEv.recv d p w = Except.ok res →
      Reachable s resp bkname objname w0 res.d res.w

/-- A block read result for block `k` of the record `md`: status OK, the
length of block `k`, in a buffer of `block_size` bytes. -/
def SizedBlock (md : ObjectMD) (pr : dataBlockReadResult) (k : Nat) : Prop :=
  pr.blkIdx = k ∧ pr.status = StatusOK ∧
  pr.n = min md.Data.BlockSize (md.Smd.Size - k * md.Data.BlockSize) ∧
  pr.buf.length = md.Data.BlockSize

/-- The invariant of a reader over the record `md` on the store `st0`: the
resident block is a block of the record that starts below `size`, `off`
lies in it or at its end, a prefetch of the next block is on its way when
there is one, the `closed` channel is closed only through `closeChan`, and
faults are injected only when fault injection is enabled. -/
def ReaderInv {σ : Type} (s : S3Server σ) (md : ObjectMD) (st0 : σ)
    (d : objectDataIOReader) (w : World σ) : Prop :=
  d.objmd = md ∧ w.store = st0 ∧ (s.FIEnabled = false → w.fi = []) ∧
  (d.closed = true → d.closeCalled = true) ∧
  SizedBlock md d.currBlock d.currBlock.blkIdx ∧
  d.currBlock.blkIdx * md.Data.BlockSize < md.Smd.Size ∧
  d.currBlock.blkIdx * md.Data.BlockSize ≤ d.off ∧
  d.off ≤ d.currBlock.blkIdx * md.Data.BlockSize + d.currBlock.n ∧
  ((d.currBlock.blkIdx + 1) * md.Data.BlockSize < md.Smd.Size →
    d.waitBlock = true ∧ ∃ pr, d.c = some pr ∧ SizedBlock md pr (d.currBlock.blkIdx + 1))

/-- A record of three bytes in one block of four. -/
def md3 : ObjectMD :=
  { Smd := { Bucket := "b1", Name := "/k1", Mtime := 0, Size := 3, Etag := "e3" },
    Data := { BlockSize := 4, Blocks := ["d3"], DdBlocks := 0 } }

/-- A store that holds the record `md3` and its block. -/
def store3 : MemStore :=
  { blocks := [("d3", [1, 2, 3])], mds := [(("b1", "/k1"), [0])], buckets := [] }

/-- The reader `getObjectOp` builds over `md3`. -/
def rd3 : objectDataIOReader :=
  { respStatusCode := 200, respStatus := "OK", objmd := md3, off := 0,
    currBlock := { blkIdx := 0, buf := [1, 2, 3, 0], n := 3, status := 200, errmsg := "OK" },
    waitBlock := false, c := none, closed := false, closeCalled := false }

/-- The pieces of a split joined again with the separator between them. -/
def joinChars (sep : Char) : List (List Char) → List Char
  | [] => []
  | [x] => x
  | x :: rest => x ++ sep :: joinChars sep rest

/-- The host is made of the four dot-separated labels `l0.l1.l2.l3`. -/
def FourLabels (host l0 l1 l2 l3 : String) : Prop :=
  '.' ∉ l0.toList ∧ '.' ∉ l1.toList ∧ '.' ∉ l2.toList ∧ '.' ∉ l3.toList ∧
  host = l0 ++ "." ++ l1 ++ "." ++ l2 ++ "." ++ l3

/-- The request `PUT /b1/k1` that announces four bytes and whose body answers
zero bytes without error twice before it hands over `1, 2, 3, 4`. -/
def reqZeroReads : Request :=
  { Method := "PUT", Host := "s3.amazonaws.com", URL := "/b1/k1", ContentLength := 4,
    Body := bodyTwoZero [⟨[1, 2, 3, 4], none⟩] }

/-- The record of four zero bytes in one block, under `(bk, nm)`. -/
def mdZeroReads (B : Nat) (bk nm : String) : ObjectMD :=
  { Smd := { Bucket := bk, Name := nm, Mtime := 0, Size := 4,
             Etag := "f1d3ff8443297732862df21dc4e57262" },
    Data := { BlockSize := B, Blocks := ["f1d3ff8443297732862df21dc4e57262"], DdBlocks := 0 } }

/-- The request `PUT /b1/k1` with the four bytes `1, 2, 3, 4` in one answer. -/
def req4 : Request :=
  { Method := "PUT", Host := "s3.amazonaws.com", URL := "/b1/k1", ContentLength := 4,
    Body := [⟨[1, 2, 3, 4], none⟩] }

/-- The record of the bytes `1, 2, 3, 4` in one block, under `/b1/k1`. -/
def md4 (B : Nat) : ObjectMD :=
  { Smd := { Bucket := "b1", Name := "/k1", Mtime := 0, Size := 4,
             Etag := "08d6c05a21512a79a1dfeb9d2a8f262f" },
    Data := { BlockSize := B, Blocks := ["08d6c05a21512a79a1dfeb9d2a8f262f"], DdBlocks := 0 } }

/-- The request `PUT /b1/k1` that announces nine bytes and whose body answers
zero bytes without error twice before it hands over `1, ..., 9`. -/
def req9ZeroReads : Request :=
  { Method := "PUT", Host := "s3.amazonaws.com", URL := "/b1/k1", ContentLength := 9,
    Body := bodyTwoZero [⟨[1, 2, 3, 4, 5, 6, 7, 8, 9], none⟩] }

/-- The record `putObject` starts from for `/b1/k1` with `size` bytes. -/
def mdStart (B size : Nat) : ObjectMD :=
  { Smd := { Bucket := "b1", Name := "/k1", Mtime := 0, Size := size, Etag := "" },
    Data := { BlockSize := B, Blocks := [], DdBlocks := 0 } }

/-- The request `PUT /b1/k1` that announces nine bytes and whose body reaches
`io.EOF` after five. -/
def req5of9 : Request :=
  { Method := "PUT", Host := "s3.amazonaws.com", URL := "/b1/k1", ContentLength := 9,
    Body := [⟨[1, 2, 3, 4, 5], some ReadErr.EOF⟩] }

/-! # Theorems -/

/-! ## Splitting strings -/

theorem splitChars_not_mem (sep : Char) (l : List Char) (h : sep ∉ l) :
    splitChars sep l = [l] := by
  induction l with
  | nil => rfl
  | cons c cs ih =>
    have hc : c ≠ sep := fun e => h (by simp [e])
    have hcs : sep ∉ cs := fun e => h (by simp [e])
    simp [splitChars, hc, ih hcs, consHead]

theorem splitChars_append (sep : Char) (l rest : List Char) (h : sep ∉ l) :
    splitChars sep (l ++ sep :: rest) = l :: splitChars sep rest := by
  induction l with
  | nil => simp [splitChars]
  | cons c cs ih =>
    have hc : c ≠ sep := fun e => h (by simp [e])
    have hcs : sep ∉ cs := fun e => h (by simp [e])
    simp [splitChars, hc, ih hcs, consHead]

theorem splitNChars_not_mem (sep : Char) (n : Nat) (l : List Char) (h : sep ∉ l) :
    splitNChars sep (n + 1) l = [l] := by
  induction l with
  | nil => cases n <;> rfl
  | cons c cs ih =>
    have hc : c ≠ sep := fun e => h (by simp [e])
    have hcs : sep ∉ cs := fun e => h (by simp [e])
    cases n with
    | zero => rfl
    | succ n => simp [splitNChars, hc, ih hcs, consHead]

theorem splitNChars_append (sep : Char) (n : Nat) (l rest : List Char) (h : sep ∉ l) :
    splitNChars sep (n + 2) (l ++ sep :: rest) = l :: splitNChars sep (n + 1) rest := by
  induction l with
  | nil => simp [splitNChars]
  | cons c cs ih =>
    have hc : c ≠ sep := fun e => h (by simp [e])
    have hcs : sep ∉ cs := fun e => h (by simp [e])
    simp [splitNChars, hc, ih hcs, consHead]

theorem splitN3_append (l rest : List Char) (h : '/' ∉ l) :
    splitNChars '/' 3 (l ++ '/' :: rest) = l :: splitNChars '/' 2 rest :=
  splitNChars_append '/' 1 l rest h

theorem splitN2_append (l rest : List Char) (h : '/' ∉ l) :
    splitNChars '/' 2 (l ++ '/' :: rest) = [l, rest] := by
  have e := splitNChars_append '/' 0 l rest h
  simpa [splitNChars] using e

theorem splitN2_not_mem (l : List Char) (h : '/' ∉ l) : splitNChars '/' 2 l = [l] :=
  splitNChars_not_mem '/' 1 l h

theorem SplitN_three (b k : String) (hb : '/' ∉ b.toList) :
    SplitN ("/" ++ b ++ "/" ++ k) '/' 3 = ["", b, k] := by
  have h : ("/" ++ b ++ "/" ++ k).toList = [] ++ '/' :: (b.toList ++ '/' :: k.toList) := by
    simp [String.toList]
  unfold SplitN
  rw [h, splitN3_append [] _ (by simp), splitN2_append _ _ hb]
  rfl

theorem SplitN_two (b : String) (hb : '/' ∉ b.toList) :
    SplitN ("/" ++ b) '/' 3 = ["", b] := by
  have h : ("/" ++ b).toList = [] ++ '/' :: b.toList := by
    simp [String.toList]
  unfold SplitN
  rw [h, splitN3_append [] _ (by simp), splitN2_not_mem _ hb]
  rfl

theorem Split_four (l0 l1 l2 l3 : String) (h0 : '.' ∉ l0.toList) (h1 : '.' ∉ l1.toList)
    (h2 : '.' ∉ l2.toList) (h3 : '.' ∉ l3.toList) :
    Split (l0 ++ "." ++ l1 ++ "." ++ l2 ++ "." ++ l3) '.' = [l0, l1, l2, l3] := by
  have h : (l0 ++ "." ++ l1 ++ "." ++ l2 ++ "." ++ l3).toList
      = l0.toList ++ '.' :: (l1.toList ++ '.' :: (l2.toList ++ '.' :: l3.toList)) := by
    simp [String.toList]
  unfold Split
  rw [h, splitChars_append _ _ _ h0, splitChars_append _ _ _ h1,
    splitChars_append _ _ _ h2, splitChars_not_mem _ _ h3]
  rfl

/-- C8. Path-style decoding. For a host that is not virtual-hosted, a bucket
segment `b` without `/` and any string `k`: the URL `/b/k` decodes to
`(b, /k)`, `/b/` and `/b` decode to `(b, /)`, and `/` decodes to an empty
bucket, to which `ServeHTTP` answers 400 "InvalidRequest, no bucketname"
with the world (store, fault coins, event log) and the body untouched: no
handler is entered. -/
theorem path_style_decoding (r : Request) (hhost : getBucketFromHost r.Host = "")
    (b k : String) (hb : '/' ∉ b.toList) :
    (r.URL = "/" ++ b ++ "/" ++ k → getBucketAndObjectName r = (b, "/" ++ k)) ∧
    (r.URL = "/" ++ b ++ "/" → getBucketAndObjectName r = (b, "/")) ∧
    (r.URL = "/" ++ b → getBucketAndObjectName r = (b, "/")) ∧
    (r.URL = "/" → (getBucketAndObjectName r).1 = "" ∧
      ∀ (σ : Type) (s : S3Server σ) (w : World σ),
        ServeHTTP s r w = Run.ret ⟨noBucketResponse, r.Body, w⟩) := by
  have three : ∀ k' : String, r.URL = "/" ++ b ++ "/" ++ k' →
      getBucketAndObjectName r = (b, "/" ++ k') := by
    intro k' h
    simp [getBucketAndObjectName, hhost, h, SplitN_three b k' hb]
  have two : ∀ b' : String, '/' ∉ b'.toList → r.URL = "/" ++ b' →
      getBucketAndObjectName r = (b', "/") := by
    intro b' hb' h
    simp [getBucketAndObjectName, hhost, h, SplitN_two b' hb']
  refine ⟨three k, ?_, two b hb, ?_⟩
  · intro h
    have := three "" (by simpa using h)
    simpa using this
  · intro h
    have e := two "" (by simp) (by simpa using h)
    refine ⟨by rw [e], ?_⟩
    intro σ s w
    simp [ServeHTTP, e, noBucketResponse, InvalidRequest]

theorem path_style_decoding_witness :
    getBucketAndObjectName ⟨"GET", "s3.amazonaws.com", "/b1/k1", 0, []⟩ = ("b1", "/" ++ "k1") :=
  (path_style_decoding ⟨"GET", "s3.amazonaws.com", "/b1/k1", 0, []⟩ (by decide) "b1" "k1"
    (by decide)).1 (by decide)

theorem HasPrefix_iff (s p : String) : HasPrefix s p = true ↔ p.toList <+: s.toList := by
  unfold HasPrefix
  exact List.isPrefixOf_iff_prefix

theorem splitChars_ne_nil (sep : Char) (l : List Char) : splitChars sep l ≠ [] := by
  cases l with
  | nil => simp [splitChars]
  | cons c cs =>
    unfold splitChars
    by_cases h : c = sep
    · simp [h]
    · simp only [h, if_false]
      cases splitChars sep cs <;> simp [consHead]

/-- What `splitChars` returns are the separator-free pieces of its argument:
joined again they give it back. -/
theorem splitChars_sound (sep : Char) (l : List Char) :
    (∀ p ∈ splitChars sep l, sep ∉ p) ∧ joinChars sep (splitChars sep l) = l := by
  induction l with
  | nil => simp [splitChars, joinChars]
  | cons c cs ih =>
    obtain ⟨ih1, ih2⟩ := ih
    have hne := splitChars_ne_nil sep cs
    unfold splitChars
    by_cases h : c = sep
    · simp only [h, if_true]
      constructor
      · intro p hp
        rcases List.mem_cons.1 hp with rfl | hp
        · simp
        · exact ih1 p hp
      · cases hs : splitChars sep cs with
        | nil => exact absurd hs hne
        | cons x rest =>
          rw [hs] at ih2
          simp [joinChars, ih2]
    · simp only [h, if_false]
      cases hs : splitChars sep cs with
      | nil => exact absurd hs hne
      | cons x rest =>
        rw [hs] at ih1 ih2
        constructor
        · intro p hp
          simp only [consHead, List.mem_cons] at hp
          rcases hp with rfl | hp
          · intro hmem
            rcases List.mem_cons.1 hmem with e | e
            · exact h e.symm
            · exact ih1 x (by simp) e
          · exact ih1 p (by simp [hp])
        · cases rest with
          | nil =>
            simp only [joinChars] at ih2 ⊢
            simp [consHead, joinChars, ih2]
          | cons y ys =>
            simp only [joinChars] at ih2 ⊢
            simp [consHead, joinChars, ih2]

/-- A host that splits on `.` into four pieces is made of four labels. -/
theorem Split_four_inv (host : String) (h : (Split host '.').length = 4) :
    ∃ l0 l1 l2 l3, FourLabels host l0 l1 l2 l3 := by
  unfold Split at h
  rw [List.length_map] at h
  obtain ⟨hfree, hjoin⟩ := splitChars_sound '.' host.toList
  match hs : splitChars '.' host.toList, h with
  | [a, b, c, d], _ =>
    rw [hs] at hfree hjoin
    refine ⟨String.mk a, String.mk b, String.mk c, String.mk d,
      hfree a (by simp), hfree b (by simp), hfree c (by simp), hfree d (by simp), ?_⟩
    apply String.ext
    simp only [joinChars] at hjoin
    simp [String.toList] at hjoin ⊢
    rw [← hjoin]

/-- C9. Virtual-hosted decoding. For every host: when the host is made of four
dot-separated labels `l0.l1.l2.l3`, `getBucketFromHost` returns the first
label `l0` if the second label `l1` begins with `s3` and the empty string if
it does not; when the host is not made of four dot-separated labels it returns
the empty string. Whenever it returns a non-empty bucket,
`getBucketAndObjectName` returns that bucket and the whole request URL. -/
theorem virtual_hosted_decoding (host : String) :
    (∀ l0 l1 l2 l3 : String, FourLabels host l0 l1 l2 l3 →
      ("s3".toList <+: l1.toList → getBucketFromHost host = l0) ∧
      (¬ "s3".toList <+: l1.toList → getBucketFromHost host = "")) ∧
    ((¬ ∃ l0 l1 l2 l3 : String, FourLabels host l0 l1 l2 l3) → getBucketFromHost host = "") ∧
    (∀ r : Request, r.Host = host → getBucketFromHost host ≠ "" →
      getBucketAndObjectName r = (getBucketFromHost host, r.URL)) := by
  refine ⟨?_, ?_, ?_⟩
  · intro l0 l1 l2 l3 ⟨h0, h1, h2, h3, h⟩
    subst h
    constructor
    · intro hp
      have hp' := (HasPrefix_iff l1 "s3").2 hp
      simp [getBucketFromHost, Split_four l0 l1 l2 l3 h0 h1 h2 h3, hp']
    · intro hp
      have hp' : HasPrefix l1 "s3" = false := by
        cases hb : HasPrefix l1 "s3"
        · rfl
        · exact absurd ((HasPrefix_iff l1 "s3").1 hb) hp
      simp [getBucketFromHost, Split_four l0 l1 l2 l3 h0 h1 h2 h3, hp']
  · intro hno
    have h4 : (Split host '.').length ≠ 4 := fun h => hno (Split_four_inv host h)
    unfold getBucketFromHost
    by_cases h3 : (Split host '.').length = 3 <;> simp [h4, h3]
  · intro r hr hne
    simp [getBucketAndObjectName, hr, hne]

theorem virtual_hosted_decoding_witness :
    getBucketFromHost "b1.s3.amazonaws.com" = "b1" ∧
    getBucketFromHost "b1.s3-us-west-2.amazonaws.com" = "b1" ∧
    getBucketFromHost "b1.x3.amazonaws.com" = "" ∧
    getBucketFromHost "s3.amazonaws.com" = "" ∧
    getBucketFromHost "127.0.0.1" = "" ∧
    getBucketFromHost "a.s3.b.c.d" = "" ∧
    getBucketAndObjectName ⟨"GET", "b1.s3.amazonaws.com", "/k1?x", 0, []⟩ = ("b1", "/k1?x") :=
  ⟨((virtual_hosted_decoding "b1.s3.amazonaws.com").1 "b1" "s3" "amazonaws" "com"
      ⟨by decide, by decide, by decide, by decide, by decide⟩).1 (List.prefix_refl _),
    ((virtual_hosted_decoding "b1.s3-us-west-2.amazonaws.com").1 "b1" "s3-us-west-2"
      "amazonaws" "com" ⟨by decide, by decide, by decide, by decide, by decide⟩).1
      ⟨"-us-west-2".toList, rfl⟩,
    ((virtual_hosted_decoding "b1.x3.amazonaws.com").1 "b1" "x3" "amazonaws" "com"
      ⟨by decide, by decide, by decide, by decide, by decide⟩).2 (by decide),
    by decide, by decide, by decide, by decide⟩

/-! ## The consumer `Read` -/

theorem goCopy_slice (p buf : List Byte) (a e : Nat) (he : e ≤ buf.length)
    (hp : e - a ≤ p.length) :
    goCopy p ((buf.take e).drop a) = (buf.drop a).take (e - a) ++ p.drop (e - a) := by
  have hl : ((buf.take e).drop a).length = e - a := by
    simp [List.length_drop, List.length_take, Nat.min_eq_left he]
  have hs : (buf.take e).drop a = (buf.drop a).take (e - a) := by
    rw [List.drop_take]
  unfold goCopy
  rw [hl, List.take_of_length_le (by omega), hs]

/-- C10. Single-block `Read`. In a reader state with `off < size` whose
resident block has status OK, index `off / block_size` and holds `curr.n`
bytes in its buffer (`curr.n ≤ len(curr.buf)`) with
`blk_off = off mod block_size ≤ curr.n`, `Read(p)` returns
`n = min(len(p), curr.n - blk_off)`, leaves `curr.buf[blk_off : blk_off + n]`
in `p[:n]` and the rest of `p` as it was, advances `off` by `n` and changes
nothing else, and returns `io.EOF` exactly when the new `off` equals `size`.
In a state with `off ≥ size` it returns `(0, io.EOF)` and changes nothing. -/
theorem read_single_block {σ : Type} (s : S3Server σ) (ev : SelectEv)
    (d : objectDataIOReader) (p : List Byte) (w : World σ) :
    (d.off < d.objmd.Smd.Size → 0 < d.objmd.Data.BlockSize →
      d.currBlock.blkIdx = d.off / d.objmd.Data.BlockSize →
      d.currBlock.status = StatusOK →
      d.off % d.objmd.Data.BlockSize ≤ d.currBlock.n →
      d.currBlock.n ≤ d.currBlock.buf.length →
      Read s ev d p w = Except.ok
        { n := min p.length (d.currBlock.n - d.off % d.objmd.Data.BlockSize),
          err := if d.off + min p.length (d.currBlock.n - d.off % d.objmd.Data.BlockSize)
                    = d.objmd.Smd.Size then some ReadErr.EOF else none,
          p := (d.currBlock.buf.drop (d.off % d.objmd.Data.BlockSize)).take
                  (min p.length (d.currBlock.n - d.off % d.objmd.Data.BlockSize))
                ++ p.drop (min p.length (d.currBlock.n - d.off % d.objmd.Data.BlockSize)),
          d := { d with
            off := d.off + min p.length (d.currBlock.n - d.off % d.objmd.Data.BlockSize) },
          w := w }) ∧
    (d.objmd.Smd.Size ≤ d.off →
      Read s ev d p w = Except.ok { n := 0, err := some ReadErr.EOF, p := p, d := d, w := w }) := by
  constructor
  · intro hoff hbs hidx hst hblk hbuf
    have h1 : ¬ d.off ≥ d.objmd.Smd.Size := by omega
    have h2 : ¬ d.objmd.Data.BlockSize = 0 := by omega
    unfold Read
    simp only [h1, h2, if_false, ← hidx, Nat.lt_irrefl, gt_iff_lt]
    unfold readFill
    simp only [hst, ne_eq, not_true_eq_false, if_false]
    by_cases hle : d.off % d.objmd.Data.BlockSize + p.length ≤ d.currBlock.n
    · have hmin : min p.length (d.currBlock.n - d.off % d.objmd.Data.BlockSize) = p.length := by
        omega
      have hnot : ¬ d.off % d.objmd.Data.BlockSize + p.length > d.currBlock.buf.length := by
        omega
      simp only [hle, if_true, hnot, if_false, hmin]
      rw [goCopy_slice p _ _ _ (by omega) (by omega)]
      simp
    · have hmin : min p.length (d.currBlock.n - d.off % d.objmd.Data.BlockSize)
          = d.currBlock.n - d.off % d.objmd.Data.BlockSize := by omega
      have hnot : ¬ (d.off % d.objmd.Data.BlockSize > d.currBlock.n
          ∨ d.currBlock.n > d.currBlock.buf.length) := by omega
      simp only [hle, if_false, hnot, hmin]
      rw [goCopy_slice p _ _ _ hbuf (by omega)]
  · intro h
    unfold Read
    simp [h]

theorem read_single_block_witness :
    Read (memServer 4 [md9]) SelectEv.recv rd9 [0, 0, 0, 0, 0] (World.init MemStore.empty)
      = Except.ok { n := 3, err := none, p := [2, 3, 4, 0, 0], d := { rd9 with off := 4 },
                    w := World.init MemStore.empty } :=
  (read_single_block (memServer 4 [md9]) SelectEv.recv rd9 [0, 0, 0, 0, 0]
    (World.init MemStore.empty)).1 (by decide) (by decide) (by decide) (by decide) (by decide)
    (by decide)

/-! ## The write pipeline on an empty payload -/

set_option maxRecDepth 100000 in
theorem md5Hex_nil : hexEncodeToString (md5Sum []) = ZeroDataETag := by decide

theorem headerGet_headerSet (h : List (String × String)) (k v : String) :
    headerGet (headerSet h k v) k = some v := by
  have hnone : (h.filter fun kv => kv.1 != k).find? (fun kv => kv.1 == k) = none := by
    rw [List.find?_eq_none]
    intro x hx
    have := (List.mem_filter.1 hx).2
    simpa using this
  simp [headerGet, headerSet, List.find?_append, hnone]

theorem readFullBuf_nil (body : Body) : readFullBuf body [] = some (0, none, [], body) := by
  simp [readFullBuf, readFullBufLoop]

theorem StatusOK_ne_500 : InternalError ≠ StatusOK := by decide

/-- What the code does on an empty payload. A PUT with `Content-Length: 0`
always returns, and when it succeeds the metadata record lists one block, the
digest of the
empty payload, and its etag is the empty-MD5 constant
`d41d8cd98f00b204e9800998ecf8427e`; that record is the one handed to
`WriteObjectMD`, and the `ETag` header carries the same constant. -/
theorem put_zero_length {σ : Type} (s : S3Server σ) (r : Request) (resp : Response)
    (bkname objname : String) (w : World σ) (hCL : r.ContentLength = 0) :
    ∃ res, putObject s r resp bkname objname w = some res ∧
      (res.resp.StatusCode = StatusOK →
        res.md.Data.Blocks = [ZeroDataETag] ∧ res.md.Smd.Etag = ZeroDataETag ∧
        res.md.Smd.Size = 0 ∧
        headerGet res.resp.Header ETag = some ZeroDataETag ∧
        ∃ mdbyte, s.Marshal res.md = some mdbyte ∧
          res.w.trace.getLast? = some (Event.WriteObjectMD bkname objname mdbyte)) := by
  unfold putObject putObjectData putSmallObjectData
  simp only [hCL, Nat.zero_le, if_true, List.replicate, readFullBuf_nil, md5Hex_nil]
  simp only [ne_eq, not_true_eq_false, false_and, if_false]
  by_cases hex : s.s3io.IsDataBlockExist w.store ZeroDataETag = true
  · simp only [hex, Bool.not_true, Bool.false_eq_true, if_false]
    simp only [not_true_eq_false, if_false]
    cases hm : s.Marshal _ with
    | none => exact ⟨_, rfl, fun h => absurd h StatusOK_ne_500⟩
    | some mdbyte =>
      simp only [hm]
      by_cases hst : (s.s3io.WriteObjectMD w.store bkname objname mdbyte).1.1 = StatusOK
      · simp only [hst, not_true_eq_false, if_false]
        refine ⟨_, rfl, fun _ => ⟨rfl, rfl, rfl, headerGet_headerSet _ _ _, mdbyte, hm, ?_⟩⟩
        simp [World.log]
      · simp only [hst, not_false_eq_true, if_true]
        exact ⟨_, rfl, fun h => absurd h hst⟩
  · simp only [hex, Bool.not_false, if_true]
    by_cases hwr : (s.s3io.WriteDataBlock w.store [] ZeroDataETag).1.1 = StatusOK
    · simp only [hwr, not_true_eq_false, if_false]
      cases hm : s.Marshal _ with
      | none => exact ⟨_, rfl, fun h => absurd h StatusOK_ne_500⟩
      | some mdbyte =>
        simp only [hm]
        by_cases hst : (s.s3io.WriteObjectMD
            (s.s3io.WriteDataBlock w.store [] ZeroDataETag).2 bkname objname mdbyte).1.1
              = StatusOK
        · simp only [World.log, hst, not_true_eq_false, if_false]
          refine ⟨_, rfl, fun _ => ⟨rfl, rfl, rfl, headerGet_headerSet _ _ _, mdbyte, hm, ?_⟩⟩
          simp
        · simp only [World.log, hst, not_false_eq_true, if_true]
          exact ⟨_, rfl, fun h => absurd h hst⟩
    · simp only [hwr, not_false_eq_true, if_true]
      exact ⟨_, rfl, fun h => absurd h hwr⟩

set_option maxRecDepth 100000 in
theorem put_zero_length_witness :
    ∃ res, putObject (memServer DataBlockSize [mdZero]) reqZero newResponse "b1" "/k1"
        (World.init MemStore.empty) = some res ∧
      (res.resp.StatusCode = StatusOK →
        res.md.Data.Blocks = [ZeroDataETag] ∧ res.md.Smd.Etag = ZeroDataETag ∧
        res.md.Smd.Size = 0 ∧
        headerGet res.resp.Header ETag = some ZeroDataETag ∧
        ∃ mdbyte, (memServer DataBlockSize [mdZero]).Marshal res.md = some mdbyte ∧
          res.w.trace.getLast? = some (Event.WriteObjectMD "b1" "/k1" mdbyte)) :=
  put_zero_length (memServer DataBlockSize [mdZero]) reqZero newResponse "b1" "/k1"
    (World.init MemStore.empty) (by decide)

set_option maxRecDepth 100000 in
/-- C4. `PUT /b1/k1` with an empty body and `Content-Length: 0` on an empty
store succeeds with status 200 and its record lists one block, the digest of
the empty payload, not none. -/
theorem put_zero_length_one_block :
    (putObject (memServer DataBlockSize [mdZero]) reqZero newResponse "b1" "/k1"
        (World.init MemStore.empty)).map
      (fun res => (res.resp.StatusCode, res.md.Data.Blocks.length, res.md.Data.Blocks))
      = some (200, 1, ["d41d8cd98f00b204e9800998ecf8427e"]) := by
  decide

/-! ## Filling a buffer from a well-behaved body -/

theorem length_copyAt (dst : List Byte) (off : Nat) (src : List Byte)
    (h : off + src.length ≤ dst.length) : (copyAt dst off src).length = dst.length := by
  simp [copyAt, List.length_append, List.length_take, List.length_drop]
  omega

theorem take_copyAt (dst : List Byte) (off : Nat) (src : List Byte) (h : off ≤ dst.length) :
    (copyAt dst off src).take (off + src.length) = dst.take off ++ src := by
  have : (dst.take off ++ src).length = off + src.length := by
    simp [List.length_take, Nat.min_eq_left h]
  unfold copyAt
  rw [← this, List.take_left]

theorem tolerated_mono : ∀ (body : Body), tolerated true body = true →
    tolerated false body = true := by
  intro body
  induction body with
  | nil => intro _; rfl
  | cons c rest ih =>
    intro h
    unfold tolerated at h ⊢
    by_cases he : c.data.isEmpty = true
    · simp [he] at h
    · simp only [he, Bool.false_eq_true, if_false, Bool.and_eq_true] at h ⊢
      exact ⟨h.1, ih h.2⟩

theorem tolerated_empty (zero : Bool) (c : Chunk) (rest : Body) (hd : c.data = [])
    (h : tolerated zero (c :: rest) = true) :
    c.err = none ∧ zero = false ∧ tolerated true rest = true := by
  unfold tolerated at h
  simp only [hd, List.isEmpty_nil, if_true, Bool.and_eq_true, beq_iff_eq,
    Bool.not_eq_true'] at h
  exact ⟨h.1.1, h.1.2, h.2⟩

theorem tolerated_cons (zero : Bool) (c : Chunk) (rest : Body) (hd : c.data ≠ [])
    (h : tolerated zero (c :: rest) = true) :
    (c.err = none ∨ (c.err = some ReadErr.EOF ∧ rest = [])) ∧ tolerated zero rest = true := by
  unfold tolerated at h
  have he : c.data.isEmpty = false := by
    cases hc : c.data with
    | nil => exact absurd hc hd
    | cons a l => rfl
  simp only [he, Bool.false_eq_true, if_false, Bool.and_eq_true, Bool.or_eq_true, beq_iff_eq,
    List.isEmpty_iff] at h
  exact ⟨h.1, h.2⟩

theorem tolerated_split (zero : Bool) (c : Chunk) (rest : Body) (k : Nat)
    (h : tolerated zero (c :: rest) = true) (hk : k < c.data.length) :
    tolerated zero ({ c with data := c.data.drop k } :: rest) = true := by
  have hne : c.data ≠ [] := by
    intro e
    rw [e] at hk
    simp at hk
  have hne' : c.data.drop k ≠ [] := by
    intro e
    have := congrArg List.length e
    simp at this
    omega
  have he : (c.data.drop k).isEmpty = false := by
    cases hc : c.data.drop k with
    | nil => exact absurd hc hne'
    | cons a l => rfl
  obtain ⟨h1, h2⟩ := tolerated_cons zero c rest hne h
  unfold tolerated
  simp only [he, Bool.false_eq_true, if_false, Bool.and_eq_true, Bool.or_eq_true, beq_iff_eq,
    List.isEmpty_iff]
  exact ⟨h1, h2⟩

theorem payload_cons (c : Chunk) (rest : Body) : payload (c :: rest) = c.data ++ payload rest := by
  simp [payload]

theorem copyAt_nil (dst : List Byte) (off : Nat) : copyAt dst off [] = dst := by
  simp [copyAt]

/-- `readFullBufLoop` on a well-behaved body: it returns, having read as much
of the payload as the buffer has room for. `zero` is the flag `readZero`. -/
theorem readFullBufLoop_tolerated : ∀ (fuel : Nat) (body : Body) (buf : List Byte)
    (rlen : Nat) (zero : Bool),
    tolerated zero body = true → rlen ≤ buf.length →
    buf.length - rlen + (if zero = true then 0 else 1) < fuel →
    ∃ err buf1 body1,
      readFullBufLoop fuel body buf rlen zero
        = some (rlen + min (buf.length - rlen) (payload body).length, err, buf1, body1) ∧
      buf1.length = buf.length ∧
      buf1.take (rlen + min (buf.length - rlen) (payload body).length)
        = buf.take rlen ++ (payload body).take (buf.length - rlen) ∧
      wellBehaved body1 = true ∧
      payload body1 = (payload body).drop (buf.length - rlen) ∧
      (err = none ∨ err = some ReadErr.EOF) ∧
      (err = some ReadErr.EOF → (payload body).length ≤ buf.length - rlen) ∧
      ((payload body).length < buf.length - rlen → err = some ReadErr.EOF) := by
  intro fuel
  induction fuel with
  | zero => intro body buf rlen zero _ _ h; omega
  | succ fuel ih =>
    intro body buf rlen zero hwb hle hfuel
    unfold readFullBufLoop
    by_cases hlt : rlen < buf.length
    · simp only [hlt, if_true]
      cases body with
      | nil =>
        simp only [bodyRead]
        refine ⟨some ReadErr.EOF, copyAt buf rlen [], [], ?_, ?_, ?_, rfl, ?_, Or.inr rfl, ?_, ?_⟩
        · simp [payload]
        · simp [copyAt]
        · simp [copyAt, payload]
        · simp [payload]
        · intro _; simp [payload]
        · intro _; rfl
      | cons c rest =>
        by_cases hd : c.data = []
        · -- a zero-byte answer without error: allowed once
          obtain ⟨he, hz, hrest⟩ := tolerated_empty zero c rest hd hwb
          subst hz
          have hfit : c.data.length ≤ buf.length - rlen := by rw [hd]; exact Nat.zero_le _
          simp only [bodyRead, hfit, if_true]
          simp only [he, ne_eq, not_true_eq_false, if_false, hd, List.length_nil,
            Bool.false_eq_true, copyAt_nil, Nat.add_zero, if_true]
          obtain ⟨err, buf1, body1, heq, hl1, htake, hwb1, hpay, herr1, heof, hshort⟩ :=
            ih rest buf rlen true hrest hle (by simp only [if_true]; simp at hfuel; omega)
          have hp : payload (c :: rest) = payload rest := by rw [payload_cons, hd]; rfl
          rw [hp]
          exact ⟨err, buf1, body1, heq, hl1, htake, hwb1, hpay, herr1, heof, hshort⟩
        · obtain ⟨herr, hrest⟩ := tolerated_cons zero c rest hd hwb
          have hpos : 0 < c.data.length := List.length_pos.2 hd
          by_cases hfit : c.data.length ≤ buf.length - rlen
          · simp only [bodyRead, hfit, if_true]
            rcases herr with he | ⟨he, hr⟩
            · -- the answer is taken whole and the loop goes on
              have hz : ¬ c.data.length = 0 := by omega
              simp only [he, ne_eq, not_true_eq_false, if_false, hz]
              have hlen := length_copyAt buf rlen c.data (by omega)
              obtain ⟨err, buf1, body1, heq, hl1, htake, hwb1, hpay, herr1, heof, hshort⟩ :=
                ih rest (copyAt buf rlen c.data) (rlen + c.data.length) zero hrest
                  (by rw [hlen]; omega) (by rw [hlen]; omega)
              rw [hlen] at heq htake hpay heof hshort
              have hn : rlen + c.data.length
                  + min (buf.length - (rlen + c.data.length)) (payload rest).length
                  = rlen + min (buf.length - rlen) (payload (c :: rest)).length := by
                rw [payload_cons, List.length_append]; omega
              refine ⟨err, buf1, body1, ?_, by rw [hl1, hlen], ?_, hwb1, ?_, herr1, ?_, ?_⟩
              · rw [heq, hn]
              · rw [← hn, htake, take_copyAt buf rlen c.data (by omega), payload_cons,
                  List.append_assoc]
                congr 1
                rw [List.take_append_eq_append_take, List.take_of_length_le hfit]
                congr 2
                omega
              · rw [hpay, payload_cons, List.drop_append_eq_append_drop,
                  List.drop_of_length_le hfit, List.nil_append]
                congr 1
                omega
              · intro h; have := heof h; rw [payload_cons, List.length_append]; omega
              · intro h; apply hshort; rw [payload_cons, List.length_append] at h; omega
            · -- the last answer comes with io.EOF
              subst hr
              simp only [he, ne_eq, reduceCtorEq, not_false_eq_true, if_true]
              have hp : payload [c] = c.data := by simp [payload]
              refine ⟨some ReadErr.EOF, copyAt buf rlen c.data, [], ?_, ?_, ?_, rfl, ?_,
                Or.inr rfl, ?_, ?_⟩
              · rw [hp, Nat.min_eq_right hfit]
              · exact length_copyAt buf rlen c.data (by omega)
              · rw [hp, Nat.min_eq_right hfit, take_copyAt buf rlen c.data (by omega),
                  List.take_of_length_le hfit]
              · rw [hp, List.drop_of_length_le hfit]; rfl
              · intro _; rw [hp]; exact hfit
              · intro _; rfl
          · -- the answer is longer than the room left: the buffer is filled
            have hfit' : buf.length - rlen < c.data.length := by omega
            simp only [bodyRead, hfit, if_false]
            have hk : (c.data.take (buf.length - rlen)).length = buf.length - rlen := by
              simp [List.length_take]; omega
            have hz : ¬ (c.data.take (buf.length - rlen)).length = 0 := by omega
            simp only [ne_eq, not_true_eq_false, if_false, hz]
            have hlen := length_copyAt buf rlen (c.data.take (buf.length - rlen)) (by omega)
            have hfull : rlen + (c.data.take (buf.length - rlen)).length = buf.length := by
              omega
            have hfuel' : 0 < fuel := by
              by_cases hzz : zero = true
              · simp only [hzz, if_true] at hfuel; omega
              · simp only [hzz, if_false] at hfuel; omega
            obtain ⟨f, rfl⟩ : ∃ f, fuel = f + 1 := ⟨fuel - 1, by omega⟩
            unfold readFullBufLoop
            have hnlt : ¬ rlen + (c.data.take (buf.length - rlen)).length
                < (copyAt buf rlen (c.data.take (buf.length - rlen))).length := by
              rw [hlen]; omega
            simp only [hnlt, if_false]
            have hmin : min (buf.length - rlen) (payload (c :: rest)).length
                = buf.length - rlen := by
              rw [payload_cons, List.length_append]; omega
            have hsplit := tolerated_split zero c rest _ hwb hfit'
            have hsplit' : wellBehaved
                ({ c with data := c.data.drop (buf.length - rlen) } :: rest) = true := by
              cases zero with
              | false => exact hsplit
              | true => exact tolerated_mono _ hsplit
            refine ⟨none, _, _, ?_, hlen, ?_, hsplit', ?_, Or.inl rfl, ?_, ?_⟩
            · rw [hmin, hk]
            · have ht := take_copyAt buf rlen (c.data.take (buf.length - rlen)) (by omega)
              rw [hk] at ht
              rw [hmin, ht, payload_cons, List.take_append_of_le_length (by omega)]
            · rw [payload_cons, payload_cons, List.drop_append_of_le_length (by omega)]
            · intro h; cases h
            · intro h; rw [payload_cons, List.length_append] at h; omega
    · have he : rlen = buf.length := by omega
      simp only [hlt, if_false]
      have hwb' : wellBehaved body = true := by
        cases zero with
        | false => exact hwb
        | true => exact tolerated_mono _ hwb
      refine ⟨none, buf, body, ?_, rfl, ?_, hwb', ?_, Or.inl rfl, ?_, ?_⟩
      · simp [he]
      · simp [he]
      · simp [he]
      · intro h; cases h
      · intro h; omega

/-! ## The streaming loop -/

theorem readFullBuf_wellBehaved (body : Body) (buf : List Byte) (hwb : wellBehaved body = true) :
    ∃ err buf1 body1,
      readFullBuf body buf = some (min buf.length (payload body).length, err, buf1, body1) ∧
      buf1.length = buf.length ∧
      buf1.take (min buf.length (payload body).length) = (payload body).take buf.length ∧
      wellBehaved body1 = true ∧
      payload body1 = (payload body).drop buf.length ∧
      (err = none ∨ err = some ReadErr.EOF) ∧
      (err = some ReadErr.EOF → (payload body).length ≤ buf.length) ∧
      ((payload body).length < buf.length → err = some ReadErr.EOF) := by
  have h := readFullBufLoop_tolerated (buf.length + 2) body buf 0 false hwb (Nat.zero_le _)
    (by simp)
  simpa [readFullBuf] using h

theorem putObjectDataFrom_succ {σ : Type} (s : S3Server σ) (r : Request) (fuel : Nat)
    (st : PutLoop σ) :
    putObjectDataFrom s r (fuel + 1) st =
      if st.rlen < r.ContentLength then
        match readFullBuf st.body st.readBuf with
        | none => none
        | some (n, err0, readBuf, body) =>
          if (RandomFI st.w).1 = true ∧ (RandomFI (RandomFI st.w).2).1 = true then
            some ⟨InternalError, "exit early to test chan timeout", st.md, body,
              (RandomFI (RandomFI st.w).2).2⟩
          else
            let w := if (RandomFI st.w).1 = true then (RandomFI (RandomFI st.w).2).2
              else (RandomFI st.w).2
            let err := if (RandomFI st.w).1 = true then some ReadErr.EOF else err0
            let st1 : PutLoop σ :=
              { st with readBuf := readBuf, body := body, rlen := st.rlen + n, w := w }
            if err ≠ none ∧ err ≠ some ReadErr.EOF then
              if st.waitWrite = true ∧ st.c = none then none
              else some ⟨InternalError, "failed to read data from http", st.md, body, w⟩
            else if err ≠ none ∧ st.rlen + n ≠ r.ContentLength then
              if st.waitWrite = true ∧ st.c = none then none
              else some ⟨InvalidRequest, "data less than ContentLength", st.md, body, w⟩
            else if err ≠ none ∧ n = 0 then putObjectDataEnd st1
            else
              match waitDataBlock st1 with
              | none => none
              | some (Sum.inl res) => some res
              | some (Sum.inr st2) =>
                putObjectDataFrom s r fuel { st2 with
                  readBuf := st2.writeBuf, writeBuf := st2.readBuf, waitWrite := true,
                  c := if st2.totalBlocks ∈ st2.w.late then none
                    else some (writeOneDataBlock s (st2.readBuf.take n) st2.md5ck st2.etag
                      st2.w).1,
                  md5ck := (writeOneDataBlock s (st2.readBuf.take n) st2.md5ck st2.etag st2.w).2.1,
                  etag := (writeOneDataBlock s (st2.readBuf.take n) st2.md5ck st2.etag st2.w).2.2.1,
                  w := (writeOneDataBlock s (st2.readBuf.take n) st2.md5ck st2.etag st2.w).2.2.2 }
      else putObjectDataEnd st := by
  unfold putObjectDataFrom
  rw [putObjectDataLoop]
  by_cases h : st.rlen < r.ContentLength
  · simp only [h, if_true]
    cases hr : readFullBuf st.body st.readBuf with
    | none => rfl
    | some x =>
      obtain ⟨n, err0, readBuf, body⟩ := x
      simp only []
      by_cases hfi : (RandomFI st.w).1 = true ∧ (RandomFI (RandomFI st.w).2).1 = true
      · simp only [hfi, and_self, if_true]
      · simp only [hfi, if_false]
        generalize (if (RandomFI st.w).1 = true then some ReadErr.EOF else err0) = err
        generalize (if (RandomFI st.w).1 = true then (RandomFI (RandomFI st.w).2).2
          else (RandomFI st.w).2) = w
        by_cases h1 : err ≠ none ∧ err ≠ some ReadErr.EOF
        · simp only [if_pos h1]
          by_cases hq : st.waitWrite = true ∧ st.c = none
          · simp only [if_pos hq]
          · simp only [if_neg hq]
        · simp only [if_neg h1]
          by_cases h2 : err ≠ none ∧ st.rlen + n ≠ r.ContentLength
          · simp only [if_pos h2]
            by_cases hq : st.waitWrite = true ∧ st.c = none
            · simp only [if_pos hq]
            · simp only [if_neg hq]
          · simp only [if_neg h2]
            by_cases h3 : err ≠ none ∧ n = 0
            · simp only [if_pos h3]
            · simp only [if_neg h3]
              cases hw : waitDataBlock _ with
              | none => rfl
              | some y =>
                cases y with
                | inl res => rfl
                | inr st2 => rfl
  · simp only [h, if_false]

/-! ## Blocks of a payload -/

theorem nBlocks_zero (B : Nat) (hB : 0 < B) : nBlocks B 0 = 0 := by
  unfold nBlocks
  exact Nat.div_eq_of_lt (by omega)

theorem nBlocks_pos (B n : Nat) (hB : 0 < B) (hn : 0 < n) :
    nBlocks B n = nBlocks B (n - B) + 1 := by
  unfold nBlocks
  by_cases h : B ≤ n
  · have : n + B - 1 = (n - B + B - 1) + B := by omega
    rw [this, Nat.add_div_right _ hB]
  · have h1 : n - B = 0 := by omega
    have h2 : (n + B - 1) / B = 1 := by
      apply Nat.div_eq_of_lt_le <;> omega
    rw [h1, h2]
    have := nBlocks_zero B hB
    unfold nBlocks at this
    rw [this]

theorem blocksOf_nil (B : Nat) (hB : 0 < B) : blocksOf B [] = [] := by
  simp [blocksOf, nBlocks_zero B hB]

theorem blockAt_succ (B : Nat) (b : List Byte) (i : Nat) :
    blockAt B b (i + 1) = blockAt B (b.drop B) i := by
  unfold blockAt
  rw [List.drop_drop]
  congr 2
  rw [Nat.add_mul]
  omega

theorem blocksOf_cons (B : Nat) (b : List Byte) (hB : 0 < B) (hb : b ≠ []) :
    blocksOf B b = b.take B :: blocksOf B (b.drop B) := by
  have hn : 0 < b.length := List.length_pos.2 hb
  unfold blocksOf
  rw [nBlocks_pos B b.length hB hn, List.range_succ_eq_map, List.map_cons, List.map_map,
    List.length_drop]
  congr 1
  · simp [blockAt]
  · apply List.map_congr_left
    intro i _
    exact blockAt_succ B b i

theorem blocksOf_length (B : Nat) (b : List Byte) : (blocksOf B b).length = nBlocks B b.length := by
  simp [blocksOf]

theorem blocksOf_small (B : Nat) (b : List Byte) (hb : b ≠ []) (hle : b.length ≤ B) :
    blocksOf B b = [b] := by
  have hB : 0 < B := by
    have := List.length_pos.2 hb
    omega
  rw [blocksOf_cons B b hB hb, List.take_of_length_le hle, List.drop_of_length_le hle,
    blocksOf_nil B hB]

/-! ## The writer task -/

theorem writeOneDataBlock_fst {σ : Type} (s : S3Server σ) (blk etag : List Byte) (w : World σ) :
    (writeOneDataBlock s blk [] etag w).1.md5str = md5Hex blk ∧
    (writeOneDataBlock s blk [] etag w).1.exist = s.s3io.IsDataBlockExist w.store (md5Hex blk) ∧
    ((writeOneDataBlock s blk [] etag w).1.status = StatusOK ↔
      (s.s3io.IsDataBlockExist w.store (md5Hex blk) = false →
        (s.s3io.WriteDataBlock w.store blk (md5Hex blk)).1.1 = StatusOK)) := by
  unfold writeOneDataBlock md5Hex
  by_cases h : s.s3io.IsDataBlockExist w.store (hexEncodeToString (md5Sum blk)) = true
  · simp [h]
  · simp [h]

theorem writeOneDataBlock_snd {σ : Type} (s : S3Server σ) (blk etag : List Byte) (w : World σ) :
    (writeOneDataBlock s blk [] etag w).2.1 = [] ∧
    (writeOneDataBlock s blk [] etag w).2.2.1 = etag ++ blk ∧
    (writeOneDataBlock s blk [] etag w).2.2.2.store = storeAfterBlock s w.store blk ∧
    (writeOneDataBlock s blk [] etag w).2.2.2.trace
      = w.trace ++ (if s.s3io.IsDataBlockExist w.store (md5Hex blk) then []
          else [Event.WriteDataBlock blk (md5Hex blk)]) ∧
    (writeOneDataBlock s blk [] etag w).2.2.2.now = w.now ∧
    (writeOneDataBlock s blk [] etag w).2.2.2.fi = w.fi := by
  unfold writeOneDataBlock storeAfterBlock md5Hex
  by_cases h : s.s3io.IsDataBlockExist w.store (hexEncodeToString (md5Sum blk)) = true
  · simp [h]
  · simp [h, World.log]

theorem RandomFI_snd {σ : Type} (w : World σ) :
    (RandomFI w).2.store = w.store ∧ (RandomFI w).2.trace = w.trace ∧
      (RandomFI w).2.now = w.now := by
  unfold RandomFI
  cases w.fi <;> simp

theorem RandomFI_late {σ : Type} (w : World σ) : (RandomFI w).2.late = w.late := by
  unfold RandomFI
  cases w.fi <;> rfl

theorem writeOneDataBlock_late {σ : Type} (s : S3Server σ) (blk md5ck etag : List Byte)
    (w : World σ) : (writeOneDataBlock s blk md5ck etag w).2.2.2.late = w.late := by
  unfold writeOneDataBlock
  by_cases h : s.s3io.IsDataBlockExist w.store (hexEncodeToString (md5Sum (md5ck ++ blk))) = true
  · simp [h]
  · simp [h, World.log]

theorem waitDataBlock_cases {σ : Type} (st : PutLoop σ) (hwait : st.waitWrite = true ↔ st.c ≠ none) :
    (∃ res, waitDataBlock st = some (Sum.inl res) ∧ res.status ≠ StatusOK ∧ res.md = st.md ∧
      res.w = st.w ∧ ¬ pendOK st.c) ∨
    (∃ st2, waitDataBlock st = some (Sum.inr st2) ∧
      st2.readBuf = st.readBuf ∧ st2.writeBuf = st.writeBuf ∧ st2.md5ck = st.md5ck ∧
      st2.etag = st.etag ∧ st2.ddBlocks = st.ddBlocks + pendDD st.c ∧
      st2.md.Smd = st.md.Smd ∧ st2.md.Data.BlockSize = st.md.Data.BlockSize ∧
      st2.md.Data.Blocks = st.md.Data.Blocks ++ pendDigest st.c ∧
      st2.rlen = st.rlen ∧ st2.body = st.body ∧ st2.w = st.w ∧ pendOK st.c) := by
  unfold waitDataBlock
  cases hc : st.c with
  | none =>
    have hw : st.waitWrite = false := by
      cases h : st.waitWrite
      · rfl
      · exact absurd hc (hwait.1 h)
    right
    refine ⟨st, by simp [hw], rfl, rfl, rfl, rfl, by simp [pendDD], rfl, rfl,
      by simp [pendDigest], rfl, rfl, rfl, ?_⟩
    intro res h
    cases h
  | some pr =>
    have hw : st.waitWrite = true := hwait.2 (by simp [hc])
    by_cases hst : pr.status = StatusOK
    · right
      simp only [hw, if_true, hst, ne_eq, not_true_eq_false, if_false]
      refine ⟨_, rfl, rfl, rfl, rfl, rfl, ?_, rfl, rfl, ?_, rfl, rfl, rfl, ?_⟩
      · simp only [pendDD]
        split <;> rfl
      · simp [pendDigest]
      · intro res h
        cases h
        exact hst
    · left
      simp only [hw, if_true, hst, ne_eq, not_false_eq_true]
      exact ⟨_, rfl, hst, rfl, rfl, fun h => hst (h pr rfl)⟩

theorem putObjectDataEnd_success {σ : Type} (s : S3Server σ) (st : PutLoop σ)
    (res : PutResult σ) (hB : 0 < s.ReadBufferSize)
    (hwait : st.waitWrite = true ↔ st.c ≠ none)
    (hrun : putObjectDataEnd st = some res) (hok : res.status = StatusOK) :
    StreamSpec s st [] res := by
  unfold putObjectDataEnd at hrun
  rcases waitDataBlock_cases st hwait with ⟨r1, h1, hne, _, _, _⟩ |
    ⟨st2, h2, _, _, _, hetag, hdd, hsmd, hbs, hblocks, _, _, hw, hpend⟩
  · rw [h1] at hrun
    simp only [Option.some.injEq] at hrun
    subst hrun
    exact absurd hok hne
  · rw [h2] at hrun
    simp only [Option.some.injEq] at hrun
    subst hrun
    simp only [StreamSpec, blocksOf_nil _ hB, List.map_nil, List.append_nil, ddOf, storeAfter,
      writesOf, allWritten, Nat.add_zero, and_true]
    refine ⟨?_, hbs, hblocks, hdd, by rw [hw], by rw [hw], by rw [hw], hpend⟩
    rw [hsmd, hetag]
    rfl

theorem InvalidRequest_ne_OK : InvalidRequest ≠ StatusOK := by decide

/-- Once the writer in flight has given up, the streaming path does not
return with status OK: it waits for ever, or returns at an injected fault. -/
theorem putObjectDataFrom_blocked {σ : Type} (s : S3Server σ) (r : Request) (fuel : Nat)
    (st : PutLoop σ) (res : PutResult σ) (hw : st.waitWrite = true) (hc : st.c = none)
    (hrun : putObjectDataFrom s r fuel st = some res) : res.status ≠ StatusOK := by
  cases fuel with
  | zero => simp [putObjectDataFrom, putObjectDataLoop] at hrun
  | succ fuel =>
    rw [putObjectDataFrom_succ] at hrun
    have hq : st.waitWrite = true ∧ st.c = none := ⟨hw, hc⟩
    by_cases hlt : st.rlen < r.ContentLength
    · rw [if_pos hlt] at hrun
      cases hr : readFullBuf st.body st.readBuf with
      | none => rw [hr] at hrun; cases hrun
      | some x =>
        obtain ⟨n, err0, readBuf, body⟩ := x
        rw [hr] at hrun
        simp only [] at hrun
        by_cases hfi : (RandomFI st.w).1 = true ∧ (RandomFI (RandomFI st.w).2).1 = true
        · rw [if_pos hfi] at hrun
          simp only [Option.some.injEq] at hrun
          subst hrun
          exact StatusOK_ne_500
        · rw [if_neg hfi] at hrun
          by_cases h1 : (if (RandomFI st.w).1 = true then some ReadErr.EOF else err0) ≠ none ∧
              (if (RandomFI st.w).1 = true then some ReadErr.EOF else err0) ≠ some ReadErr.EOF
          · rw [if_pos h1, if_pos hq] at hrun
            cases hrun
          · rw [if_neg h1] at hrun
            by_cases h2 : (if (RandomFI st.w).1 = true then some ReadErr.EOF else err0) ≠ none ∧
                st.rlen + n ≠ r.ContentLength
            · rw [if_pos h2, if_pos hq] at hrun
              cases hrun
            · rw [if_neg h2] at hrun
              by_cases h3 : (if (RandomFI st.w).1 = true then some ReadErr.EOF else err0) ≠ none ∧
                  n = 0
              · rw [if_pos h3] at hrun
                simp [putObjectDataEnd, waitDataBlock, hw, hc] at hrun
              · rw [if_neg h3] at hrun
                simp [waitDataBlock, hw, hc] at hrun
    · rw [if_neg hlt] at hrun
      simp [putObjectDataEnd, waitDataBlock, hw, hc] at hrun

/-- A successful run of the streaming path from a loop state whose body
delivers exactly the bytes still due: every block of the rest is digested,
looked up, written if absent, and reported in index order. -/
theorem putObjectDataFrom_success {σ : Type} (s : S3Server σ) (r : Request)
    (hB : 0 < s.ReadBufferSize) :
    ∀ (fuel : Nat) (st : PutLoop σ) (rest : List Byte) (res : PutResult σ),
      Delivers st.body rest → st.readBuf.length = s.ReadBufferSize →
      st.writeBuf.length = s.ReadBufferSize → st.md5ck = [] →
      (st.waitWrite = true ↔ st.c ≠ none) → st.rlen + rest.length = r.ContentLength →
      putObjectDataFrom s r fuel st = some res → res.status = StatusOK →
      StreamSpec s st rest res := by
  intro fuel
  induction fuel with
  | zero =>
    intro st rest res _ _ _ _ _ _ hrun _
    simp [putObjectDataFrom, putObjectDataLoop] at hrun
  | succ fuel ih =>
    intro st rest res hdel hrb hwb hck hwait hlen hrun hok
    rw [putObjectDataFrom_succ] at hrun
    by_cases hrest : rest = []
    · subst hrest
      have hnlt : ¬ st.rlen < r.ContentLength := by
        simp at hlen
        omega
      rw [if_neg hnlt] at hrun
      exact putObjectDataEnd_success s st res hB hwait hrun hok
    · have hpos : 0 < rest.length := List.length_pos.2 hrest
      have hlt : st.rlen < r.ContentLength := by omega
      rw [if_pos hlt] at hrun
      obtain ⟨err, buf1, body1, heq, hl1, htake, hwb1, hpay, herr1, heof, hshort⟩ :=
        readFullBuf_wellBehaved st.body st.readBuf hdel.1
      rw [hdel.2, hrb] at heq htake hpay heof hshort
      rw [hrb] at hl1
      rw [heq] at hrun
      simp only [] at hrun
      by_cases hfi : (RandomFI st.w).1 = true ∧ (RandomFI (RandomFI st.w).2).1 = true
      · rw [if_pos hfi] at hrun
        simp only [Option.some.injEq] at hrun
        subst hrun
        exact absurd hok StatusOK_ne_500
      · rw [if_neg hfi] at hrun
        -- the world and the error after the fault-injection site
        have hw' : ∃ w' : World σ, w' = (if (RandomFI st.w).1 = true
            then (RandomFI (RandomFI st.w).2).2 else (RandomFI st.w).2) ∧
            w'.store = st.w.store ∧ w'.trace = st.w.trace ∧ w'.now = st.w.now := by
          refine ⟨_, rfl, ?_⟩
          have h1 := RandomFI_snd st.w
          have h2 := RandomFI_snd (RandomFI st.w).2
          split
          · exact ⟨h2.1.trans h1.1, h2.2.1.trans h1.2.1, h2.2.2.trans h1.2.2⟩
          · exact h1
        obtain ⟨w', hw'eq, hstore, htrace, hnow⟩ := hw'
        have he' : ∃ err', err' = (if (RandomFI st.w).1 = true then some ReadErr.EOF else err) ∧
            (err' = none ∨ err' = some ReadErr.EOF) := by
          refine ⟨_, rfl, ?_⟩
          split
          · exact Or.inr rfl
          · exact herr1
        obtain ⟨err', he'eq, herr'⟩ := he'
        simp only [← hw'eq, ← he'eq] at hrun
        have h1 : ¬ (err' ≠ none ∧ err' ≠ some ReadErr.EOF) := by
          rcases herr' with h | h <;> simp [h]
        rw [if_neg h1] at hrun
        by_cases h2 : err' ≠ none ∧
            st.rlen + min s.ReadBufferSize rest.length ≠ r.ContentLength
        · rw [if_pos h2] at hrun
          by_cases hq : st.waitWrite = true ∧ st.c = none
          · rw [if_pos hq] at hrun
            cases hrun
          · rw [if_neg hq] at hrun
            simp only [Option.some.injEq] at hrun
            subst hrun
            exact absurd hok InvalidRequest_ne_OK
        · rw [if_neg h2] at hrun
          have h3 : ¬ (err' ≠ none ∧ min s.ReadBufferSize rest.length = 0) := by
            intro h
            have := h.2
            omega
          rw [if_neg h3] at hrun
          rcases waitDataBlock_cases
              { st with readBuf := buf1, body := body1,
                        rlen := st.rlen + min s.ReadBufferSize rest.length, w := w' }
              hwait with ⟨r1, hw1, hne, _, _, _⟩ |
            ⟨st2, hw2, e_rb, e_wb, e_ck, e_etag, e_dd, e_smd, e_bs, e_blocks, e_rlen, e_body,
              e_w, hpend⟩
          · rw [hw1] at hrun
            simp only [Option.some.injEq] at hrun
            subst hrun
            exact absurd hok hne
          · rw [hw2] at hrun
            simp only [] at hrun
            simp only [] at e_rb e_wb e_ck e_etag e_dd e_smd e_bs e_blocks e_rlen e_body e_w hpend
            have hblk : st2.readBuf.take (min s.ReadBufferSize rest.length)
                = rest.take s.ReadBufferSize := by
              rw [e_rb, htake]
            rw [hblk, e_ck, hck, e_w, e_etag] at hrun
            by_cases hl : st2.totalBlocks ∈ w'.late
            · rw [if_pos hl] at hrun
              exact absurd hok (putObjectDataFrom_blocked s r fuel _ res rfl rfl hrun)
            rw [if_neg hl] at hrun
            have hfst := writeOneDataBlock_fst s (rest.take s.ReadBufferSize) st.etag w'
            have hsnd := writeOneDataBlock_snd s (rest.take s.ReadBufferSize) st.etag w'
            rw [hstore] at hfst hsnd
            rw [htrace, hnow] at hsnd
            have hspec := ih _ (rest.drop s.ReadBufferSize) res
              ⟨by simpa [e_body] using hwb1, by simpa [e_body] using hpay⟩
              (by simpa [e_wb] using hwb) (by simpa [e_rb] using hl1)
              (by simpa using hsnd.1) (by simp)
              (by simp only [e_rlen, List.length_drop]; omega) hrun hok
            obtain ⟨c_smd, c_bs, c_blocks, c_dd, c_store, c_trace, c_now, c_pend, c_all⟩ := hspec
            simp only [] at c_smd c_bs c_blocks c_dd c_store c_trace c_now c_pend c_all
            rw [hsnd.2.2.2.1] at c_trace
            rw [hsnd.2.2.1] at c_dd c_store c_trace c_all
            rw [hsnd.2.2.2.2.1] at c_now
            rw [hsnd.2.1, List.append_assoc, List.take_append_drop, e_smd] at c_smd
            rw [e_bs] at c_bs
            have hstat := c_pend _ rfl
            rw [hfst.2.2] at hstat
            have pd : ∀ x : writeDataBlockResult, pendDigest (some x) = [x.md5str] := fun _ => rfl
            have pdd : ∀ x : writeDataBlockResult, pendDD (some x) = if x.exist = true then 1 else 0 :=
              fun _ => rfl
            rw [e_blocks, pd, hfst.1] at c_blocks
            rw [e_dd, pdd, hfst.2.1] at c_dd
            unfold StreamSpec
            rw [blocksOf_cons _ rest hB hrest]
            simp only [List.map_cons, ddOf, storeAfter, writesOf, allWritten]
            refine ⟨c_smd, c_bs, ?_, ?_, c_store, ?_, c_now, hpend, ?_, c_all⟩
            · rw [c_blocks]; simp
            · rw [c_dd]; omega
            · rw [c_trace]; simp
            · intro hne
              exact hstat hne

/-! ## `putObjectData` and `putObject` when they succeed -/

theorem putBlocks_small (B : Nat) (b : List Byte) (hle : b.length ≤ B) : putBlocks B b = [b] := by
  unfold putBlocks
  by_cases hb : b = []
  · simp [hb]
  · simp [hb, blocksOf_small B b hb hle]

theorem putBlocks_large (B : Nat) (b : List Byte) (hlt : B < b.length) :
    putBlocks B b = blocksOf B b := by
  unfold putBlocks
  have hb : b ≠ [] := by
    intro e
    simp [e] at hlt
  simp [hb]

theorem readFullBuf_exact (body : Body) (b : List Byte) (hdel : Delivers body b) :
    ∃ err body1, readFullBuf body (List.replicate b.length 0) = some (b.length, err, b, body1) ∧
      (err = none ∨ err = some ReadErr.EOF) := by
  obtain ⟨err, buf1, body1, heq, hl1, htake, _, _, herr1, _, _⟩ :=
    readFullBuf_wellBehaved body (List.replicate b.length 0) hdel.1
  rw [hdel.2] at heq htake
  simp only [List.length_replicate, Nat.min_self] at heq htake hl1
  have hb : buf1 = b := by
    rw [← List.take_length buf1, hl1, htake, List.take_length]
  rw [hb] at heq
  exact ⟨err, body1, heq, herr1⟩

theorem putSmallObjectData_success {σ : Type} (s : S3Server σ) (r : Request) (md : ObjectMD)
    (w : World σ) (b : List Byte) (res : PutResult σ)
    (hdel : Delivers r.Body b) (hCL : r.ContentLength = b.length)
    (hsmall : b.length ≤ s.ReadBufferSize) (hdd : md.Data.DdBlocks = 0)
    (hrun : putSmallObjectData s r md w = some res) (hok : res.status = StatusOK) :
    PutSpec s md w b res := by
  obtain ⟨err, body1, heq, herr⟩ := readFullBuf_exact r.Body b hdel
  unfold putSmallObjectData at hrun
  rw [hCL, heq] at hrun
  simp only [] at hrun
  have h1 : ¬ (err ≠ none ∧ err ≠ some ReadErr.EOF) := by
    rcases herr with h | h <;> simp [h]
  have h2 : ¬ (err ≠ none ∧ b.length ≠ b.length) := by simp
  rw [if_neg h1, if_neg h2] at hrun
  unfold PutSpec
  rw [putBlocks_small _ b hsmall]
  simp only [List.map_cons, List.map_nil, ddOf, storeAfter, writesOf, allWritten,
    storeAfterBlock, List.append_nil, Nat.add_zero, and_true]
  change (if (!s.s3io.IsDataBlockExist w.store (md5Hex b)) = true then _ else _) = _ at hrun
  by_cases hex : s.s3io.IsDataBlockExist w.store (md5Hex b) = true
  · simp only [hex, Bool.not_true, Bool.false_eq_true, if_false, Option.some.injEq] at hrun
    subst hrun
    have hexu : s.s3io.IsDataBlockExist w.store (hexEncodeToString (md5Sum b)) = true := hex
    simp [hexu, md5Hex]
  · have hex' : s.s3io.IsDataBlockExist w.store (md5Hex b) = false := by
      simpa using hex
    simp only [hex', Bool.not_false, if_true] at hrun
    by_cases hst : (s.s3io.WriteDataBlock w.store b (md5Hex b)).1.1 = StatusOK
    · have hst' : (s.s3io.WriteDataBlock w.store b (hexEncodeToString (md5Sum b))).1.1
          = StatusOK := hst
      simp only [hst', ne_eq, not_true_eq_false, if_false, Option.some.injEq] at hrun
      subst hrun
      have hexu : s.s3io.IsDataBlockExist w.store (hexEncodeToString (md5Sum b)) = false := hex'
      simp [hexu, md5Hex, World.log, hdd, hst']
    · have hst' : ¬ (s.s3io.WriteDataBlock w.store b (hexEncodeToString (md5Sum b))).1.1
          = StatusOK := hst
      simp only [hst', ne_eq, not_false_eq_true, if_true, Option.some.injEq] at hrun
      subst hrun
      exact absurd hok hst

theorem putObjectData_success {σ : Type} (s : S3Server σ) (r : Request) (md : ObjectMD)
    (w : World σ) (b : List Byte) (res : PutResult σ) (hB : 0 < s.ReadBufferSize)
    (hdel : Delivers r.Body b) (hCL : r.ContentLength = b.length)
    (hbs : md.Data.BlockSize = s.ReadBufferSize) (hdd : md.Data.DdBlocks = 0)
    (hrun : putObjectData s r md w = some res) (hok : res.status = StatusOK) :
    PutSpec s md w b res := by
  unfold putObjectData at hrun
  by_cases hsmall : r.ContentLength ≤ s.ReadBufferSize
  · rw [if_pos hsmall] at hrun
    exact putSmallObjectData_success s r md w b res hdel hCL (by omega) hdd hrun hok
  · rw [if_neg hsmall] at hrun
    have h := putObjectDataFrom_success s r hB _ _ b res hdel (by simp) (by simp) rfl
      (by simp) (by simpa using hCL.symm) hrun hok
    obtain ⟨c_smd, c_bs, c_blocks, c_dd, c_store, c_trace, c_now, _, c_all⟩ := h
    unfold PutSpec
    rw [putBlocks_large _ b (by omega)]
    simp only [List.nil_append, pendDigest, pendDD, List.append_nil, Nat.zero_add,
      Nat.add_zero] at c_smd c_bs c_blocks c_dd c_store c_trace c_now c_all
    exact ⟨c_smd, c_bs.trans hbs, c_blocks, c_dd, c_store, c_trace, c_now, c_all⟩

/-- A successful `putObject` on a body that delivers exactly `b`: the record
it builds and stores, the world it leaves and the response. -/
theorem putObject_success {σ : Type} (s : S3Server σ) (r : Request) (resp : Response)
    (bkname objname : String) (w : World σ) (b : List Byte) (res : PutObjectResult σ)
    (hB : 0 < s.ReadBufferSize) (hdel : Delivers r.Body b) (hCL : r.ContentLength = b.length)
    (hrun : putObject s r resp bkname objname w = some res)
    (hok : res.resp.StatusCode = StatusOK) :
    res.md = { Smd := { Bucket := bkname, Name := objname, Mtime := w.now,
                        Size := b.length, Etag := md5Hex b },
               Data := { BlockSize := s.ReadBufferSize,
                         Blocks := (putBlocks s.ReadBufferSize b).map md5Hex,
                         DdBlocks := ddOf s (putBlocks s.ReadBufferSize b) w.store } } ∧
    allWritten s (putBlocks s.ReadBufferSize b) w.store ∧
    ∃ mdbyte, s.Marshal res.md = some mdbyte ∧
      (s.s3io.WriteObjectMD (storeAfter s (putBlocks s.ReadBufferSize b) w.store)
        bkname objname mdbyte).1.1 = StatusOK ∧
      res.w.store = (s.s3io.WriteObjectMD (storeAfter s (putBlocks s.ReadBufferSize b) w.store)
        bkname objname mdbyte).2 ∧
      res.w.trace = w.trace ++ writesOf s (putBlocks s.ReadBufferSize b) w.store
        ++ [Event.WriteObjectMD bkname objname mdbyte] ∧
      res.w.now = w.now ∧
      res.resp = { resp with Header := headerSet resp.Header ETag (md5Hex b),
                             StatusCode := StatusOK, Status := StatusOKStr } := by
  unfold putObject at hrun
  simp only [] at hrun
  cases hp : putObjectData s r
      { Smd := { Bucket := bkname, Name := objname, Mtime := w.now, Size := r.ContentLength,
                 Etag := "" },
        Data := { BlockSize := s.ReadBufferSize, Blocks := [], DdBlocks := 0 } } w with
  | none => rw [hp] at hrun; cases hrun
  | some pres =>
    rw [hp] at hrun
    simp only [] at hrun
    by_cases hst : pres.status = StatusOK
    · have hspec := putObjectData_success s r _ w b pres hB hdel hCL rfl rfl hp hst
      obtain ⟨c_smd, c_bs, c_blocks, c_dd, c_store, c_trace, c_now, c_all⟩ := hspec
      simp only [List.nil_append] at c_smd c_blocks
      have hmd : pres.md =
          { Smd := { Bucket := bkname, Name := objname, Mtime := w.now,
                     Size := b.length, Etag := md5Hex b },
            Data := { BlockSize := s.ReadBufferSize,
                      Blocks := (putBlocks s.ReadBufferSize b).map md5Hex,
                      DdBlocks := ddOf s (putBlocks s.ReadBufferSize b) w.store } } := by
        rcases pres with ⟨_, _, ⟨smd, ⟨bs, bl, dd⟩⟩, _, _⟩
        simp only [] at c_smd c_bs c_blocks c_dd
        rw [c_smd, c_bs, c_blocks, c_dd, hCL]
      rw [if_neg (by simpa using hst)] at hrun
      cases hm : s.Marshal pres.md with
      | none =>
        rw [hm] at hrun
        simp only [Option.some.injEq] at hrun
        subst hrun
        exact absurd hok StatusOK_ne_500
      | some mdbyte =>
        rw [hm] at hrun
        simp only [] at hrun
        by_cases hw : (s.s3io.WriteObjectMD pres.w.store bkname objname mdbyte).1.1 = StatusOK
        · rw [if_neg (by simpa using hw)] at hrun
          simp only [Option.some.injEq] at hrun
          subst hrun
          rw [c_store] at hw
          refine ⟨hmd, c_all, mdbyte, hm, hw, ?_, ?_, ?_, ?_⟩
          · simp [World.log, c_store]
          · simp [World.log, c_trace]
          · simp [World.log, c_now]
          · simp only [hmd]
        · rw [if_pos (by simpa using hw)] at hrun
          simp only [Option.some.injEq] at hrun
          subst hrun
          exact absurd hok hw
    · rw [if_pos (by simpa using hst)] at hrun
      simp only [Option.some.injEq] at hrun
      subst hrun
      exact absurd hok hst

/-! ## ETag and block list -/

/-- The etag on well-behaved bodies. For every successful `putObject` whose
body is well behaved (it answers zero bytes without error at most once) and
hands over exactly `ContentLength` bytes `b` (block size positive), on the
small-object path and on the streaming path alike, the etag of the metadata
record is the lowercase hex MD5 of the whole payload, the record is the one
marshalled and handed to `WriteObjectMD`, and the `ETag` response header
carries the same digest. -/
theorem etag_is_md5_of_payload {σ : Type} (s : S3Server σ) (r : Request) (resp : Response)
    (bkname objname : String) (w : World σ) (b : List Byte) (res : PutObjectResult σ)
    (hB : 0 < s.ReadBufferSize) (hdel : Delivers r.Body b) (hCL : r.ContentLength = b.length)
    (hrun : putObject s r resp bkname objname w = some res)
    (hok : res.resp.StatusCode = StatusOK) :
    res.md.Smd.Etag = md5Hex b ∧
    headerGet res.resp.Header ETag = some (md5Hex b) ∧
    ∃ mdbyte, s.Marshal res.md = some mdbyte ∧
      res.w.trace.getLast? = some (Event.WriteObjectMD bkname objname mdbyte) := by
  obtain ⟨hmd, _, mdbyte, hm, _, _, htrace, _, hresp⟩ :=
    putObject_success s r resp bkname objname w b res hB hdel hCL hrun hok
  refine ⟨by rw [hmd], ?_, mdbyte, hm, ?_⟩
  · rw [hresp]
    exact headerGet_headerSet _ _ _
  · rw [htrace]
    simp

set_option maxRecDepth 100000 in
theorem etag_is_md5_of_payload_witness :
    ((putObject (memServer 4 [md9]) req9 newResponse "b1" "/k1" (World.init MemStore.empty)).get
        (by decide)).md.Smd.Etag = md5Hex bytes9 :=
  (etag_is_md5_of_payload (memServer 4 [md9]) req9 newResponse "b1" "/k1"
    (World.init MemStore.empty) bytes9
    ((putObject (memServer 4 [md9]) req9 newResponse "b1" "/k1" (World.init MemStore.empty)).get
        (by decide))
    (by decide) ⟨by decide, by decide⟩ (by decide) (by simp) (by decide)).1

set_option maxRecDepth 100000 in
/-- A single zero-byte answer without error is allowed: on a body that answers
`1, 2`, then zero bytes, then `3, 4`, the etag is the MD5 of `1, 2, 3, 4`. -/
theorem etag_after_one_zero_read :
    ((putObject (memServer 4 [md4 4]) ⟨"PUT", "s3.amazonaws.com", "/b1/k1", 4,
        [⟨[1, 2], none⟩, ⟨[], none⟩, ⟨[3, 4], none⟩]⟩ newResponse "b1" "/k1"
        (World.init MemStore.empty)).get (by decide)).md.Smd.Etag = md5Hex [1, 2, 3, 4] :=
  (etag_is_md5_of_payload (memServer 4 [md4 4]) ⟨"PUT", "s3.amazonaws.com", "/b1/k1", 4,
      [⟨[1, 2], none⟩, ⟨[], none⟩, ⟨[3, 4], none⟩]⟩ newResponse "b1" "/k1"
    (World.init MemStore.empty) [1, 2, 3, 4]
    ((putObject (memServer 4 [md4 4]) ⟨"PUT", "s3.amazonaws.com", "/b1/k1", 4,
        [⟨[1, 2], none⟩, ⟨[], none⟩, ⟨[3, 4], none⟩]⟩ newResponse "b1" "/k1"
        (World.init MemStore.empty)).get (by decide))
    (by decide) ⟨by decide, by decide⟩ (by decide) (by simp) (by decide)).1

theorem blocksOf_flatten (B : Nat) (hB : 0 < B) :
    ∀ (n : Nat) (b : List Byte), b.length ≤ n → (blocksOf B b).flatten = b := by
  intro n
  induction n with
  | zero =>
    intro b hb
    have : b = [] := List.length_eq_zero.1 (by omega)
    subst this
    simp [blocksOf_nil B hB]
  | succ n ih =>
    intro b hb
    by_cases he : b = []
    · subst he
      simp [blocksOf_nil B hB]
    · have hpos := List.length_pos.2 he
      rw [blocksOf_cons B b hB he, List.flatten_cons,
        ih (b.drop B) (by rw [List.length_drop]; omega), List.take_append_drop]

theorem blocksOf_getElem? (B : Nat) (b : List Byte) (i : Nat) (hi : i < nBlocks B b.length) :
    (blocksOf B b)[i]? = some (blockAt B b i) := by
  unfold blocksOf
  rw [List.getElem?_map, List.getElem?_range hi]
  rfl

theorem blockAt_length (B : Nat) (b : List Byte) (i : Nat) (hB : 0 < B)
    (hi : i + 1 < nBlocks B b.length) : (blockAt B b i).length = B := by
  unfold nBlocks at hi
  have h1 : (i + 2) * B ≤ b.length + B - 1 := by
    have := (Nat.le_div_iff_mul_le hB).1 (show i + 2 ≤ (b.length + B - 1) / B by omega)
    exact this
  have h2 : (i + 2) * B = i * B + 2 * B := by ring
  simp only [blockAt, List.length_take, List.length_drop]
  omega

/-- The block list on well-behaved bodies. For every successful
`putObjectData` on a payload `b` of size > 0 whose body is well behaved (it
answers zero bytes without error at most once) and hands over exactly `b`
(`md` being the record as `putObject` hands it over, block size
`B = ReadBufferSize > 0`): the recorded list has
`ceil(size / B)` entries, entry `i` is the lowercase hex MD5 of block `i`, the
payload bytes `[i*B, min(size, (i+1)*B))`, in ascending index; every block but
possibly the last has exactly `B` bytes, the blocks joined in order are the
payload and their lengths sum to `size`. -/
theorem blocks_are_block_digests {σ : Type} (s : S3Server σ) (r : Request) (md : ObjectMD)
    (w : World σ) (b : List Byte) (res : PutResult σ)
    (hB : 0 < s.ReadBufferSize) (hpos : 0 < b.length)
    (hdel : Delivers r.Body b) (hCL : r.ContentLength = b.length)
    (hmd : md.Data = { BlockSize := s.ReadBufferSize, Blocks := [], DdBlocks := 0 })
    (hrun : putObjectData s r md w = some res) (hok : res.status = StatusOK) :
    res.md.Data.Blocks.length = nBlocks s.ReadBufferSize b.length ∧
    (∀ i, i < nBlocks s.ReadBufferSize b.length →
      res.md.Data.Blocks[i]? = some (md5Hex (blockAt s.ReadBufferSize b i))) ∧
    (∀ i, i + 1 < nBlocks s.ReadBufferSize b.length →
      (blockAt s.ReadBufferSize b i).length = s.ReadBufferSize) ∧
    ((List.range (nBlocks s.ReadBufferSize b.length)).map
      (blockAt s.ReadBufferSize b)).flatten = b ∧
    ((List.range (nBlocks s.ReadBufferSize b.length)).map
      fun i => (blockAt s.ReadBufferSize b i).length).sum = b.length := by
  have hne : b ≠ [] := List.length_pos.1 hpos
  obtain ⟨_, _, c_blocks, _⟩ := putObjectData_success s r md w b res hB hdel hCL
    (by rw [hmd]) (by rw [hmd]) hrun hok
  have hpb : putBlocks s.ReadBufferSize b = blocksOf s.ReadBufferSize b := by
    simp [putBlocks, hne]
  rw [hmd, hpb] at c_blocks
  simp only [List.nil_append] at c_blocks
  have hfl := blocksOf_flatten s.ReadBufferSize hB b.length b (Nat.le_refl _)
  refine ⟨?_, ?_, ?_, hfl, ?_⟩
  · rw [c_blocks, List.length_map, blocksOf_length]
  · intro i hi
    rw [c_blocks, List.getElem?_map, blocksOf_getElem? _ _ _ hi]
    rfl
  · intro i hi
    exact blockAt_length _ _ _ hB hi
  · have := congrArg List.length hfl
    rw [List.length_flatten, blocksOf, List.map_map] at this
    exact this

set_option maxRecDepth 100000 in
theorem blocks_are_block_digests_witness :
    ((putObjectData (memServer 4 [md9]) req9
        { Smd := { Bucket := "b1", Name := "/k1", Mtime := 0, Size := 9, Etag := "" },
          Data := { BlockSize := 4, Blocks := [], DdBlocks := 0 } }
        (World.init MemStore.empty)).get (by decide)).md.Data.Blocks.length
      = nBlocks 4 9 :=
  (blocks_are_block_digests (memServer 4 [md9]) req9
    { Smd := { Bucket := "b1", Name := "/k1", Mtime := 0, Size := 9, Etag := "" },
      Data := { BlockSize := 4, Blocks := [], DdBlocks := 0 } }
    (World.init MemStore.empty) bytes9
    ((putObjectData (memServer 4 [md9]) req9
        { Smd := { Bucket := "b1", Name := "/k1", Mtime := 0, Size := 9, Etag := "" },
          Data := { BlockSize := 4, Blocks := [], DdBlocks := 0 } }
        (World.init MemStore.empty)).get (by decide))
    (by decide) (by decide) ⟨by decide, by decide⟩ (by decide) rfl (by simp) (by decide)).1

/-! ## Deduplication -/

theorem exist_storeAfterBlock {σ : Type} (s : S3Server σ) (hk : KeepsBlocks s.s3io) (st : σ)
    (blk : List Byte) (d : String) (h : s.s3io.IsDataBlockExist st d = true) :
    s.s3io.IsDataBlockExist (storeAfterBlock s st blk) d = true := by
  unfold storeAfterBlock
  split
  · exact h
  · exact hk.exist_mono_write _ _ _ _ h

theorem exist_storeAfter {σ : Type} (s : S3Server σ) (hk : KeepsBlocks s.s3io) (d : String) :
    ∀ (blocks : List (List Byte)) (st : σ), s.s3io.IsDataBlockExist st d = true →
      s.s3io.IsDataBlockExist (storeAfter s blocks st) d = true := by
  intro blocks
  induction blocks with
  | nil => intro st h; exact h
  | cons blk rest ih =>
    intro st h
    exact ih _ (exist_storeAfterBlock s hk st blk d h)

/-- After the writer task has handled the blocks with every write OK, all of
them are in the store. -/
theorem exist_of_allWritten {σ : Type} (s : S3Server σ) (hk : KeepsBlocks s.s3io) :
    ∀ (blocks : List (List Byte)) (st : σ), allWritten s blocks st →
      ∀ blk ∈ blocks, s.s3io.IsDataBlockExist (storeAfter s blocks st) (md5Hex blk) = true := by
  intro blocks
  induction blocks with
  | nil => intro st _ blk hblk; cases hblk
  | cons b0 rest ih =>
    intro st hall blk hblk
    obtain ⟨h0, hrest⟩ := hall
    rcases List.mem_cons.1 hblk with rfl | hmem
    · show s.s3io.IsDataBlockExist (storeAfter s rest (storeAfterBlock s st blk)) _ = true
      apply exist_storeAfter s hk
      unfold storeAfterBlock
      by_cases hex : s.s3io.IsDataBlockExist st (md5Hex blk) = true
      · simp [hex]
      · have hex' : s.s3io.IsDataBlockExist st (md5Hex blk) = false := by simpa using hex
        simp only [hex', Bool.false_eq_true, if_false]
        exact hk.exist_after_write _ _ _ (h0 hex')
    · exact ih _ hrest blk hmem

/-- On a store that holds all the blocks the writer task writes nothing and
counts every block as a dedup hit. -/
theorem writesOf_of_exist {σ : Type} (s : S3Server σ) :
    ∀ (blocks : List (List Byte)) (st : σ),
      (∀ blk ∈ blocks, s.s3io.IsDataBlockExist st (md5Hex blk) = true) →
      writesOf s blocks st = [] ∧ ddOf s blocks st = blocks.length ∧
        storeAfter s blocks st = st := by
  intro blocks
  induction blocks with
  | nil => intro st _; exact ⟨rfl, rfl, rfl⟩
  | cons b0 rest ih =>
    intro st h
    have h0 := h b0 (by simp)
    have hst : storeAfterBlock s st b0 = st := by simp [storeAfterBlock, h0]
    obtain ⟨i1, i2, i3⟩ := ih st (fun blk hb => h blk (by simp [hb]))
    refine ⟨?_, ?_, ?_⟩
    · simp only [writesOf, hst, h0, if_true, i1, List.append_nil]
    · simp only [ddOf, hst, h0, if_true, i2, List.length_cons]
      omega
    · simp only [storeAfter, hst, i3]

theorem memBackend_keepsBlocks : KeepsBlocks memBackend := by
  refine ⟨?_, ?_, ?_⟩
  · intro st buf d _
    simp [memBackend, List.lookup]
  · intro st buf d d' h
    simp only [memBackend] at h ⊢
    by_cases e : d' = d
    · subst e
      simp [List.lookup]
    · have : (d' == d) = false := by simpa using e
      simp only [List.lookup, this]
      exact h
  · intro st bk nm mdbyte d' h
    exact h

/-- Dedup on rewrite with well-behaved bodies. On a backend that keeps its
blocks, after a successful PUT of a payload `b`, a second successful PUT of
the same payload (under any bucket and name, both bodies well behaved, cut
into answers in any way with at most one zero-byte answer) makes no
`WriteDataBlock` call: its only backend write is the `WriteObjectMD` of its
record, and that record has `dd_blocks` equal to its number of blocks. -/
theorem second_put_writes_nothing {σ : Type} (s : S3Server σ) (hk : KeepsBlocks s.s3io)
    (hB : 0 < s.ReadBufferSize) (b : List Byte) (r1 r2 : Request) (resp1 resp2 : Response)
    (bk1 nm1 bk2 nm2 : String) (w : World σ) (res1 res2 : PutObjectResult σ)
    (hdel1 : Delivers r1.Body b) (hCL1 : r1.ContentLength = b.length)
    (hdel2 : Delivers r2.Body b) (hCL2 : r2.ContentLength = b.length)
    (hrun1 : putObject s r1 resp1 bk1 nm1 w = some res1)
    (hok1 : res1.resp.StatusCode = StatusOK)
    (hrun2 : putObject s r2 resp2 bk2 nm2 res1.w = some res2)
    (hok2 : res2.resp.StatusCode = StatusOK) :
    (∃ mdbyte, res2.w.trace = res1.w.trace ++ [Event.WriteObjectMD bk2 nm2 mdbyte]) ∧
    countWrites res2.w.trace = countWrites res1.w.trace ∧
    res2.md.Data.DdBlocks = res2.md.Data.Blocks.length := by
  obtain ⟨_, hall1, mdbyte1, _, _, hstore1, _, _, _⟩ :=
    putObject_success s r1 resp1 bk1 nm1 w b res1 hB hdel1 hCL1 hrun1 hok1
  obtain ⟨hmd2, _, mdbyte2, _, _, _, htrace2, _, _⟩ :=
    putObject_success s r2 resp2 bk2 nm2 res1.w b res2 hB hdel2 hCL2 hrun2 hok2
  have hex : ∀ blk ∈ putBlocks s.ReadBufferSize b,
      s.s3io.IsDataBlockExist res1.w.store (md5Hex blk) = true := by
    intro blk hblk
    rw [hstore1]
    exact hk.exist_mono_md _ _ _ _ _ (exist_of_allWritten s hk _ _ hall1 blk hblk)
  obtain ⟨hw, hdd, _⟩ := writesOf_of_exist s _ _ hex
  rw [hw, List.append_nil] at htrace2
  refine ⟨⟨mdbyte2, htrace2⟩, ?_, ?_⟩
  · rw [htrace2]
    simp [countWrites, Event.isWriteDataBlock]
  · rw [hmd2]
    simp [hdd]

set_option maxRecDepth 100000 in
theorem second_put_writes_nothing_witness :
    countWrites ((putObject (memServer 4 [md9, md9b]) req9b newResponse "b2" "/k2"
        ((putObject (memServer 4 [md9, md9b]) req9 newResponse "b1" "/k1"
          (World.init MemStore.empty)).get (by decide)).w).get (by decide)).w.trace
      = countWrites ((putObject (memServer 4 [md9, md9b]) req9 newResponse "b1" "/k1"
          (World.init MemStore.empty)).get (by decide)).w.trace :=
  (second_put_writes_nothing (memServer 4 [md9, md9b])
    memBackend_keepsBlocks
    (by decide) bytes9 req9 req9b newResponse newResponse "b1" "/k1" "b2" "/k2"
    (World.init MemStore.empty)
    ((putObject (memServer 4 [md9, md9b]) req9 newResponse "b1" "/k1"
          (World.init MemStore.empty)).get (by decide))
    ((putObject (memServer 4 [md9, md9b]) req9b newResponse "b2" "/k2"
        ((putObject (memServer 4 [md9, md9b]) req9 newResponse "b1" "/k1"
          (World.init MemStore.empty)).get (by decide)).w).get (by decide))
    ⟨by decide, by decide⟩ (by decide) ⟨by decide, by decide⟩ (by decide)
    (Option.some_get _).symm (by decide) (Option.some_get _).symm (by decide)).2.1

/-! ## The write pipeline returns -/

theorem RandomFI_nil {σ : Type} (w : World σ) (h : w.fi = []) : RandomFI w = (false, w) := by
  simp [RandomFI, h]

theorem payload_length_lt_bodyFuel (body : Body) : (payload body).length < bodyFuel body := by
  have h : ∀ body : Body, (payload body).length ≤ (body.map fun c => c.data.length + 1).sum := by
    intro body
    induction body with
    | nil => simp [payload]
    | cons c rest ih =>
      rw [payload_cons, List.length_append, List.map_cons, List.sum_cons]
      omega
  have := h body
  unfold bodyFuel
  omega

/-- With no fault injected, no writer task giving up and every block write
succeeding, the streaming path returns with status OK on a body that delivers
exactly the bytes due. -/
theorem putObjectDataFrom_returns {σ : Type} (s : S3Server σ) (r : Request)
    (hB : 0 < s.ReadBufferSize) :
    ∀ (fuel : Nat) (st : PutLoop σ) (rest : List Byte),
      Delivers st.body rest → st.readBuf.length = s.ReadBufferSize →
      st.writeBuf.length = s.ReadBufferSize → st.md5ck = [] →
      (st.waitWrite = true ↔ st.c ≠ none) → st.rlen + rest.length = r.ContentLength →
      st.w.fi = [] → st.w.late = [] → pendOK st.c →
      allWritten s (blocksOf s.ReadBufferSize rest) st.w.store →
      rest.length < fuel →
      ∃ res, putObjectDataFrom s r fuel st = some res ∧ res.status = StatusOK := by
  intro fuel
  induction fuel with
  | zero => intro st rest _ _ _ _ _ _ _ _ _ _ h; omega
  | succ fuel ih =>
    intro st rest hdel hrb hwb hck hwait hlen hfi0 hlate hpend hall hfuel
    rw [putObjectDataFrom_succ]
    by_cases hrest : rest = []
    · subst hrest
      have hnlt : ¬ st.rlen < r.ContentLength := by
        simp at hlen
        omega
      rw [if_neg hnlt]
      unfold putObjectDataEnd
      rcases waitDataBlock_cases st hwait with ⟨_, _, _, _, _, hnp⟩ | ⟨st2, h2, _⟩
      · exact absurd hpend hnp
      · rw [h2]
        exact ⟨_, rfl, rfl⟩
    · have hpos : 0 < rest.length := List.length_pos.2 hrest
      have hlt : st.rlen < r.ContentLength := by omega
      rw [if_pos hlt]
      obtain ⟨err, buf1, body1, heq, hl1, htake, hwb1, hpay, herr1, heof, hshort⟩ :=
        readFullBuf_wellBehaved st.body st.readBuf hdel.1
      rw [hdel.2, hrb] at heq htake hpay heof hshort
      rw [hrb] at hl1
      rw [heq]
      simp only [RandomFI_nil st.w hfi0, Bool.false_eq_true, false_and, if_false]
      have h1 : ¬ (err ≠ none ∧ err ≠ some ReadErr.EOF) := by
        rcases herr1 with h | h <;> simp [h]
      have h2 : ¬ (err ≠ none ∧
          st.rlen + min s.ReadBufferSize rest.length ≠ r.ContentLength) := by
        intro h
        rcases herr1 with e | e
        · exact h.1 e
        · have := heof e
          apply h.2
          omega
      have h3 : ¬ (err ≠ none ∧ min s.ReadBufferSize rest.length = 0) := by
        intro h
        have := h.2
        omega
      rw [if_neg h1, if_neg h2, if_neg h3]
      rcases waitDataBlock_cases
          { st with readBuf := buf1, body := body1,
                    rlen := st.rlen + min s.ReadBufferSize rest.length, w := st.w }
          hwait with ⟨_, _, _, _, _, hnp⟩ |
        ⟨st2, hw2, e_rb, e_wb, e_ck, e_etag, _, _, _, _, e_rlen, e_body, e_w, _⟩
      · exact absurd hpend hnp
      · rw [hw2]
        simp only []
        simp only [] at e_rb e_wb e_ck e_etag e_rlen e_body e_w
        have hblk : st2.readBuf.take (min s.ReadBufferSize rest.length)
            = rest.take s.ReadBufferSize := by
          rw [e_rb, htake]
        rw [hblk, e_ck, hck, e_w, e_etag]
        simp only [hlate, List.not_mem_nil, if_false]
        have hfst := writeOneDataBlock_fst s (rest.take s.ReadBufferSize) st.etag st.w
        have hsnd := writeOneDataBlock_snd s (rest.take s.ReadBufferSize) st.etag st.w
        rw [blocksOf_cons _ rest hB hrest] at hall
        obtain ⟨hall0, hallrest⟩ := hall
        apply ih _ (rest.drop s.ReadBufferSize)
          ⟨by simpa [e_body] using hwb1, by simpa [e_body] using hpay⟩
          (by simpa [e_wb] using hwb) (by simpa [e_rb] using hl1)
          (by simpa using hsnd.1) (by simp)
          (by simp only [e_rlen, List.length_drop]; omega)
        · simp only [hsnd.2.2.2.2.2, hfi0]
        · simp only [writeOneDataBlock_late, hlate]
        · intro pr hpr
          simp only [Option.some.injEq] at hpr
          subst hpr
          exact hfst.2.2.2 hall0
        · simp only [hsnd.2.2.1]
          exact hallrest
        · simp only [List.length_drop]
          omega

theorem putObjectData_returns {σ : Type} (s : S3Server σ) (r : Request) (md : ObjectMD)
    (w : World σ) (b : List Byte) (hB : 0 < s.ReadBufferSize)
    (hdel : Delivers r.Body b) (hCL : r.ContentLength = b.length) (hfi : w.fi = [])
    (hlate : w.late = []) (hall : allWritten s (putBlocks s.ReadBufferSize b) w.store) :
    ∃ res, putObjectData s r md w = some res ∧ res.status = StatusOK := by
  unfold putObjectData
  by_cases hsmall : r.ContentLength ≤ s.ReadBufferSize
  · rw [if_pos hsmall]
    rw [putBlocks_small _ b (by omega)] at hall
    obtain ⟨err, body1, heq, herr⟩ := readFullBuf_exact r.Body b hdel
    unfold putSmallObjectData
    rw [hCL, heq]
    simp only []
    have h1 : ¬ (err ≠ none ∧ err ≠ some ReadErr.EOF) := by
      rcases herr with h | h <;> simp [h]
    have h2 : ¬ (err ≠ none ∧ b.length ≠ b.length) := by simp
    rw [if_neg h1, if_neg h2]
    change ∃ res, (if (!s.s3io.IsDataBlockExist w.store (md5Hex b)) = true then _ else _)
      = some res ∧ _
    by_cases hex : s.s3io.IsDataBlockExist w.store (md5Hex b) = true
    · simp only [hex, Bool.not_true, Bool.false_eq_true, if_false]
      exact ⟨_, rfl, rfl⟩
    · have hex' : s.s3io.IsDataBlockExist w.store (md5Hex b) = false := by simpa using hex
      have hst : (s.s3io.WriteDataBlock w.store b (hexEncodeToString (md5Sum b))).1.1
          = StatusOK := hall.1 hex'
      simp only [hex', Bool.not_false, if_true, hst, ne_eq, not_true_eq_false, if_false]
      exact ⟨_, rfl, rfl⟩
  · rw [if_neg hsmall]
    rw [putBlocks_large _ b (by omega)] at hall
    exact putObjectDataFrom_returns s r hB _ _ b hdel (by simp) (by simp) rfl (by simp)
      (by simpa using hCL.symm) hfi hlate (fun _ h => by cases h) hall
      (by rw [← hdel.2]; exact payload_length_lt_bodyFuel r.Body)

/-- With no fault injected, no writer task giving up, every block write
succeeding, the record marshalling and its write succeeding, `putObject`
returns with status 200 on a body that delivers exactly `ContentLength`
bytes. -/
theorem putObject_returns {σ : Type} (s : S3Server σ) (r : Request) (resp : Response)
    (bkname objname : String) (w : World σ) (b : List Byte) (mdbyte : List Byte)
    (hB : 0 < s.ReadBufferSize) (hdel : Delivers r.Body b) (hCL : r.ContentLength = b.length)
    (hfi : w.fi = []) (hlate : w.late = [])
    (hall : allWritten s (putBlocks s.ReadBufferSize b) w.store)
    (hm : s.Marshal
      { Smd := { Bucket := bkname, Name := objname, Mtime := w.now,
                 Size := b.length, Etag := md5Hex b },
        Data := { BlockSize := s.ReadBufferSize,
                  Blocks := (putBlocks s.ReadBufferSize b).map md5Hex,
                  DdBlocks := ddOf s (putBlocks s.ReadBufferSize b) w.store } } = some mdbyte)
    (hw : (s.s3io.WriteObjectMD (storeAfter s (putBlocks s.ReadBufferSize b) w.store)
      bkname objname mdbyte).1.1 = StatusOK) :
    ∃ res, putObject s r resp bkname objname w = some res ∧
      res.resp.StatusCode = StatusOK := by
  obtain ⟨pres, hp, hst⟩ := putObjectData_returns s r
    { Smd := { Bucket := bkname, Name := objname, Mtime := w.now, Size := r.ContentLength,
               Etag := "" },
      Data := { BlockSize := s.ReadBufferSize, Blocks := [], DdBlocks := 0 } }
    w b hB hdel hCL hfi hlate hall
  obtain ⟨c_smd, c_bs, c_blocks, c_dd, c_store, _⟩ :=
    putObjectData_success s r _ w b pres hB hdel hCL rfl rfl hp hst
  simp only [List.nil_append] at c_smd c_blocks
  have hmd : pres.md =
      { Smd := { Bucket := bkname, Name := objname, Mtime := w.now,
                 Size := b.length, Etag := md5Hex b },
        Data := { BlockSize := s.ReadBufferSize,
                  Blocks := (putBlocks s.ReadBufferSize b).map md5Hex,
                  DdBlocks := ddOf s (putBlocks s.ReadBufferSize b) w.store } } := by
    rcases pres with ⟨_, _, ⟨smd, ⟨bs, bl, dd⟩⟩, _, _⟩
    simp only [] at c_smd c_bs c_blocks c_dd
    rw [c_smd, c_bs, c_blocks, c_dd, hCL]
  unfold putObject
  simp only [hp]
  rw [if_neg (by simpa using hst), hmd, hm]
  simp only []
  rw [c_store, if_neg (by simpa using hw)]
  exact ⟨_, rfl, rfl⟩

theorem allWritten_of_ok {σ : Type} (s : S3Server σ)
    (h : ∀ st buf d, (s.s3io.WriteDataBlock st buf d).1.1 = StatusOK) :
    ∀ (blocks : List (List Byte)) (st : σ), allWritten s blocks st := by
  intro blocks
  induction blocks with
  | nil => intro st; trivial
  | cons b0 rest ih => intro st; exact ⟨fun _ => h _ _ _, ih _⟩

/-! ## Block writes of a first PUT -/

theorem writesOf_of_fresh {σ : Type} (s : S3Server σ) (hf : WriteFrame s.s3io) :
    ∀ (blocks : List (List Byte)) (st : σ),
      (∀ blk ∈ blocks, s.s3io.IsDataBlockExist st (md5Hex blk) = false) →
      (blocks.map md5Hex).Nodup →
      writesOf s blocks st = blocks.map fun blk => Event.WriteDataBlock blk (md5Hex blk) := by
  intro blocks
  induction blocks with
  | nil => intro st _ _; rfl
  | cons b0 rest ih =>
    intro st hnone hnd
    have h0 := hnone b0 (by simp)
    rw [List.map_cons, List.nodup_cons] at hnd
    have hst : storeAfterBlock s st b0 = (s.s3io.WriteDataBlock st b0 (md5Hex b0)).2 := by
      simp [storeAfterBlock, h0]
    have hrest : ∀ blk ∈ rest,
        s.s3io.IsDataBlockExist (storeAfterBlock s st b0) (md5Hex blk) = false := by
      intro blk hblk
      rw [hst]
      apply hf.frame
      · intro e
        exact hnd.1 (by rw [← e]; exact List.mem_map_of_mem _ hblk)
      · exact hnone blk (by simp [hblk])
    simp only [writesOf, h0, Bool.false_eq_true, if_false, ih _ hrest hnd.2, List.map_cons,
      List.singleton_append]

theorem countWrites_append (t1 t2 : List Event) :
    countWrites (t1 ++ t2) = countWrites t1 + countWrites t2 := by
  simp [countWrites]

theorem countWrites_map_write (blocks : List (List Byte)) :
    countWrites (blocks.map fun blk => Event.WriteDataBlock blk (md5Hex blk)) = blocks.length := by
  induction blocks with
  | nil => rfl
  | cons b0 rest ih =>
    simp only [countWrites, List.map_cons, List.filter, Event.isWriteDataBlock,
      List.length_cons] at ih ⊢
    rw [ih]

/-- C6 (amended). A first PUT of a payload of size > 0 whose blocks have
pairwise distinct digests, from a body that hands over exactly the payload
and answers zero bytes without error at most once, with `ContentLength` the
size, to a store that holds none of the blocks and in which writing a block
makes no other block appear, makes exactly `ceil(size / block_size)`
`WriteDataBlock` calls when it succeeds. -/
theorem first_put_writes_every_block {σ : Type} (s : S3Server σ) (hf : WriteFrame s.s3io)
    (hB : 0 < s.ReadBufferSize) (b : List Byte) (hpos : 0 < b.length)
    (r : Request) (resp : Response) (bkname objname : String) (w : World σ)
    (res : PutObjectResult σ)
    (hdel : Delivers r.Body b) (hCL : r.ContentLength = b.length)
    (hnone : ∀ blk ∈ blocksOf s.ReadBufferSize b,
      s.s3io.IsDataBlockExist w.store (md5Hex blk) = false)
    (hdistinct : ((blocksOf s.ReadBufferSize b).map md5Hex).Nodup)
    (hrun : putObject s r resp bkname objname w = some res)
    (hok : res.resp.StatusCode = StatusOK) :
    countWrites res.w.trace = countWrites w.trace + nBlocks s.ReadBufferSize b.length := by
  obtain ⟨_, _, mdbyte, _, _, _, htrace, _, _⟩ :=
    putObject_success s r resp bkname objname w b res hB hdel hCL hrun hok
  have hpb : putBlocks s.ReadBufferSize b = blocksOf s.ReadBufferSize b := by
    simp [putBlocks, List.length_pos.1 hpos]
  rw [hpb, writesOf_of_fresh s hf _ _ hnone hdistinct] at htrace
  rw [htrace, countWrites_append, countWrites_append, countWrites_map_write, blocksOf_length]
  simp [countWrites, Event.isWriteDataBlock]

theorem memBackend_writeFrame : WriteFrame memBackend := by
  refine ⟨?_⟩
  intro st buf d d' hne h
  simp only [memBackend] at h ⊢
  have : (d' == d) = false := by simpa using hne
  simp only [List.lookup, this]
  exact h

set_option maxRecDepth 100000 in
theorem first_put_writes_every_block_witness :
    countWrites ((putObject (memServer 4 [md9]) req9 newResponse "b1" "/k1"
        (World.init MemStore.empty)).get (by decide)).w.trace
      = countWrites (World.init MemStore.empty).trace + nBlocks 4 bytes9.length :=
  first_put_writes_every_block (memServer 4 [md9]) memBackend_writeFrame (by decide) bytes9
    (by decide) req9 newResponse "b1" "/k1" (World.init MemStore.empty)
    ((putObject (memServer 4 [md9]) req9 newResponse "b1" "/k1"
        (World.init MemStore.empty)).get (by decide))
    ⟨by decide, by decide⟩ (by decide) (by decide) (by decide)
    (Option.some_get _).symm (by decide)

theorem blocksOf_two (B : Nat) (hB : 0 < B) (a : Byte) :
    blocksOf B (List.replicate (2 * B) a) = [List.replicate B a, List.replicate B a] := by
  have h1 : List.replicate (2 * B) a ≠ [] := by
    intro e
    have := congrArg List.length e
    simp at this
    omega
  have h2 : List.replicate B a ≠ [] := by
    intro e
    have := congrArg List.length e
    simp at this
    omega
  rw [blocksOf_cons B _ hB h1, List.take_replicate, List.drop_replicate,
    show min B (2 * B) = B by omega, show 2 * B - B = B by omega,
    blocksOf_cons B _ hB h2, List.take_replicate, List.drop_replicate,
    show min B B = B by omega, show B - B = 0 by omega]
  simp [blocksOf_nil B hB]

theorem DataBlockSize_pos : 0 < DataBlockSize := by decide

theorem dupBytes_length : dupBytes.length = 2 * DataBlockSize := by
  simp [dupBytes]

theorem putBlocks_dupBytes : putBlocks DataBlockSize dupBytes = [zeroBlock, zeroBlock] := by
  rw [putBlocks_large _ _ (by rw [dupBytes_length]; have := DataBlockSize_pos; omega)]
  unfold dupBytes zeroBlock
  exact blocksOf_two DataBlockSize DataBlockSize_pos 0

theorem delivers_single (data : List Byte) (_h : data ≠ []) :
    Delivers [⟨data, none⟩] data := by
  constructor
  · cases data with
    | nil => rfl
    | cons a l => rfl
  · simp [payload]

theorem dupBytes_ne_nil : dupBytes ≠ [] := by
  intro e
  have := congrArg List.length e
  rw [dupBytes_length] at this
  have := DataBlockSize_pos
  simp at *
  omega

theorem memBackend_exist_empty (d : String) : memBackend.IsDataBlockExist MemStore.empty d = false := rfl

theorem memBackend_exist_written (st : MemStore) (z : List Byte) (d : String) :
    memBackend.IsDataBlockExist (memBackend.WriteDataBlock st z d).2 d = true :=
  memBackend_keepsBlocks.exist_after_write st z d rfl

theorem writesOf_twice (B : Nat) (known : List ObjectMD) (z : List Byte) :
    writesOf (memServer B known) [z, z] MemStore.empty
      = [Event.WriteDataBlock z (md5Hex z)] := by
  have hs : (memServer B known).s3io = memBackend := rfl
  simp only [writesOf, storeAfterBlock, hs, memBackend_exist_empty, memBackend_exist_written,
    Bool.false_eq_true, if_false, if_true, List.append_nil]

theorem ddOf_twice (B : Nat) (known : List ObjectMD) (z : List Byte) :
    ddOf (memServer B known) [z, z] MemStore.empty = 1 := by
  have hs : (memServer B known).s3io = memBackend := rfl
  simp only [ddOf, storeAfterBlock, hs, memBackend_exist_empty, memBackend_exist_written,
    Bool.false_eq_true, if_false, if_true]

theorem dup_hwr :
    writesOf (memServer DataBlockSize [mdDup]) [zeroBlock, zeroBlock] MemStore.empty
      = [Event.WriteDataBlock zeroBlock (md5Hex zeroBlock)] :=
  writesOf_twice DataBlockSize [mdDup] zeroBlock

theorem dup_hdd :
    ddOf (memServer DataBlockSize [mdDup]) [zeroBlock, zeroBlock] MemStore.empty = 1 :=
  ddOf_twice DataBlockSize [mdDup] zeroBlock

theorem dup_hmd :
    ({ Smd := { Bucket := "b1", Name := "/big", Mtime := (World.init MemStore.empty).now,
                Size := dupBytes.length, Etag := md5Hex dupBytes },
       Data := { BlockSize := (memServer DataBlockSize [mdDup]).ReadBufferSize,
                 Blocks := (putBlocks (memServer DataBlockSize [mdDup]).ReadBufferSize
                   dupBytes).map md5Hex,
                 DdBlocks := ddOf (memServer DataBlockSize [mdDup])
                   (putBlocks (memServer DataBlockSize [mdDup]).ReadBufferSize dupBytes)
                   (World.init MemStore.empty).store } } : ObjectMD) = mdDup := by
  have hpb : putBlocks (memServer DataBlockSize [mdDup]).ReadBufferSize dupBytes
      = [zeroBlock, zeroBlock] := putBlocks_dupBytes
  have e1 : (putBlocks (memServer DataBlockSize [mdDup]).ReadBufferSize dupBytes).map md5Hex
      = [md5Hex zeroBlock, md5Hex zeroBlock] := by
    rw [hpb]
    rfl
  have e2 : ddOf (memServer DataBlockSize [mdDup])
      (putBlocks (memServer DataBlockSize [mdDup]).ReadBufferSize dupBytes)
      (World.init MemStore.empty).store = 1 := by
    rw [hpb]
    exact dup_hdd
  rw [e1, e2]
  rfl

theorem dup_hmar :
    (memServer DataBlockSize [mdDup]).Marshal
      { Smd := { Bucket := "b1", Name := "/big", Mtime := (World.init MemStore.empty).now,
                 Size := dupBytes.length, Etag := md5Hex dupBytes },
        Data := { BlockSize := (memServer DataBlockSize [mdDup]).ReadBufferSize,
                  Blocks := (putBlocks (memServer DataBlockSize [mdDup]).ReadBufferSize
                    dupBytes).map md5Hex,
                  DdBlocks := ddOf (memServer DataBlockSize [mdDup])
                    (putBlocks (memServer DataBlockSize [mdDup]).ReadBufferSize dupBytes)
                    (World.init MemStore.empty).store } } = some [0] := by
  rw [dup_hmd]
  simp [memServer]

theorem dup_returns :
    ∃ res, putObject (memServer DataBlockSize [mdDup]) reqDup newResponse "b1" "/big"
        (World.init MemStore.empty) = some res ∧ res.resp.StatusCode = StatusOK := by
  have hdel : Delivers reqDup.Body dupBytes := delivers_single dupBytes dupBytes_ne_nil
  have hCL : reqDup.ContentLength = dupBytes.length := dupBytes_length.symm
  have hB : 0 < (memServer DataBlockSize [mdDup]).ReadBufferSize := DataBlockSize_pos
  have hok1 : ∀ (st : MemStore) (buf : List Byte) (d : String),
      ((memServer DataBlockSize [mdDup]).s3io.WriteDataBlock st buf d).1.1 = StatusOK :=
    fun _ _ _ => rfl
  have hall := allWritten_of_ok (memServer DataBlockSize [mdDup]) hok1
    (putBlocks (memServer DataBlockSize [mdDup]).ReadBufferSize dupBytes)
    (World.init MemStore.empty).store
  exact putObject_returns (memServer DataBlockSize [mdDup]) reqDup newResponse
    "b1" "/big" (World.init MemStore.empty) dupBytes [0] hB hdel hCL rfl rfl hall dup_hmar rfl

/-- The run behind the counterexample to C6: the first PUT of `dupBytes` on
an empty store succeeds and its log holds one `WriteDataBlock` call. -/
theorem put_dupBytes :
    ∃ res, putObject (memServer DataBlockSize [mdDup]) reqDup newResponse "b1" "/big"
        (World.init MemStore.empty) = some res ∧
      res.resp.StatusCode = StatusOK ∧ countWrites res.w.trace = 1 := by
  have hdel : Delivers reqDup.Body dupBytes := delivers_single dupBytes dupBytes_ne_nil
  have hCL : reqDup.ContentLength = dupBytes.length := dupBytes_length.symm
  have hB : 0 < (memServer DataBlockSize [mdDup]).ReadBufferSize := DataBlockSize_pos
  obtain ⟨res, hrun, hok⟩ := dup_returns
  obtain ⟨_, _, mdbyte, _, _, _, htrace, _, _⟩ :=
    putObject_success _ reqDup newResponse "b1" "/big" (World.init MemStore.empty) dupBytes res
      hB hdel hCL hrun hok
  have e3 : writesOf (memServer DataBlockSize [mdDup])
      (putBlocks (memServer DataBlockSize [mdDup]).ReadBufferSize dupBytes)
      (World.init MemStore.empty).store
        = [Event.WriteDataBlock zeroBlock (md5Hex zeroBlock)] := by
    rw [show putBlocks (memServer DataBlockSize [mdDup]).ReadBufferSize dupBytes
      = [zeroBlock, zeroBlock] from putBlocks_dupBytes]
    exact dup_hwr
  rw [e3] at htrace
  refine ⟨res, hrun, hok, ?_⟩
  rw [htrace]
  simp [countWrites, Event.isWriteDataBlock, World.init]

/-- C6, as stated, fails: the first PUT of `2 * 131072` zero bytes on an empty
store succeeds with one `WriteDataBlock` call, while
`ceil(size / block_size)` is 2. -/
theorem first_put_duplicate_blocks :
    (∃ res, putObject (memServer DataBlockSize [mdDup]) reqDup newResponse "b1" "/big"
        (World.init MemStore.empty) = some res ∧
      res.resp.StatusCode = StatusOK ∧ countWrites res.w.trace = 1) ∧
    0 < reqDup.ContentLength ∧ nBlocks DataBlockSize reqDup.ContentLength = 2 ∧
    ∀ blk ∈ blocksOf DataBlockSize dupBytes,
      memBackend.IsDataBlockExist MemStore.empty (md5Hex blk) = false :=
  ⟨put_dupBytes, by decide, by decide, fun _ _ => rfl⟩

/-! ## A body shorter than `ContentLength` -/

theorem readFullBuf_short (body : Body) (b : List Byte) (n : Nat) (hdel : Delivers body b)
    (hlt : b.length < n) :
    ∃ buf1 body1, readFullBuf body (List.replicate n 0)
      = some (b.length, some ReadErr.EOF, buf1, body1) := by
  obtain ⟨err, buf1, body1, heq, _, _, _, _, _, _, hshort⟩ :=
    readFullBuf_wellBehaved body (List.replicate n 0) hdel.1
  rw [hdel.2] at heq hshort
  simp only [List.length_replicate] at heq hshort
  rw [hshort hlt, Nat.min_eq_right (by omega)] at heq
  exact ⟨buf1, body1, heq⟩

/-- The streaming path on a body that delivers fewer bytes than are due, no
writer task giving up: it returns with a status that is not OK, logging block
writes only, and with the status and message of the short read when no fault
is injected and no block write fails. -/
theorem putObjectDataFrom_short {σ : Type} (s : S3Server σ) (r : Request)
    (hB : 0 < s.ReadBufferSize) :
    ∀ (fuel : Nat) (st : PutLoop σ) (rest : List Byte),
      Delivers st.body rest → st.readBuf.length = s.ReadBufferSize →
      st.writeBuf.length = s.ReadBufferSize → st.md5ck = [] →
      (st.waitWrite = true ↔ st.c ≠ none) → st.rlen + rest.length < r.ContentLength →
      st.w.late = [] → rest.length < fuel →
      ∃ res, putObjectDataFrom s r fuel st = some res ∧ res.status ≠ StatusOK ∧
        (∀ e ∈ res.w.trace, e ∈ st.w.trace ∨ ∃ buf d, e = Event.WriteDataBlock buf d) ∧
        (st.w.fi = [] → pendOK st.c →
          (∀ st buf d, (s.s3io.WriteDataBlock st buf d).1.1 = StatusOK) →
          res.status = InvalidRequest ∧ res.errmsg = "data less than ContentLength") := by
  intro fuel
  induction fuel with
  | zero => intro st rest _ _ _ _ _ _ _ h; omega
  | succ fuel ih =>
    intro st rest hdel hrb hwb hck hwait hlen hlate hfuel
    rw [putObjectDataFrom_succ]
    have hq : ¬ (st.waitWrite = true ∧ st.c = none) := fun h => (hwait.1 h.1) h.2
    have hlt : st.rlen < r.ContentLength := by omega
    rw [if_pos hlt]
    obtain ⟨err, buf1, body1, heq, hl1, htake, hwb1, hpay, herr1, heof, hshort⟩ :=
      readFullBuf_wellBehaved st.body st.readBuf hdel.1
    rw [hdel.2, hrb] at heq htake hpay heof hshort
    rw [hrb] at hl1
    rw [heq]
    simp only []
    have hfi1 := RandomFI_snd st.w
    have hfi2 := RandomFI_snd (RandomFI st.w).2
    by_cases hfi : (RandomFI st.w).1 = true ∧ (RandomFI (RandomFI st.w).2).1 = true
    · rw [if_pos hfi]
      refine ⟨_, rfl, StatusOK_ne_500, ?_, ?_⟩
      · intro e he
        left
        simpa [hfi2.2.1, hfi1.2.1] using he
      · intro h0
        rw [RandomFI_nil st.w h0] at hfi
        simp at hfi
    · rw [if_neg hfi]
      have hw' : ∃ w' : World σ, w' = (if (RandomFI st.w).1 = true
          then (RandomFI (RandomFI st.w).2).2 else (RandomFI st.w).2) ∧
          w'.store = st.w.store ∧ w'.trace = st.w.trace ∧ (st.w.fi = [] → w' = st.w) ∧
          w'.late = [] := by
        refine ⟨_, rfl, ?_⟩
        split
        · refine ⟨hfi2.1.trans hfi1.1, hfi2.2.1.trans hfi1.2.1, ?_,
            by rw [RandomFI_late, RandomFI_late]; exact hlate⟩
          intro h0
          rename_i h
          rw [RandomFI_nil st.w h0] at h
          simp at h
        · refine ⟨hfi1.1, hfi1.2.1, ?_, by rw [RandomFI_late]; exact hlate⟩
          intro h0
          rw [RandomFI_nil st.w h0]
      obtain ⟨w', hw'eq, hstore, htrace, hwnil, hwlate⟩ := hw'
      have he' : ∃ err', err' = (if (RandomFI st.w).1 = true then some ReadErr.EOF else err) ∧
          (err' = none ∨ err' = some ReadErr.EOF) ∧ (err' = none → err = none) := by
        refine ⟨_, rfl, ?_⟩
        split
        · exact ⟨Or.inr rfl, fun h => by cases h⟩
        · exact ⟨herr1, fun h => h⟩
      obtain ⟨err', he'eq, herr', herrnone⟩ := he'
      simp only [← hw'eq, ← he'eq]
      have h1 : ¬ (err' ≠ none ∧ err' ≠ some ReadErr.EOF) := by
        rcases herr' with h | h <;> simp [h]
      rw [if_neg h1]
      have hne : st.rlen + min s.ReadBufferSize rest.length ≠ r.ContentLength := by omega
      by_cases hnone : err' = none
      · have h2 : ¬ (err' ≠ none ∧
            st.rlen + min s.ReadBufferSize rest.length ≠ r.ContentLength) := by
          simp [hnone]
        have h3 : ¬ (err' ≠ none ∧ min s.ReadBufferSize rest.length = 0) := by
          simp [hnone]
        rw [if_neg h2, if_neg h3]
        have hfull : s.ReadBufferSize ≤ rest.length := by
          by_contra hc
          have := hshort (by omega)
          rw [herrnone hnone] at this
          cases this
        rcases waitDataBlock_cases
            { st with readBuf := buf1, body := body1,
                      rlen := st.rlen + min s.ReadBufferSize rest.length, w := w' }
            hwait with ⟨r1, hw1, hne1, _, hr1w, hnp⟩ |
          ⟨st2, hw2, e_rb, e_wb, e_ck, e_etag, _, _, _, _, e_rlen, e_body, e_w, _⟩
        · rw [hw1]
          refine ⟨r1, rfl, hne1, ?_, ?_⟩
          · intro e he
            left
            rw [hr1w] at he
            simpa [htrace] using he
          · intro _ hp _
            exact absurd hp hnp
        · rw [hw2]
          simp only []
          simp only [] at e_rb e_wb e_ck e_etag e_rlen e_body e_w
          have hblk : st2.readBuf.take (min s.ReadBufferSize rest.length)
              = rest.take s.ReadBufferSize := by
            rw [e_rb, htake]
          rw [hblk, e_ck, hck, e_w, e_etag]
          simp only [hwlate, List.not_mem_nil, if_false]
          have hfst := writeOneDataBlock_fst s (rest.take s.ReadBufferSize) st.etag w'
          have hsnd := writeOneDataBlock_snd s (rest.take s.ReadBufferSize) st.etag w'
          obtain ⟨res, hrun, hst, htr, hlast⟩ := ih
            { st2 with
              readBuf := st2.writeBuf, writeBuf := st2.readBuf, waitWrite := true,
              c := some (writeOneDataBlock s (rest.take s.ReadBufferSize) [] st.etag w').1,
              md5ck := (writeOneDataBlock s (rest.take s.ReadBufferSize) [] st.etag w').2.1,
              etag := (writeOneDataBlock s (rest.take s.ReadBufferSize) [] st.etag w').2.2.1,
              w := (writeOneDataBlock s (rest.take s.ReadBufferSize) [] st.etag w').2.2.2 }
            (rest.drop s.ReadBufferSize)
            ⟨by simpa [e_body] using hwb1, by simpa [e_body] using hpay⟩
            (by simpa [e_wb] using hwb) (by simpa [e_rb] using hl1)
            (by simpa using hsnd.1) (by simp)
            (by simp only [e_rlen, List.length_drop]; omega)
            (by simp only [writeOneDataBlock_late, hwlate])
            (by simp only [List.length_drop]; omega)
          refine ⟨res, hrun, hst, ?_, ?_⟩
          · intro e he
            rcases htr e he with h | h
            · simp only [hsnd.2.2.2.1, htrace, List.mem_append] at h
              rcases h with h | h
              · exact Or.inl h
              · right
                split at h
                · cases h
                · simp only [List.mem_singleton] at h
                  exact ⟨_, _, h⟩
            · exact Or.inr h
          · intro h0 _ hall
            apply hlast
            · show (writeOneDataBlock s (rest.take s.ReadBufferSize) [] st.etag w').2.2.2.fi = []
              rw [hsnd.2.2.2.2.2, hwnil h0]
              exact h0
            · intro pr hpr
              simp only [Option.some.injEq] at hpr
              subst hpr
              exact hfst.2.2.2 (fun _ => hall _ _ _)
            · exact hall
      · have h2 : err' ≠ none ∧
            st.rlen + min s.ReadBufferSize rest.length ≠ r.ContentLength := ⟨hnone, hne⟩
        rw [if_pos h2, if_neg hq]
        refine ⟨_, rfl, InvalidRequest_ne_OK, ?_, fun _ _ _ => ⟨rfl, rfl⟩⟩
        intro e he
        left
        simpa [htrace] using he

theorem putObjectData_short {σ : Type} (s : S3Server σ) (r : Request) (md : ObjectMD)
    (w : World σ) (b : List Byte) (hB : 0 < s.ReadBufferSize)
    (hdel : Delivers r.Body b) (hshort : b.length < r.ContentLength) (hlate : w.late = []) :
    ∃ res, putObjectData s r md w = some res ∧ res.status ≠ StatusOK ∧
      (∀ e ∈ res.w.trace, e ∈ w.trace ∨ ∃ buf d, e = Event.WriteDataBlock buf d) ∧
      ((r.ContentLength ≤ s.ReadBufferSize ∨ (w.fi = [] ∧
          ∀ st buf d, (s.s3io.WriteDataBlock st buf d).1.1 = StatusOK)) →
        res.status = InvalidRequest ∧ res.errmsg = "data less than ContentLength") := by
  unfold putObjectData
  by_cases hsmall : r.ContentLength ≤ s.ReadBufferSize
  · rw [if_pos hsmall]
    obtain ⟨buf1, body1, heq⟩ := readFullBuf_short r.Body b r.ContentLength hdel hshort
    unfold putSmallObjectData
    rw [heq]
    simp only []
    have h1 : ¬ (some ReadErr.EOF ≠ none ∧ some ReadErr.EOF ≠ some ReadErr.EOF) := by simp
    have h2 : (some ReadErr.EOF ≠ none ∧ b.length ≠ r.ContentLength) :=
      ⟨by simp, by omega⟩
    rw [if_neg h1, if_pos h2]
    exact ⟨_, rfl, InvalidRequest_ne_OK, fun e he => Or.inl he, fun _ => ⟨rfl, rfl⟩⟩
  · rw [if_neg hsmall]
    obtain ⟨res, hrun, hst, htr, hlast⟩ := putObjectDataFrom_short s r hB (bodyFuel r.Body)
      { readBuf := List.replicate s.ReadBufferSize 0,
        writeBuf := List.replicate s.ReadBufferSize 0,
        md5ck := [], etag := [], totalBlocks := 0, ddBlocks := 0, c := none,
        waitWrite := false, rlen := 0, md := md, body := r.Body, w := w }
      b hdel (by simp) (by simp) rfl (by simp) (by simpa using hshort) hlate
      (by rw [← hdel.2]; exact payload_length_lt_bodyFuel r.Body)
    refine ⟨res, hrun, hst, htr, ?_⟩
    intro h
    rcases h with h | ⟨h0, hall⟩
    · exact absurd h hsmall
    · exact hlast h0 (fun _ h => by cases h) hall

/-- C7 (amended). For every PUT whose body hands over fewer bytes than
`ContentLength` and then `io.EOF`, answering zero bytes without error at most
once, and in which no writer task gives up at its `select` (`w.late = []`),
`putObject` returns with a status other than 200 and never calls
`WriteObjectMD`: the only events it logs are `WriteDataBlock` calls. On the
small-object path, and on the streaming path when no fault is injected and
the block writes of the backend succeed, the status is 400 and the message
"data less than ContentLength". -/
theorem short_body_rejected {σ : Type} (s : S3Server σ) (r : Request) (resp : Response)
    (bkname objname : String) (w : World σ) (b : List Byte) (hB : 0 < s.ReadBufferSize)
    (hdel : Delivers r.Body b) (hshort : b.length < r.ContentLength) (hlate : w.late = []) :
    ∃ res, putObject s r resp bkname objname w = some res ∧
      res.resp.StatusCode ≠ StatusOK ∧
      (∀ e ∈ res.w.trace, e ∈ w.trace ∨ ∃ buf d, e = Event.WriteDataBlock buf d) ∧
      ((r.ContentLength ≤ s.ReadBufferSize ∨ (w.fi = [] ∧
          ∀ st buf d, (s.s3io.WriteDataBlock st buf d).1.1 = StatusOK)) →
        res.resp.StatusCode = InvalidRequest ∧
        res.resp.Status = "data less than ContentLength") := by
  obtain ⟨pres, hp, hst, htr, hlast⟩ := putObjectData_short s r
    { Smd := { Bucket := bkname, Name := objname, Mtime := w.now, Size := r.ContentLength,
               Etag := "" },
      Data := { BlockSize := s.ReadBufferSize, Blocks := [], DdBlocks := 0 } }
    w b hB hdel hshort hlate
  unfold putObject
  simp only [hp]
  rw [if_pos (by simpa using hst)]
  exact ⟨_, rfl, hst, htr, hlast⟩

set_option maxRecDepth 100000 in
theorem short_body_rejected_witness :
    ∃ res, putObject (memServer 4 [md9]) req3of9 newResponse "b1" "/k1"
        (World.init MemStore.empty) = some res ∧
      res.resp.StatusCode ≠ StatusOK ∧
      (∀ e ∈ res.w.trace, e ∈ (World.init MemStore.empty).trace ∨
        ∃ buf d, e = Event.WriteDataBlock buf d) ∧
      ((req3of9.ContentLength ≤ (memServer 4 [md9]).ReadBufferSize ∨
          ((World.init MemStore.empty).fi = [] ∧
            ∀ st buf d, ((memServer 4 [md9]).s3io.WriteDataBlock st buf d).1.1 = StatusOK)) →
        res.resp.StatusCode = InvalidRequest ∧
        res.resp.Status = "data less than ContentLength") :=
  short_body_rejected (memServer 4 [md9]) req3of9 newResponse "b1" "/k1"
    (World.init MemStore.empty) [1, 2, 3] (by decide) ⟨by decide, by decide⟩ (by decide) rfl

set_option maxRecDepth 100000 in
/-- When the writer of block 0 gives up at its `select`, the streaming loop
waits for it for ever: a PUT of nine bytes in blocks of four does not return
at the receive `<-c`, and a PUT whose body ends after five of nine bytes does
not return at the send `quit <- true`. With no writer giving up they return
200 and 400. -/
theorem late_writer_blocks :
    (putObject (memServer 4 [md9]) req9 newResponse "b1" "/k1"
      { World.init MemStore.empty with late := [0] }).isNone = true ∧
    (putObject (memServer 4 [md9]) req5of9 newResponse "b1" "/k1"
      { World.init MemStore.empty with late := [0] }).isNone = true ∧
    (putObject (memServer 4 [md9]) req9 newResponse "b1" "/k1"
      (World.init MemStore.empty)).map (fun res => res.resp.StatusCode) = some 200 ∧
    (putObject (memServer 4 [md9]) req5of9 newResponse "b1" "/k1"
      (World.init MemStore.empty)).map (fun res => res.resp.StatusCode) = some 400 := by
  decide

/-! ## A block write that fails ahead of a short read -/

theorem waitDataBlock_idle {σ : Type} (st : PutLoop σ) (h : st.waitWrite = false) :
    waitDataBlock st = some (Sum.inr st) := by
  simp [waitDataBlock, h]

theorem waitDataBlock_fail {σ : Type} (st : PutLoop σ) (pr : writeDataBlockResult)
    (h : st.waitWrite = true) (hc : st.c = some pr) (hst : pr.status ≠ StatusOK) :
    waitDataBlock st = some (Sum.inl ⟨pr.status, pr.errmsg, st.md, st.body, st.w⟩) := by
  simp [waitDataBlock, h, hc, hst]

theorem writeOneDataBlock_miss {σ : Type} (s : S3Server σ) (blk etag : List Byte) (w : World σ)
    (h : s.s3io.IsDataBlockExist w.store (md5Hex blk) = false) :
    (writeOneDataBlock s blk [] etag w).1.status
      = (s.s3io.WriteDataBlock w.store blk (md5Hex blk)).1.1 := by
  unfold writeOneDataBlock md5Hex at *
  simp [h]

/-- When the write of the first block fails and more than two blocks are to
come, the streaming path returns the status of that write in its second
round, before the end of the body is seen. -/
theorem putObjectDataFrom_first_write_fails {σ : Type} (s : S3Server σ) (r : Request)
    (hB : 0 < s.ReadBufferSize) (fuel : Nat) (st : PutLoop σ) (rest : List Byte)
    (hdel : Delivers st.body rest) (hrb : st.readBuf.length = s.ReadBufferSize)
    (hwb : st.writeBuf.length = s.ReadBufferSize) (hck : st.md5ck = [])
    (hww : st.waitWrite = false) (hfi : st.w.fi = []) (hlate : st.w.late = [])
    (hlong : 2 * s.ReadBufferSize < rest.length)
    (hr0 : st.rlen = 0) (hlen : rest.length ≤ r.ContentLength)
    (hmiss : s.s3io.IsDataBlockExist st.w.store (md5Hex (rest.take s.ReadBufferSize)) = false)
    (hfail : (s.s3io.WriteDataBlock st.w.store (rest.take s.ReadBufferSize)
      (md5Hex (rest.take s.ReadBufferSize))).1.1 ≠ StatusOK) :
    ∃ res, putObjectDataFrom s r (fuel + 2) st = some res ∧
      res.status = (s.s3io.WriteDataBlock st.w.store (rest.take s.ReadBufferSize)
        (md5Hex (rest.take s.ReadBufferSize))).1.1 := by
  -- first round: a full block is read and its writer is started
  rw [putObjectDataFrom_succ]
  have hlt : st.rlen < r.ContentLength := by omega
  rw [if_pos hlt]
  obtain ⟨err, buf1, body1, heq, hl1, htake, hwb1, hpay, herr1, heof, _⟩ :=
    readFullBuf_wellBehaved st.body st.readBuf hdel.1
  rw [hdel.2, hrb] at heq htake hpay heof
  rw [hrb] at hl1
  have hmin : min s.ReadBufferSize rest.length = s.ReadBufferSize := by omega
  rw [hmin] at heq htake
  have herr : err = none := by
    rcases herr1 with h | h
    · exact h
    · have := heof h
      omega
  subst herr
  rw [heq]
  simp only [RandomFI_nil st.w hfi, Bool.false_eq_true, false_and, if_false, ne_eq,
    not_true_eq_false]
  rw [waitDataBlock_idle
    { st with readBuf := buf1, body := body1, rlen := st.rlen + s.ReadBufferSize, w := st.w }
    hww]
  simp only [hck, htake, hlate, List.not_mem_nil, if_false]
  have hsnd := writeOneDataBlock_snd s (rest.take s.ReadBufferSize) st.etag st.w
  have hstat := writeOneDataBlock_miss s (rest.take s.ReadBufferSize) st.etag st.w hmiss
  -- second round: another full block is read, then the failed write is awaited
  rw [putObjectDataFrom_succ]
  simp only []
  have hlt2 : st.rlen + s.ReadBufferSize < r.ContentLength := by omega
  rw [if_pos hlt2]
  obtain ⟨err2, buf2, body2, heq2, _, _, _, _, herr2, heof2, _⟩ :=
    readFullBuf_wellBehaved body1 st.writeBuf hwb1
  rw [hpay, hwb] at heq2 heof2
  have hmin2 : min s.ReadBufferSize (rest.drop s.ReadBufferSize).length = s.ReadBufferSize := by
    rw [List.length_drop]
    omega
  rw [hmin2] at heq2
  have herr2' : err2 = none := by
    rcases herr2 with h | h
    · exact h
    · have := heof2 h
      rw [List.length_drop] at this
      omega
  subst herr2'
  rw [heq2]
  have hfi2 : (writeOneDataBlock s (rest.take s.ReadBufferSize) [] st.etag st.w).2.2.2.fi = [] := by
    rw [hsnd.2.2.2.2.2]
    exact hfi
  simp only [RandomFI_nil _ hfi2, Bool.false_eq_true, false_and, if_false, ne_eq,
    not_true_eq_false]
  rw [waitDataBlock_fail _ (writeOneDataBlock s (rest.take s.ReadBufferSize) [] st.etag st.w).1
    rfl rfl (by rw [hstat]; exact hfail)]
  exact ⟨_, rfl, hstat⟩

/-- A PUT on the streaming path whose first block write fails while more
than two blocks are to come is answered with the status of that write. -/
theorem putObject_first_write_fails {σ : Type} (s : S3Server σ) (r : Request) (resp : Response)
    (bkname objname : String) (w : World σ) (b : List Byte) (hB : 0 < s.ReadBufferSize)
    (hdel : Delivers r.Body b) (hfi : w.fi = []) (hlate : w.late = [])
    (hlong : 2 * s.ReadBufferSize < b.length) (hlen : b.length ≤ r.ContentLength)
    (hmiss : s.s3io.IsDataBlockExist w.store (md5Hex (b.take s.ReadBufferSize)) = false)
    (hfail : (s.s3io.WriteDataBlock w.store (b.take s.ReadBufferSize)
      (md5Hex (b.take s.ReadBufferSize))).1.1 ≠ StatusOK) :
    ∃ res, putObject s r resp bkname objname w = some res ∧
      res.resp.StatusCode = (s.s3io.WriteDataBlock w.store (b.take s.ReadBufferSize)
        (md5Hex (b.take s.ReadBufferSize))).1.1 := by
  have hbig : ¬ r.ContentLength ≤ s.ReadBufferSize := by omega
  obtain ⟨pres, hp, hst⟩ := putObjectDataFrom_first_write_fails s r hB
    ((r.Body.map fun c => c.data.length + 1).sum)
    { readBuf := List.replicate s.ReadBufferSize 0,
      writeBuf := List.replicate s.ReadBufferSize 0,
      md5ck := [], etag := [], totalBlocks := 0, ddBlocks := 0, c := none,
      waitWrite := false, rlen := 0,
      md := { Smd := { Bucket := bkname, Name := objname, Mtime := w.now,
                       Size := r.ContentLength, Etag := "" },
              Data := { BlockSize := s.ReadBufferSize, Blocks := [], DdBlocks := 0 } },
      body := r.Body, w := w }
    b hdel (by simp) (by simp) rfl rfl hfi hlate hlong rfl hlen hmiss hfail
  unfold putObject putObjectData bodyFuel
  simp only [if_neg hbig, hp]
  rw [if_pos (by rw [hst]; exact hfail)]
  exact ⟨_, rfl, hst⟩

theorem shortBytes_length : shortBytes.length = 2 * DataBlockSize + 1 := by
  simp [shortBytes]

theorem shortBytes_ne_nil : shortBytes ≠ [] := by
  intro e
  have := congrArg List.length e
  rw [shortBytes_length] at this
  simp at this

theorem shortBytes_short : shortBytes.length < reqShort.ContentLength := by
  rw [shortBytes_length]
  decide

theorem shortBytes_long : 2 * failServer.ReadBufferSize < shortBytes.length := by
  rw [shortBytes_length]
  exact Nat.lt_succ_self _

theorem failServer_miss :
    failServer.s3io.IsDataBlockExist (World.init MemStore.empty).store
      (md5Hex (shortBytes.take failServer.ReadBufferSize)) = false := rfl

theorem failServer_fail :
    (failServer.s3io.WriteDataBlock (World.init MemStore.empty).store
      (shortBytes.take failServer.ReadBufferSize)
      (md5Hex (shortBytes.take failServer.ReadBufferSize))).1.1 ≠ StatusOK := by decide

theorem failServer_status :
    (failServer.s3io.WriteDataBlock (World.init MemStore.empty).store
      (shortBytes.take failServer.ReadBufferSize)
      (md5Hex (shortBytes.take failServer.ReadBufferSize))).1.1 = 503 := rfl

/-- C7, as stated, fails: a PUT that announces `3 * 131072` bytes and whose
body reaches `io.EOF` after `2 * 131072 + 1`, on a backend whose block writes
answer 503, is answered 503 and not 400: the failed write of the first block
is reported in the second round of the loop, before the short read is seen. -/
theorem short_body_write_failure :
    Delivers reqShort.Body shortBytes ∧ shortBytes.length < reqShort.ContentLength ∧
    ∃ res, putObject failServer reqShort newResponse "b1" "/big" (World.init MemStore.empty)
        = some res ∧ res.resp.StatusCode = 503 := by
  refine ⟨delivers_single shortBytes shortBytes_ne_nil, shortBytes_short, ?_⟩
  obtain ⟨res, hrun, hst⟩ := putObject_first_write_fails failServer reqShort newResponse
    "b1" "/big" (World.init MemStore.empty) shortBytes DataBlockSize_pos
    (delivers_single shortBytes shortBytes_ne_nil) rfl rfl shortBytes_long
    (Nat.le_of_lt shortBytes_short) failServer_miss failServer_fail
  exact ⟨res, hrun, hst.trans failServer_status⟩

/-! ## Blocks in a content-addressed store -/

theorem lt_nBlocks_iff (B n k : Nat) (hB : 0 < B) : k < nBlocks B n ↔ k * B < n := by
  unfold nBlocks
  rw [Nat.lt_iff_add_one_le, Nat.le_div_iff_mul_le hB, Nat.add_mul]
  omega

theorem blockAt_length_eq (B : Nat) (b : List Byte) (k : Nat) :
    (blockAt B b k).length = min B (b.length - k * B) := by
  simp [blockAt, List.length_take, List.length_drop]

theorem blockAt_mem (B : Nat) (b : List Byte) (k : Nat) (hB : 0 < B) (hk : k * B < b.length) :
    blockAt B b k ∈ blocksOf B b := by
  unfold blocksOf
  exact List.mem_map.2 ⟨k, List.mem_range.2 ((lt_nBlocks_iff B b.length k hB).2 hk), rfl⟩

theorem content_storeAfterBlock {σ : Type} (s : S3Server σ)
    (content : σ → String → Option (List Byte)) (hc : ContentStore s.s3io content)
    (st : σ) (x : List Byte)
    (hw : s.s3io.IsDataBlockExist st (md5Hex x) = false →
      (s.s3io.WriteDataBlock st x (md5Hex x)).1.1 = StatusOK) (d : String) :
    content (storeAfterBlock s st x) d
      = if d = md5Hex x ∧ content st (md5Hex x) = none then some x else content st d := by
  unfold storeAfterBlock
  by_cases hex : s.s3io.IsDataBlockExist st (md5Hex x) = true
  · have hsome : content st (md5Hex x) ≠ none := by
      rw [hc.exist_iff] at hex
      intro e
      rw [e] at hex
      cases hex
    simp [hex, hsome]
  · have hex' : s.s3io.IsDataBlockExist st (md5Hex x) = false := by simpa using hex
    have hnone : content st (md5Hex x) = none := by
      rw [hc.exist_iff] at hex'
      cases h : content st (md5Hex x) with
      | none => rfl
      | some c => rw [h] at hex'; cases hex'
    simp only [hex', Bool.false_eq_true, if_false, hc.write_block st x _ (hw hex') d, hnone,
      and_true]

/-- After the writer task has handled the blocks with every write OK, the
store holds under the digest of each block that block itself, provided the
blocks it held under these digests before were these blocks and no two
different blocks among them share a digest. -/
theorem content_storeAfter {σ : Type} (s : S3Server σ)
    (content : σ → String → Option (List Byte)) (hc : ContentStore s.s3io content)
    (all : List (List Byte))
    (hinj : ∀ x ∈ all, ∀ y ∈ all, md5Hex x = md5Hex y → x = y) :
    ∀ (blocks : List (List Byte)) (st : σ), (∀ x ∈ blocks, x ∈ all) → allWritten s blocks st →
      (∀ x ∈ all, ∀ c, content st (md5Hex x) = some c → c = x) →
      (∀ x ∈ all, ∀ c, content (storeAfter s blocks st) (md5Hex x) = some c → c = x) ∧
      (∀ d, content st d ≠ none → content (storeAfter s blocks st) d ≠ none) ∧
      (∀ x ∈ blocks, content (storeAfter s blocks st) (md5Hex x) = some x) := by
  intro blocks
  induction blocks with
  | nil =>
    intro st _ _ hgood
    exact ⟨hgood, fun _ h => h, fun _ h => by cases h⟩
  | cons x0 rest ih =>
    intro st hsub hall hgood
    obtain ⟨h0, hrest⟩ := hall
    have hx0 : x0 ∈ all := hsub x0 (by simp)
    have hstep := content_storeAfterBlock s content hc st x0 h0
    have hgood1 : ∀ x ∈ all, ∀ c,
        content (storeAfterBlock s st x0) (md5Hex x) = some c → c = x := by
      intro x hx c hcx
      rw [hstep] at hcx
      split at hcx
      · rename_i h
        simp only [Option.some.injEq] at hcx
        rw [← hcx]
        exact hinj x0 hx0 x hx h.1.symm
      · exact hgood x hx c hcx
    have hmono1 : ∀ d, content st d ≠ none → content (storeAfterBlock s st x0) d ≠ none := by
      intro d hd
      rw [hstep]
      split
      · simp
      · exact hd
    have hpres1 : content (storeAfterBlock s st x0) (md5Hex x0) ≠ none := by
      rw [hstep]
      by_cases hn : content st (md5Hex x0) = none
      · simp [hn]
      · simp [hn]
    obtain ⟨i1, i2, i3⟩ := ih (storeAfterBlock s st x0) (fun x hx => hsub x (by simp [hx]))
      hrest hgood1
    refine ⟨i1, fun d hd => i2 d (hmono1 d hd), ?_⟩
    intro x hx
    rcases List.mem_cons.1 hx with rfl | hmem
    · have hne := i2 _ hpres1
      cases hcx : content (storeAfter s (x :: rest) st) (md5Hex x) with
      | none => exact absurd hcx hne
      | some c =>
        have := i1 x hx0 c hcx
        rw [this]
    · exact i3 x hmem

/-! ## Reading an object back -/

/-- `readFill` on a resident block of status OK with `blockOff ≤ n ≤ len(buf)`. -/
theorem readFill_resident {σ : Type} (d : objectDataIOReader) (idx blockOff : Nat)
    (p : List Byte) (w : World σ) (hst : d.currBlock.status = StatusOK)
    (hblk : blockOff ≤ d.currBlock.n) (hbuf : d.currBlock.n ≤ d.currBlock.buf.length) :
    readFill d idx blockOff p w = Except.ok
      { n := min p.length (d.currBlock.n - blockOff),
        err := if d.off + min p.length (d.currBlock.n - blockOff) = d.objmd.Smd.Size
                then some ReadErr.EOF else none,
        p := (d.currBlock.buf.drop blockOff).take (min p.length (d.currBlock.n - blockOff))
              ++ p.drop (min p.length (d.currBlock.n - blockOff)),
        d := { d with off := d.off + min p.length (d.currBlock.n - blockOff) },
        w := w } := by
  unfold readFill
  simp only [hst, ne_eq, not_true_eq_false, if_false]
  by_cases hle : blockOff + p.length ≤ d.currBlock.n
  · have hmin : min p.length (d.currBlock.n - blockOff) = p.length := by omega
    have hnot : ¬ blockOff + p.length > d.currBlock.buf.length := by omega
    simp only [hle, if_true, hnot, if_false, hmin]
    rw [goCopy_slice p _ _ _ (by omega) (by omega)]
    simp
  · have hmin : min p.length (d.currBlock.n - blockOff) = d.currBlock.n - blockOff := by omega
    have hnot : ¬ (blockOff > d.currBlock.n ∨ d.currBlock.n > d.currBlock.buf.length) := by
      omega
    simp only [hle, if_false, hnot, hmin]
    rw [goCopy_slice p _ _ _ hbuf (by omega)]

theorem readBlock_good {σ : Type} (s : S3Server σ)
    (content : σ → String → Option (List Byte)) (hc : ContentStore s.s3io content)
    (store : σ) (objmd : ObjectMD) (B : Nat) (b : List Byte) (k : Nat) (buf : List Byte)
    (hbs : objmd.Data.BlockSize = B) (hblocks : objmd.Data.Blocks = (blocksOf B b).map md5Hex)
    (hB : 0 < B) (hk : k * B < b.length) (hbuf : buf.length = B)
    (hstore : content store (md5Hex (blockAt B b k)) = some (blockAt B b k)) :
    GoodBlock B b (readBlock s store objmd k buf) k := by
  have hklt : k < nBlocks B b.length := (lt_nBlocks_iff B b.length k hB).2 hk
  have hlen : objmd.Data.Blocks.length = nBlocks B b.length := by
    rw [hblocks, List.length_map, blocksOf_length]
  have hget : objmd.Data.Blocks.getD k "" = md5Hex (blockAt B b k) := by
    rw [List.getD_eq_getElem?_getD, hblocks, List.getElem?_map, blocksOf_getElem? B b k hklt]
    rfl
  have hle : (blockAt B b k).length ≤ buf.length := by
    rw [hbuf, blockAt_length_eq]
    omega
  obtain ⟨r1, r2, r3, r4⟩ := hc.read_block store _ _ buf hstore hle
  unfold readBlock
  rw [if_neg (by omega), hget]
  rcases hread : s.s3io.ReadDataBlockRange store (md5Hex (blockAt B b k)) 0 buf with
    ⟨buf', n, status, errmsg⟩
  rw [hread] at r1 r2 r3 r4
  simp only [] at r1 r2 r3 r4 ⊢
  have hfull : ¬ (status = StatusOK ∧ n ≠ objmd.Data.BlockSize ∧
      k ≠ objmd.Data.Blocks.length - 1) := by
    intro h
    have hn := h.2.1
    have hk1 := h.2.2
    rw [hbs, r1] at hn
    rw [hlen] at hk1
    have hk2 : k + 1 < nBlocks B b.length := by omega
    exact hn (blockAt_length B b k hB hk2)
  rw [if_neg hfull]
  exact ⟨rfl, r2, r1, by rw [r1]; exact r3, by rw [r4, hbuf]⟩


theorem slice_eq (buf b : List Byte) (n o m kB B : Nat)
    (h1 : buf.take n = (b.drop kB).take B) (h2 : o + m ≤ n) (h3 : n ≤ B) :
    (buf.drop o).take m = (b.drop (kB + o)).take m := by
  have e1 : (buf.drop o).take m = ((buf.take n).drop o).take m := by
    rw [List.drop_take, List.take_take]
    congr 1
    omega
  have e2 : (b.drop (kB + o)).take m = (((b.drop kB).take B).drop o).take m := by
    rw [List.drop_take, List.take_take, List.drop_drop]
    congr 1
    omega
  rw [e1, e2, h1]

theorem readFill_at {σ : Type} (B : Nat) (b : List Byte)
    (d : objectDataIOReader) (k idx : Nat) (p : List Byte) (w : World σ)
    (hR : ReaderAt B b d k) (hoff : d.off < b.length) (hin : d.off < (k + 1) * B)
    (hp : 0 < p.length) :
    ∃ res, readFill d idx (d.off - k * B) p w = Except.ok res ∧ 0 < res.n ∧
      res.d.off = d.off + res.n ∧ res.d.off ≤ b.length ∧
      res.p.take res.n = (b.drop d.off).take res.n ∧
      res.err = (if res.d.off = b.length then some ReadErr.EOF else none) ∧
      res.w = w ∧ ReaderAt B b res.d k := by
  obtain ⟨hsize, hbs, hblocks, ⟨gidx, gst, gn, gtake, glen⟩, hkB, hlo, hhi, hnext⟩ := hR
  have hn : d.currBlock.n = min B (b.length - k * B) := by rw [gn, blockAt_length_eq]
  have e1 : (k + 1) * B = k * B + B := by ring
  have hblk : d.off - k * B < d.currBlock.n := by omega
  rw [readFill_resident d idx (d.off - k * B) p w gst (by omega) (by omega)]
  have hm1 : min p.length (d.currBlock.n - (d.off - k * B)) ≤ p.length := Nat.min_le_left _ _
  have hm2 : min p.length (d.currBlock.n - (d.off - k * B)) ≤ d.currBlock.n - (d.off - k * B) :=
    Nat.min_le_right _ _
  have hm3 : 0 < min p.length (d.currBlock.n - (d.off - k * B)) :=
    Nat.lt_min.2 ⟨hp, by omega⟩
  generalize min p.length (d.currBlock.n - (d.off - k * B)) = m at hm1 hm2 hm3 ⊢
  refine ⟨_, rfl, hm3, rfl, ?_, ?_, ?_, rfl, ?_⟩
  · show d.off + m ≤ b.length
    omega
  · show (List.take m (List.drop (d.off - k * B) d.currBlock.buf) ++ _).take m = _
    rw [List.take_left' (by rw [List.length_take, List.length_drop]; omega)]
    have hs := slice_eq d.currBlock.buf b d.currBlock.n (d.off - k * B) m (k * B) B gtake
      (by omega) (by omega)
    rw [hs]
    congr 2
    omega
  · show (if _ = d.objmd.Smd.Size then some ReadErr.EOF else none) = _
    rw [hsize]
  · exact ⟨hsize, hbs, hblocks, ⟨gidx, gst, gn, gtake, glen⟩, hkB,
      by show k * B ≤ d.off + m; omega,
      by show d.off + m ≤ k * B + d.currBlock.n; omega, hnext⟩

/-- One `Read` of a reader that stands in block `k` of the payload `b`, the
awaited block delivered and no fault injected: it hands back the next bytes of
`b`, at least one, and the reader stands in block `k` or `k + 1` afterwards. -/
theorem Read_step {σ : Type} (s : S3Server σ) (content : σ → String → Option (List Byte))
    (hc : ContentStore s.s3io content) (B : Nat) (b : List Byte) (hB : 0 < B)
    (d : objectDataIOReader) (k : Nat) (p : List Byte) (w : World σ)
    (hR : ReaderAt B b d k) (hoff : d.off < b.length) (hp : 0 < p.length) (hfi : w.fi = [])
    (hstore : ∀ j, j * B < b.length →
      content w.store (md5Hex (blockAt B b j)) = some (blockAt B b j)) :
    ∃ res k', Read s SelectEv.recv d p w = Except.ok res ∧ 0 < res.n ∧
      res.d.off = d.off + res.n ∧ res.d.off ≤ b.length ∧
      res.p.take res.n = (b.drop d.off).take res.n ∧
      res.err = (if res.d.off = b.length then some ReadErr.EOF else none) ∧
      res.w = w ∧ ReaderAt B b res.d k' := by
  have hR0 := hR
  obtain ⟨hsize, hbs, hblocks, ⟨gidx, gst, gn, gtake, glen⟩, hkB, hlo, hhi, hnext⟩ := hR
  have hn : d.currBlock.n = min B (b.length - k * B) := by rw [gn, blockAt_length_eq]
  have e1 : (k + 1) * B = k * B + B := by ring
  have e2 : (k + 1 + 1) * B = k * B + B + B := by ring
  have hmodeq : ∀ j, d.off / B = j → d.off % B = d.off - j * B := by
    intro j hj
    have h1 := Nat.div_add_mod d.off B
    rw [hj, Nat.mul_comm] at h1
    omega
  by_cases hin : d.off < (k + 1) * B
  · have hidx : d.off / B = k := Nat.div_eq_of_lt_le hlo hin
    have hmod := hmodeq k hidx
    have hRead : Read s SelectEv.recv d p w = readFill d k (d.off - k * B) p w := by
      unfold Read
      rw [if_neg (by omega), if_neg (by omega)]
      simp only [hbs, hidx, hmod, gidx, lt_irrefl, gt_iff_lt, if_false]
    obtain ⟨res, h1, h2⟩ := readFill_at B b d k k p w hR0 hoff hin hp
    exact ⟨res, k, by rw [hRead]; exact h1, h2⟩
  · have hoffeq : d.off = (k + 1) * B := by omega
    have hnB : d.currBlock.n = B := by omega
    have hk1 : (k + 1) * B < b.length := by omega
    obtain ⟨hwait, pr, hcpr, hgood⟩ := hnext hk1
    have hgood0 := hgood
    obtain ⟨qidx, qst, qn, qtake, qlen⟩ := hgood
    have hqn : pr.n = min B (b.length - (k + 1) * B) := by rw [qn, blockAt_length_eq]
    have hidx : d.off / B = k + 1 :=
      Nat.div_eq_of_lt_le (by omega) (by show d.off < (k + 1 + 1) * B; omega)
    have hmod := hmodeq (k + 1) hidx
    by_cases hmore : d.off + pr.n < b.length
    · have hk2 : (k + 1 + 1) * B < b.length := by omega
      have hnew := readBlock_good s content hc w.store d.objmd B b (k + 1 + 1)
        d.currBlock.buf hbs hblocks hB hk2 glen (hstore _ hk2)
      have hR1 : ReaderAt B b
          { d with waitBlock := true, currBlock := pr,
                   c := some (readBlock s w.store d.objmd (k + 1 + 1) d.currBlock.buf) }
          (k + 1) :=
        ⟨hsize, hbs, hblocks, hgood0, hk1, by show (k + 1) * B ≤ d.off; omega,
          by show d.off ≤ (k + 1) * B + pr.n; omega, fun _ => ⟨rfl, _, rfl, hnew⟩⟩
      have hRead : Read s SelectEv.recv d p w = readFill
          { d with waitBlock := true, currBlock := pr,
                   c := some (readBlock s w.store d.objmd (k + 1 + 1) d.currBlock.buf) }
          (k + 1) (d.off - (k + 1) * B) p w := by
        unfold Read prefetchBlock
        rw [if_neg (by omega), if_neg (by omega)]
        simp only [hbs, hidx, hmod, gidx, RandomFI_nil w hfi, hwait, hcpr, qst, qidx, hsize,
          hmore, and_self, if_true, if_false, Bool.not_true, Bool.false_eq_true]
        rw [if_neg (by omega), if_pos (by omega)]
      obtain ⟨res, h1, h2⟩ := readFill_at B b _ (k + 1) (k + 1) p w hR1 hoff
        (by show d.off < (k + 1 + 1) * B; omega) hp
      exact ⟨res, k + 1, by rw [hRead]; exact h1, h2⟩
    · have hR1 : ReaderAt B b { d with waitBlock := false, currBlock := pr, c := none }
          (k + 1) :=
        ⟨hsize, hbs, hblocks, hgood0, hk1, by show (k + 1) * B ≤ d.off; omega,
          by show d.off ≤ (k + 1) * B + pr.n; omega,
          fun h => absurd (show d.off + pr.n < b.length by omega) hmore⟩
      have hRead : Read s SelectEv.recv d p w = readFill
          { d with waitBlock := false, currBlock := pr, c := none }
          (k + 1) (d.off - (k + 1) * B) p w := by
        unfold Read
        rw [if_neg (by omega), if_neg (by omega)]
        simp only [hbs, hidx, hmod, gidx, RandomFI_nil w hfi, hwait, hcpr, qst, hsize,
          hmore, and_false, if_false, Bool.not_true, Bool.false_eq_true]
        rw [if_neg (by omega), if_pos (by omega)]
      obtain ⟨res, h1, h2⟩ := readFill_at B b _ (k + 1) (k + 1) p w hR1 hoff
        (by show d.off < (k + 1 + 1) * B; omega) hp
      exact ⟨res, k + 1, by rw [hRead]; exact h1, h2⟩


/-- A client that reads a reader standing in the payload `b` to the end, with
non-empty buffers, collects the rest of `b` and then sees `io.EOF`. -/
theorem readAll_drains {σ : Type} (s : S3Server σ) (content : σ → String → Option (List Byte))
    (hc : ContentStore s.s3io content) (B : Nat) (b : List Byte) (hB : 0 < B)
    (bufLen : Nat → Nat) (hbuf : ∀ i, 0 < bufLen i) (w : World σ) (hfi : w.fi = [])
    (hstore : ∀ j, j * B < b.length →
      content w.store (md5Hex (blockAt B b j)) = some (blockAt B b j)) :
    ∀ (fuel i : Nat) (d : objectDataIOReader) (k : Nat) (acc : List Byte),
      ReaderAt B b d k → d.off < b.length → b.length - d.off ≤ fuel →
      ∃ d', readAll s bufLen fuel i d w acc
        = some (Except.ok (acc ++ b.drop d.off, ReadErr.EOF, d', w)) := by
  intro fuel
  induction fuel with
  | zero =>
    intro i d k acc _ hoff hfuel
    omega
  | succ fuel ih =>
    intro i d k acc hR hoff hfuel
    obtain ⟨res, k', hread, hpos, hoff', hle, htake, herr, hw, hR'⟩ :=
      Read_step s content hc B b hB d k (List.replicate (bufLen i) 0) w hR hoff
        (by rw [List.length_replicate]; exact hbuf i) hfi hstore
    simp only [readAll, hread]
    by_cases hend : res.d.off = b.length
    · rw [herr, if_pos hend]
      refine ⟨res.d, ?_⟩
      simp only [hw, htake]
      rw [List.take_of_length_le (by rw [List.length_drop]; omega)]
    · rw [herr, if_neg hend]
      simp only [hw]
      obtain ⟨d', hd'⟩ := ih (i + 1) res.d k' (acc ++ List.take res.n res.p) hR'
        (by omega) (by omega)
      refine ⟨d', ?_⟩
      rw [hd', htake, hoff', List.append_assoc, ← List.drop_drop, List.take_append_drop]

theorem getObjectOp_stored {σ : Type} (s : S3Server σ)
    (content : σ → String → Option (List Byte)) (hc : ContentStore s.s3io content)
    (B : Nat) (b : List Byte) (hB : 0 < B) (md : ObjectMD) (resp : Response)
    (bkname objname : String) (w : World σ)
    (hmd : getObjectMD s w.store bkname objname = (some md, StatusOK, StatusOKStr))
    (hsize : md.Smd.Size = b.length) (hbs : md.Data.BlockSize = B)
    (hblocks : b ≠ [] → md.Data.Blocks = (blocksOf B b).map md5Hex)
    (hbody : resp.Body = none) (hfi : w.fi = [])
    (hstore : ∀ j, j * B < b.length →
      content w.store (md5Hex (blockAt B b j)) = some (blockAt B b j)) :
    ∃ resp2, getObjectOp s resp bkname objname w = Except.ok (resp2, w) ∧
      resp2.StatusCode = StatusOK ∧ resp2.ContentLength = b.length ∧
      (b = [] → resp2.Body = none) ∧
      (b ≠ [] → ∃ rd, resp2.Body = some rd ∧ rd.off = 0 ∧ ReaderAt B b rd 0) := by
  unfold getObjectOp
  rw [hmd]
  simp only [ne_eq, not_true_eq_false, if_false]
  by_cases he : b = []
  · have h0 : md.Smd.Size = 0 := by rw [hsize, he]; rfl
    rw [if_pos h0]
    exact ⟨_, rfl, rfl, by show md.Smd.Size = _; exact hsize, fun _ => hbody,
      fun h => absurd he h⟩
  · have hlen : 0 < b.length := List.length_pos.2 he
    have h0 : ¬ md.Smd.Size = 0 := by omega
    rw [if_neg h0]
    have hg := readBlock_good s content hc w.store md B b 0 (List.replicate md.Data.BlockSize 0)
      hbs (hblocks he) hB (by omega) (by rw [List.length_replicate, hbs]) (hstore 0 (by omega))
    rw [if_neg (by rw [hg.2.1]; exact fun h => h rfl)]
    by_cases hbig : md.Smd.Size > md.Data.BlockSize
    · rw [if_pos hbig]
      unfold prefetchBlock
      simp only [RandomFI_nil w hfi, Bool.false_eq_true, if_false]
      have hg1 := readBlock_good s content hc w.store md B b (0 + 1)
        (List.replicate md.Data.BlockSize 0) hbs (hblocks he) hB (by omega)
        (by rw [List.length_replicate, hbs]) (hstore (0 + 1) (by omega))
      refine ⟨_, rfl, rfl, by show md.Smd.Size = _; exact hsize, fun h => absurd h he,
        fun _ => ⟨_, rfl, rfl, hsize, hbs, hblocks he, hg, by omega, by show 0 * B ≤ 0; omega,
          by show 0 ≤ _; omega, fun _ => ⟨rfl, _, rfl, hg1⟩⟩⟩
    · rw [if_neg hbig]
      refine ⟨_, rfl, rfl, by show md.Smd.Size = _; exact hsize, fun h => absurd h he,
        fun _ => ⟨_, rfl, rfl, hsize, hbs, hblocks he, hg, by omega, by show 0 * B ≤ 0; omega,
          by show 0 ≤ _; omega, fun h => absurd h (by omega)⟩⟩


theorem getObjectMD_stored {σ : Type} (s : S3Server σ)
    (content : σ → String → Option (List Byte)) (hc : ContentStore s.s3io content)
    (hcodec : ∀ md bytes, s.Marshal md = some bytes → s.Unmarshal bytes = some md)
    (st : σ) (bkname objname : String) (md : ObjectMD) (mdbyte : List Byte)
    (hmar : s.Marshal md = some mdbyte)
    (hw : (s.s3io.WriteObjectMD st bkname objname mdbyte).1.1 = StatusOK) :
    getObjectMD s (s.s3io.WriteObjectMD st bkname objname mdbyte).2 bkname objname
      = (some md, StatusOK, StatusOKStr) := by
  obtain ⟨r1, r2⟩ := hc.read_md st bkname objname mdbyte hw
  unfold getObjectMD
  rcases hread : s.s3io.ReadObjectMD (s.s3io.WriteObjectMD st bkname objname mdbyte).2
    bkname objname with ⟨bytes, status, errmsg⟩
  rw [hread] at r1 r2
  simp only [] at r1 r2 ⊢
  subst r1 r2
  simp only [ne_eq, not_true_eq_false, if_false, hcodec md bytes hmar]

/-- The reference backend is a content store. -/
theorem memBackend_contentStore : ContentStore memBackend (fun st d => st.blocks.lookup d) where
  exist_iff := fun _ _ => rfl
  write_block := by
    intro st buf d _ d'
    show List.lookup d' ((d, buf) :: st.blocks) = _
    by_cases h : d' = d
    · subst h
      simp [List.lookup]
    · have hb : (d' == d) = false := by simpa using h
      simp [List.lookup, hb, h]
  write_md := fun _ _ _ _ _ => rfl
  read_block := by
    intro st d c buf hc hle
    have hc' : st.blocks.lookup d = some c := hc
    have ht : (c.drop 0).take buf.length = c := by
      rw [List.drop_zero, List.take_of_length_le hle]
    have hval : memBackend.ReadDataBlockRange st d 0 buf
        = (c ++ buf.drop c.length, c.length, StatusOK, StatusOKStr) := by
      show (match st.blocks.lookup d with
        | none => (buf, 0, NoSuchKey, "NoSuchKey")
        | some c =>
          ((c.drop 0).take buf.length ++ buf.drop ((c.drop 0).take buf.length).length,
            ((c.drop 0).take buf.length).length, StatusOK, StatusOKStr)) = _
      rw [hc']
      simp only [ht]
    rw [hval]
    refine ⟨rfl, rfl, List.take_left' rfl, ?_⟩
    show (c ++ List.drop c.length buf).length = buf.length
    rw [List.length_append, List.length_drop]
    omega
  read_md := by
    intro st bk nm mdbyte _
    show ((match List.lookup (bk, nm) (((bk, nm), mdbyte) :: st.mds) with
      | none => (([] : List Byte), NoSuchKey, "NoSuchKey")
      | some b => (b, StatusOK, StatusOKStr)) : List Byte × Nat × String).1 = mdbyte ∧
      ((match List.lookup (bk, nm) (((bk, nm), mdbyte) :: st.mds) with
      | none => (([] : List Byte), NoSuchKey, "NoSuchKey")
      | some b => (b, StatusOK, StatusOKStr)) : List Byte × Nat × String).2.1 = StatusOK
    simp [List.lookup]

/-- The codec of the reference server decodes what it encodes. -/
theorem memServer_codec (B : Nat) (known : List ObjectMD) (md : ObjectMD) (bytes : List Byte)
    (h : (memServer B known).Marshal md = some bytes) :
    (memServer B known).Unmarshal bytes = some md := by
  simp only [memServer] at h ⊢
  by_cases hlt : known.indexOf md < known.length
  · rw [if_pos hlt] at h
    simp only [Option.some.injEq] at h
    subst h
    show known[known.indexOf md]? = some md
    rw [List.getElem?_eq_getElem hlt]
    simp
  · rw [if_neg hlt] at h
    cases h


/-! ## Round trip -/

/-- Round trip on well-behaved bodies. The body is well behaved (it answers
zero bytes without error at most once) and hands over exactly `b`, with
`ContentLength = len(b)`; the backend is a content store (a block written under a digest is returned in
full from `ReadDataBlockRange`, the metadata written is the metadata read) and
the codec decodes what it encodes; among the blocks of `b`, and between them
and what the store already holds under their digests, distinct contents have
distinct digests. Then after a successful `putObject`, in any world with the
store the PUT left and no fault injected, `getObjectOp` answers 200 with
`ContentLength = len(b)`; for empty `b` it leaves the response without body;
otherwise its body reader, read with non-empty buffers until an error, every
awaited prefetch being delivered, yields exactly `b` and then `io.EOF`. -/
theorem round_trip {σ : Type} (s : S3Server σ) (content : σ → String → Option (List Byte))
    (hc : ContentStore s.s3io content)
    (hcodec : ∀ md bytes, s.Marshal md = some bytes → s.Unmarshal bytes = some md)
    (hB : 0 < s.ReadBufferSize) (b : List Byte)
    (r : Request) (resp : Response) (bkname objname : String) (w : World σ)
    (res : PutObjectResult σ)
    (hdel : Delivers r.Body b) (hCL : r.ContentLength = b.length)
    (hprior : ∀ x ∈ putBlocks s.ReadBufferSize b, ∀ c,
      content w.store (md5Hex x) = some c → c = x)
    (hinj : ∀ x ∈ putBlocks s.ReadBufferSize b, ∀ y ∈ putBlocks s.ReadBufferSize b,
      md5Hex x = md5Hex y → x = y)
    (hrun : putObject s r resp bkname objname w = some res)
    (hok : res.resp.StatusCode = StatusOK)
    (resp' : Response) (hbody : resp'.Body = none)
    (w2 : World σ) (hw2 : w2.store = res.w.store) (hfi : w2.fi = [])
    (bufLen : Nat → Nat) (hbuf : ∀ i, 0 < bufLen i) :
    ∃ resp2, getObjectOp s resp' bkname objname w2 = Except.ok (resp2, w2) ∧
      resp2.StatusCode = StatusOK ∧ resp2.ContentLength = b.length ∧
      (b = [] → resp2.Body = none) ∧
      (b ≠ [] → ∃ rd, resp2.Body = some rd ∧
        ∀ fuel, b.length ≤ fuel →
          ∃ rd', readAll s bufLen fuel 0 rd w2 []
            = some (Except.ok (b, ReadErr.EOF, rd', w2))) := by
  obtain ⟨hmdEq, hall, mdbyte, hmar, hwst, hstoreEq, _, _, _⟩ :=
    putObject_success s r resp bkname objname w b res hB hdel hCL hrun hok
  obtain ⟨_, _, hheld⟩ := content_storeAfter s content hc (putBlocks s.ReadBufferSize b) hinj
    (putBlocks s.ReadBufferSize b) w.store (fun _ h => h) hall hprior
  have hpb : b ≠ [] → putBlocks s.ReadBufferSize b = blocksOf s.ReadBufferSize b := by
    intro he
    simp [putBlocks, he]
  have hstore : ∀ j, j * s.ReadBufferSize < b.length →
      content w2.store (md5Hex (blockAt s.ReadBufferSize b j))
        = some (blockAt s.ReadBufferSize b j) := by
    intro j hj
    have he : b ≠ [] := by
      intro e
      rw [e] at hj
      simp at hj
    rw [hw2, hstoreEq, hc.write_md]
    apply hheld
    rw [hpb he]
    exact blockAt_mem _ b j hB hj
  have hget : getObjectMD s w2.store bkname objname = (some res.md, StatusOK, StatusOKStr) := by
    rw [hw2, hstoreEq]
    exact getObjectMD_stored s content hc hcodec _ bkname objname res.md mdbyte hmar hwst
  obtain ⟨resp2, h1, h2, h3, h4, h5⟩ := getObjectOp_stored s content hc s.ReadBufferSize b hB
    res.md resp' bkname objname w2 hget (by rw [hmdEq]) (by rw [hmdEq])
    (fun he => by rw [hmdEq, hpb he]) hbody hfi hstore
  refine ⟨resp2, h1, h2, h3, h4, fun he => ?_⟩
  obtain ⟨rd, hrd, hoff, hR⟩ := h5 he
  refine ⟨rd, hrd, fun fuel hfuel => ?_⟩
  have hlen : 0 < b.length := List.length_pos.2 he
  obtain ⟨rd', hrun'⟩ := readAll_drains s content hc s.ReadBufferSize b hB bufLen hbuf w2 hfi
    hstore fuel 0 rd 0 [] hR (by omega) (by omega)
  refine ⟨rd', ?_⟩
  rw [hrun', hoff]
  simp

set_option maxRecDepth 100000 in
theorem round_trip_witness :
    ∃ resp2, getObjectOp (memServer 4 [md9]) newResponse "b1" "/k1"
        ((putObject (memServer 4 [md9]) req9 newResponse "b1" "/k1"
          (World.init MemStore.empty)).get (by decide)).w
        = Except.ok (resp2, ((putObject (memServer 4 [md9]) req9 newResponse "b1" "/k1"
          (World.init MemStore.empty)).get (by decide)).w) ∧
      resp2.StatusCode = StatusOK ∧ resp2.ContentLength = bytes9.length ∧
      (bytes9 = [] → resp2.Body = none) ∧
      (bytes9 ≠ [] → ∃ rd, resp2.Body = some rd ∧
        ∀ fuel, bytes9.length ≤ fuel →
          ∃ rd', readAll (memServer 4 [md9]) (fun _ => 2) fuel 0 rd
              ((putObject (memServer 4 [md9]) req9 newResponse "b1" "/k1"
                (World.init MemStore.empty)).get (by decide)).w []
            = some (Except.ok (bytes9, ReadErr.EOF, rd',
                ((putObject (memServer 4 [md9]) req9 newResponse "b1" "/k1"
                  (World.init MemStore.empty)).get (by decide)).w))) :=
  round_trip (memServer 4 [md9]) (fun st d => st.blocks.lookup d) memBackend_contentStore
    (memServer_codec 4 [md9]) (by decide) bytes9 req9 newResponse "b1" "/k1"
    (World.init MemStore.empty)
    ((putObject (memServer 4 [md9]) req9 newResponse "b1" "/k1"
        (World.init MemStore.empty)).get (by decide))
    ⟨by decide, by decide⟩ (by decide)
    (fun _ _ _ h => by cases h)
    (List.inj_on_of_nodup_map (by decide))
    (Option.some_get _).symm (by decide)
    newResponse rfl _ rfl (by decide) (fun _ => 2) (fun _ => Nat.zero_lt_two)


/-! ## Response headers -/

/-- C11. To `GET /` on a path-style host, whose bucket name decodes to empty,
`ServeHTTP` returns a response with `Server: CloudZzzz` and without a `Date`
header, whatever the server and the world. -/
theorem no_bucket_response_lacks_date {σ : Type} (s : S3Server σ) (w : World σ) :
    ∃ res, ServeHTTP s reqNoBucket w = Run.ret res ∧
      res.resp.StatusCode = InvalidRequest ∧
      headerGet res.resp.Header Server = some ServerName ∧
      headerGet res.resp.Header Date = none := by
  have e : getBucketAndObjectName reqNoBucket = ("", "/") := by decide
  have h1 : noBucketResponse.StatusCode = InvalidRequest := by decide
  have h2 : headerGet noBucketResponse.Header Server = some ServerName := by decide
  have h3 : headerGet noBucketResponse.Header Date = none := by decide
  refine ⟨⟨noBucketResponse, reqNoBucket.Body, w⟩, ?_, h1, h2, h3⟩
  simp [ServeHTTP, e, noBucketResponse, InvalidRequest]

set_option maxRecDepth 100000 in
/-- C12. After `PUT /b1/k1` of nine bytes on the reference server, a HEAD on
the object carries `ETag`, `Last-Modified` and `Content-Length: 9`, and a
GET answers 200 with `Content-Length: 9` and a body, without `ETag` and
without `Last-Modified`. -/
theorem get_object_lacks_etag :
    (headObject (memServer 4 [md9]) newResponse "b1" "/k1"
        ((putObject (memServer 4 [md9]) req9 newResponse "b1" "/k1"
          (World.init MemStore.empty)).get (by decide)).w).StatusCode = StatusOK ∧
    headerGet (headObject (memServer 4 [md9]) newResponse "b1" "/k1"
        ((putObject (memServer 4 [md9]) req9 newResponse "b1" "/k1"
          (World.init MemStore.empty)).get (by decide)).w).Header ETag = some md9.Smd.Etag ∧
    headerGet (headObject (memServer 4 [md9]) newResponse "b1" "/k1"
        ((putObject (memServer 4 [md9]) req9 newResponse "b1" "/k1"
          (World.init MemStore.empty)).get (by decide)).w).Header LastModified = some "0" ∧
    ((getObjectOp (memServer 4 [md9]) newResponse "b1" "/k1"
        ((putObject (memServer 4 [md9]) req9 newResponse "b1" "/k1"
          (World.init MemStore.empty)).get (by decide)).w).toOption.map fun x =>
      (x.1.StatusCode, x.1.ContentLength, x.1.Body.isSome, headerGet x.1.Header ETag,
        headerGet x.1.Header LastModified)) = some (StatusOK, 9, true, none, none) := by
  decide

/-- C13. When the body answers zero bytes without error twice, `readFullBuf`
on a buffer of four bytes returns `n = 0` with a nil error, the buffer not
filled. -/
theorem readFullBuf_second_zero_read (rest : Body) :
    readFullBuf (bodyTwoZero rest) [0, 0, 0, 0] = some (0, none, [0, 0, 0, 0], rest) := by
  simp [readFullBuf, readFullBufLoop, bodyTwoZero, bodyRead, copyAt]


/-! ## The reader invariant -/

theorem getObjectMD_some {σ : Type} (s : S3Server σ) (st : σ) (bkname objname : String)
    (md : ObjectMD) (h : (getObjectMD s st bkname objname).1 = some md) :
    getObjectMD s st bkname objname = (some md, StatusOK, StatusOKStr) := by
  unfold getObjectMD at h ⊢
  rcases hread : s.s3io.ReadObjectMD st bkname objname with ⟨b, status, errmsg⟩
  rw [hread] at h
  simp only [] at h ⊢
  by_cases hst : status ≠ StatusOK
  · rw [if_pos hst] at h
    cases h
  · rw [if_neg hst] at h ⊢
    cases hu : s.Unmarshal b with
    | none => rw [hu] at h; cases h
    | some objmd =>
      rw [hu] at h
      simp only [Option.some.injEq] at h
      rw [h]

theorem last_block_bounds (B n k : Nat) (hB : 0 < B) (hk : k < nBlocks B n) :
    k * B < n ∧ (k + 1 = nBlocks B n → n ≤ (k + 1) * B) ∧
      (k + 1 ≠ nBlocks B n → (k + 1) * B < n) := by
  refine ⟨(lt_nBlocks_iff B n k hB).1 hk, fun h => ?_, fun h => ?_⟩
  · by_contra hc
    have := (lt_nBlocks_iff B n (k + 1) hB).2 (by omega)
    omega
  · exact (lt_nBlocks_iff B n (k + 1) hB).1 (by omega)

theorem readBlock_sized {σ : Type} (s : S3Server σ) (st : σ) (md : ObjectMD)
    (hB : 0 < md.Data.BlockSize)
    (hlen : md.Data.Blocks.length = nBlocks md.Data.BlockSize md.Smd.Size)
    (hback : ReadsSized s st md) (k : Nat) (buf : List Byte)
    (hk : k * md.Data.BlockSize < md.Smd.Size) (hbuf : buf.length = md.Data.BlockSize) :
    SizedBlock md (readBlock s st md k buf) k := by
  have hklt : k < md.Data.Blocks.length := by
    rw [hlen]
    exact (lt_nBlocks_iff _ _ k hB).2 hk
  obtain ⟨b1, b2, b3⟩ := last_block_bounds md.Data.BlockSize md.Smd.Size k hB (hlen ▸ hklt)
  obtain ⟨r1, r2, r3⟩ := hback k buf hklt hbuf
  have e1 : (k + 1) * md.Data.BlockSize = k * md.Data.BlockSize + md.Data.BlockSize := by ring
  unfold readBlock
  rw [if_neg (by omega)]
  rcases hread : s.s3io.ReadDataBlockRange st (md.Data.Blocks.getD k "") 0 buf with
    ⟨buf', n, status, errmsg⟩
  rw [hread] at r1 r2 r3
  simp only [] at r1 r2 r3 ⊢
  have hn : n = min md.Data.BlockSize (md.Smd.Size - k * md.Data.BlockSize) := by
    rw [r2]
    by_cases hl : k + 1 = md.Data.Blocks.length
    · rw [if_pos hl]
      have := b2 (hlen ▸ hl)
      have hk' : md.Data.Blocks.length - 1 = k := by omega
      rw [hk']
      omega
    · rw [if_neg hl]
      have := b3 (by rw [← hlen]; exact hl)
      omega
  have hfull : ¬ (status = StatusOK ∧ n ≠ md.Data.BlockSize ∧
      k ≠ md.Data.Blocks.length - 1) := by
    intro h
    have h2 := h.2.1
    have h3 := h.2.2
    have := b3 (by rw [← hlen]; omega)
    omega
  rw [if_neg hfull]
  exact ⟨rfl, r1, hn, by rw [r3, hbuf]⟩


theorem RandomFI_fi {σ : Type} (s : S3Server σ) (w : World σ)
    (hfi : s.FIEnabled = false → w.fi = []) :
    s.FIEnabled = false → (RandomFI w).2.fi = [] := by
  intro h
  rw [RandomFI_nil w (hfi h)]
  exact hfi h

/-- The fault-injection step `if RandomFI() then closeChan()` does not panic
on a reader whose `closed` channel is closed only through `closeChan`, when
faults are injected only with fault injection enabled. -/
theorem closeChan_fi {σ : Type} (s : S3Server σ) (d : objectDataIOReader) (w : World σ)
    (hcl : d.closed = true → d.closeCalled = true) (hfi : s.FIEnabled = false → w.fi = []) :
    ∃ d1, (if (RandomFI w).1 = true then closeChan s d else Except.ok d) = Except.ok d1 ∧
      (d1 = d ∨ d1 = { d with closed := true, closeCalled := true }) := by
  by_cases hr : (RandomFI w).1 = true
  · rw [if_pos hr]
    have hen : s.FIEnabled = true := by
      by_contra hne
      have hf : s.FIEnabled = false := by simpa using hne
      rw [RandomFI_nil w (hfi hf)] at hr
      cases hr
    unfold closeChan
    by_cases hcc : d.closeCalled = true
    · exact ⟨d, by simp [hen, hcc], Or.inl rfl⟩
    · have hncl : ¬ d.closed = true := fun h => hcc (hcl h)
      exact ⟨_, by simp [hen, hcc, hncl], Or.inr rfl⟩
  · rw [if_neg hr]
    exact ⟨d, rfl, Or.inl rfl⟩

theorem prefetchBlock_ok {σ : Type} (s : S3Server σ) (d : objectDataIOReader) (blk : Nat)
    (b : List Byte) (w : World σ)
    (hcl : d.closed = true → d.closeCalled = true) (hfi : s.FIEnabled = false → w.fi = []) :
    ∃ d1, prefetchBlock s d blk b w
        = Except.ok ({ d1 with c := some (readBlock s w.store d.objmd blk b) }, (RandomFI w).2) ∧
      (d1 = d ∨ d1 = { d with closed := true, closeCalled := true }) := by
  obtain ⟨d1, h1, h2⟩ := closeChan_fi s d w hcl hfi
  refine ⟨d1, ?_, h2⟩
  unfold prefetchBlock
  simp only [h1]

/-- The reader `getObjectOp` puts in the response satisfies the invariant. -/
theorem getObjectOp_inv {σ : Type} (s : S3Server σ) (resp : Response)
    (bkname objname : String) (w0 : World σ) (md : ObjectMD) (hbody : resp.Body = none)
    (hmd : (getObjectMD s w0.store bkname objname).1 = some md)
    (hB : 0 < md.Data.BlockSize)
    (hlen : md.Data.Blocks.length = nBlocks md.Data.BlockSize md.Smd.Size)
    (hback : ReadsSized s w0.store md) (hfi : s.FIEnabled = false → w0.fi = [])
    (resp1 : Response) (w1 : World σ) (rd : objectDataIOReader)
    (hrun : getObjectOp s resp bkname objname w0 = Except.ok (resp1, w1))
    (hrd : resp1.Body = some rd) :
    ReaderInv s md w0.store rd w1 ∧ rd.off = 0 := by
  have hget := getObjectMD_some s w0.store bkname objname md hmd
  unfold getObjectOp at hrun
  rw [hget] at hrun
  simp only [ne_eq, not_true_eq_false, if_false] at hrun
  by_cases h0 : md.Smd.Size = 0
  · rw [if_pos h0] at hrun
    simp only [Except.ok.injEq, Prod.mk.injEq] at hrun
    rw [← hrun.1] at hrd
    rw [hbody] at hrd
    cases hrd
  · rw [if_neg h0] at hrun
    have hg := readBlock_sized s w0.store md hB hlen hback 0
      (List.replicate md.Data.BlockSize 0) (by omega) (by rw [List.length_replicate])
    have hg0 := hg
    obtain ⟨g1, g2, g3, g4⟩ := hg
    rw [if_neg (by rw [g2]; exact fun h => h rfl)] at hrun
    have i5 : SizedBlock md (readBlock s w0.store md 0 (List.replicate md.Data.BlockSize 0))
        (readBlock s w0.store md 0 (List.replicate md.Data.BlockSize 0)).blkIdx := by
      rw [g1]
      exact hg0
    have i6 : (readBlock s w0.store md 0 (List.replicate md.Data.BlockSize 0)).blkIdx
        * md.Data.BlockSize < md.Smd.Size := by
      rw [g1]
      omega
    have i7 : (readBlock s w0.store md 0 (List.replicate md.Data.BlockSize 0)).blkIdx
        * md.Data.BlockSize ≤ 0 := by
      rw [g1]
      omega
    by_cases hbig : md.Smd.Size > md.Data.BlockSize
    · rw [if_pos hbig] at hrun
      have hg1 : SizedBlock md (readBlock s w0.store md 1 (List.replicate md.Data.BlockSize 0))
          ((readBlock s w0.store md 0 (List.replicate md.Data.BlockSize 0)).blkIdx + 1) := by
        rw [g1]
        exact readBlock_sized s w0.store md hB hlen hback (0 + 1)
          (List.replicate md.Data.BlockSize 0) (by omega) (by rw [List.length_replicate])
      obtain ⟨d1, hp, hd1⟩ := prefetchBlock_ok s
        { respStatusCode := StatusOK, respStatus := StatusOKStr, objmd := md, off := 0,
          currBlock := readBlock s w0.store md 0 (List.replicate md.Data.BlockSize 0),
          waitBlock := true, c := none, closed := false, closeCalled := false }
        1 (List.replicate md.Data.BlockSize 0) w0 (fun h => by cases h) hfi
      rw [hp] at hrun
      simp only [Except.ok.injEq, Prod.mk.injEq] at hrun
      obtain ⟨hr1, hr2⟩ := hrun
      rw [← hr1] at hrd
      simp only [Option.some.injEq] at hrd
      subst hrd hr2
      rcases hd1 with rfl | rfl
      · exact ⟨⟨rfl, (RandomFI_snd w0).1, RandomFI_fi s w0 hfi, (fun h => by cases h),
          i5, i6, i7, Nat.zero_le _, fun _ => ⟨rfl, _, rfl, hg1⟩⟩, rfl⟩
      · exact ⟨⟨rfl, (RandomFI_snd w0).1, RandomFI_fi s w0 hfi, fun _ => rfl,
          i5, i6, i7, Nat.zero_le _, fun _ => ⟨rfl, _, rfl, hg1⟩⟩, rfl⟩
    · rw [if_neg hbig] at hrun
      simp only [Except.ok.injEq, Prod.mk.injEq] at hrun
      obtain ⟨hr1, hr2⟩ := hrun
      rw [← hr1] at hrd
      simp only [Option.some.injEq] at hrd
      subst hrd hr2
      exact ⟨⟨rfl, rfl, hfi, (fun h => by cases h),
        i5, i6, i7, Nat.zero_le _, fun h => absurd h (by rw [g1]; omega)⟩, rfl⟩


/-- `Read` at a block boundary with the prefetched block delivered, after the
fault-injection step left the reader `d1`. -/
theorem Read_boundary {σ : Type} (s : S3Server σ) (d d1 : objectDataIOReader) (p : List Byte)
    (w : World σ) (pr : dataBlockReadResult)
    (hoff : d.off < d.objmd.Smd.Size) (hB : 0 < d.objmd.Data.BlockSize)
    (hidx : d.off / d.objmd.Data.BlockSize = d.currBlock.blkIdx + 1)
    (hwait : d.waitBlock = true)
    (hfi : (if (RandomFI w).1 = true then closeChan s d else Except.ok d) = Except.ok d1)
    (hc : d1.c = some pr) (hoff1 : d1.off = d.off) (hobj1 : d1.objmd = d.objmd) :
    Read s SelectEv.recv d p w =
      if pr.status = StatusOK ∧ d.off + pr.n < d.objmd.Smd.Size then
        match prefetchBlock s { d1 with waitBlock := true, currBlock := pr, c := none }
            (pr.blkIdx + 1) d1.currBlock.buf (RandomFI w).2 with
        | Except.error e => Except.error e
        | Except.ok (d3, w3) =>
          readFill d3 (d.currBlock.blkIdx + 1) (d.off % d.objmd.Data.BlockSize) p w3
      else
        readFill { d1 with waitBlock := false, currBlock := pr, c := none }
          (d.currBlock.blkIdx + 1) (d.off % d.objmd.Data.BlockSize) p (RandomFI w).2 := by
  unfold Read
  rw [if_neg (by omega), if_neg (by omega)]
  simp only [hidx, hwait, Bool.not_true, Bool.false_eq_true, if_false]
  rw [if_neg (by omega), if_pos (by omega), hfi]
  simp only [hc, hoff1, hobj1]


/-- The tail of `Read` on a reader that satisfies the invariant with `off`
inside the resident block: it hands over bytes of that block and the reader
satisfies the invariant afterwards. -/
theorem readFill_inv {σ : Type} (s : S3Server σ) (md : ObjectMD) (st0 : σ)
    (d : objectDataIOReader) (w : World σ) (p : List Byte) (idx blockOff : Nat)
    (hinv : ReaderInv s md st0 d w) (hoff : d.off < md.Smd.Size)
    (hin : d.off < (d.currBlock.blkIdx + 1) * md.Data.BlockSize)
    (hbo : blockOff = d.off - d.currBlock.blkIdx * md.Data.BlockSize) :
    ∃ res, readFill d idx blockOff p w = Except.ok res ∧ ReaderInv s md st0 res.d res.w ∧
      (res.err = none ∨ res.err = some ReadErr.EOF) ∧ (0 < p.length → 0 < res.n) := by
  obtain ⟨hobj, hst, hfi, hcl, ⟨_, g2, g3, g4⟩, hk, hlo, hhi, hnext⟩ := hinv
  have e1 : (d.currBlock.blkIdx + 1) * md.Data.BlockSize
      = d.currBlock.blkIdx * md.Data.BlockSize + md.Data.BlockSize := by ring
  have hrun := readFill_resident d idx blockOff p w g2 (by omega) (by omega)
  have hm1 : min p.length (d.currBlock.n - blockOff) ≤ d.currBlock.n - blockOff :=
    Nat.min_le_right _ _
  have hm3 : 0 < p.length → 0 < min p.length (d.currBlock.n - blockOff) :=
    fun hp => Nat.lt_min.2 ⟨hp, by omega⟩
  generalize min p.length (d.currBlock.n - blockOff) = m at hrun hm1 hm3
  refine ⟨_, hrun, ⟨hobj, hst, hfi, hcl, ⟨rfl, g2, g3, g4⟩, hk, ?_, ?_, hnext⟩, ?_, hm3⟩
  · show d.currBlock.blkIdx * md.Data.BlockSize ≤ d.off + m
    omega
  · show d.off + m ≤ d.currBlock.blkIdx * md.Data.BlockSize + d.currBlock.n
    omega
  · show (if d.off + m = d.objmd.Smd.Size then some ReadErr.EOF else none) = none ∨ _
    by_cases he : d.off + m = d.objmd.Smd.Size
    · exact Or.inr (if_pos he)
    · exact Or.inl (if_neg he)

/-- `Read` at a block boundary on a reader that satisfies the invariant, the
awaited prefetch delivered: the reader that enters the tail of `Read`
satisfies the invariant with the delivered block resident. -/
theorem Read_boundary_inv {σ : Type} (s : S3Server σ) (md : ObjectMD) (st0 : σ)
    (hB : 0 < md.Data.BlockSize)
    (hlen : md.Data.Blocks.length = nBlocks md.Data.BlockSize md.Smd.Size)
    (hback : ReadsSized s st0 md) (d : objectDataIOReader) (w : World σ) (p : List Byte)
    (hinv : ReaderInv s md st0 d w) (hoff : d.off < md.Smd.Size)
    (hin : ¬ d.off < (d.currBlock.blkIdx + 1) * md.Data.BlockSize) :
    ∃ d' w', Read s SelectEv.recv d p w = readFill d' (d.currBlock.blkIdx + 1) 0 p w' ∧
      ReaderInv s md st0 d' w' ∧ d'.off = d.off ∧
      d'.currBlock.blkIdx = d.currBlock.blkIdx + 1 := by
  obtain ⟨hobj, hst, hfi, hcl, ⟨_, g2, g3, g4⟩, hk, hlo, hhi, hnext⟩ := hinv
  subst hobj hst
  have e1 : (d.currBlock.blkIdx + 1) * d.objmd.Data.BlockSize
      = d.currBlock.blkIdx * d.objmd.Data.BlockSize + d.objmd.Data.BlockSize := by ring
  have e2 : (d.currBlock.blkIdx + 1 + 1) * d.objmd.Data.BlockSize
      = d.currBlock.blkIdx * d.objmd.Data.BlockSize + d.objmd.Data.BlockSize
        + d.objmd.Data.BlockSize := by ring
  have hk1 : (d.currBlock.blkIdx + 1) * d.objmd.Data.BlockSize < d.objmd.Smd.Size := by
    omega
  obtain ⟨hwait, pr, hcpr, q1, q2, q3, q4⟩ := hnext hk1
  have hidx : d.off / d.objmd.Data.BlockSize = d.currBlock.blkIdx + 1 :=
    Nat.div_eq_of_lt_le (by omega)
      (by show d.off < (d.currBlock.blkIdx + 1 + 1) * d.objmd.Data.BlockSize; omega)
  have hmod : d.off % d.objmd.Data.BlockSize = 0 := by
    have h1 := Nat.div_add_mod d.off d.objmd.Data.BlockSize
    rw [hidx, Nat.mul_comm] at h1
    omega
  have e3 : pr.blkIdx * d.objmd.Data.BlockSize
      = d.currBlock.blkIdx * d.objmd.Data.BlockSize + d.objmd.Data.BlockSize := by
    rw [q1, e1]
  have e4 : (pr.blkIdx + 1) * d.objmd.Data.BlockSize
      = d.currBlock.blkIdx * d.objmd.Data.BlockSize + d.objmd.Data.BlockSize
        + d.objmd.Data.BlockSize := by
    rw [q1, e2]
  have hprS : SizedBlock d.objmd pr pr.blkIdx := ⟨rfl, q2, by rw [q1]; exact q3, q4⟩
  have q3' : pr.n = min d.objmd.Data.BlockSize
      (d.objmd.Smd.Size - pr.blkIdx * d.objmd.Data.BlockSize) := by
    rw [q1]
    exact q3
  obtain ⟨d1, hc1, hd1⟩ := closeChan_fi s d w hcl hfi
  have f1 : d1.c = some pr := by rcases hd1 with rfl | rfl <;> exact hcpr
  have f2 : d1.off = d.off := by rcases hd1 with rfl | rfl <;> rfl
  have f3 : d1.objmd = d.objmd := by rcases hd1 with rfl | rfl <;> rfl
  have f4 : d1.currBlock = d.currBlock := by rcases hd1 with rfl | rfl <;> rfl
  have f5 : d1.closed = true → d1.closeCalled = true := by
    rcases hd1 with rfl | rfl
    · exact hcl
    · exact fun _ => rfl
  rw [Read_boundary s d d1 p w pr hoff hB hidx hwait hc1 f1 f2 f3, hmod]
  clear hc1 hd1
  by_cases hmore : d.off + pr.n < d.objmd.Smd.Size
  · rw [if_pos ⟨q2, hmore⟩]
    obtain ⟨d3, hp3, hd3⟩ := prefetchBlock_ok s
      { d1 with waitBlock := true, currBlock := pr, c := none } (pr.blkIdx + 1)
      d1.currBlock.buf (RandomFI w).2 f5 (RandomFI_fi s w hfi)
    have t1 : d3.objmd = d.objmd := by rcases hd3 with rfl | rfl <;> exact f3
    have t2 : d3.off = d.off := by rcases hd3 with rfl | rfl <;> exact f2
    have t3 : d3.currBlock = pr := by rcases hd3 with rfl | rfl <;> rfl
    have t4 : d3.waitBlock = true := by rcases hd3 with rfl | rfl <;> rfl
    have t5 : d3.closed = true → d3.closeCalled = true := by
      rcases hd3 with rfl | rfl
      · exact f5
      · exact fun _ => rfl
    clear hd3
    have hrb : SizedBlock d.objmd
        (readBlock s (RandomFI w).2.store d1.objmd (pr.blkIdx + 1) d1.currBlock.buf)
        (pr.blkIdx + 1) := by
      rw [(RandomFI_snd w).1, f3, f4]
      exact readBlock_sized s w.store d.objmd hB hlen hback (pr.blkIdx + 1)
        d.currBlock.buf (by omega) g4
    rw [hp3]
    clear hp3
    refine ⟨_, _, rfl, ⟨t1, ?_, RandomFI_fi s _ (RandomFI_fi s w hfi), t5, ?_, ?_, ?_, ?_, ?_⟩,
      t2, ?_⟩
    · show (RandomFI (RandomFI w).2).2.store = w.store
      rw [(RandomFI_snd _).1, (RandomFI_snd w).1]
    · show SizedBlock d.objmd d3.currBlock d3.currBlock.blkIdx
      rw [t3]
      exact hprS
    · show d3.currBlock.blkIdx * d.objmd.Data.BlockSize < d.objmd.Smd.Size
      rw [t3]
      omega
    · show d3.currBlock.blkIdx * d.objmd.Data.BlockSize ≤ d3.off
      rw [t3, t2]
      omega
    · show d3.off ≤ d3.currBlock.blkIdx * d.objmd.Data.BlockSize + d3.currBlock.n
      rw [t3, t2]
      omega
    · show (d3.currBlock.blkIdx + 1) * d.objmd.Data.BlockSize < d.objmd.Smd.Size →
        d3.waitBlock = true ∧ ∃ pr', some (readBlock s (RandomFI w).2.store d1.objmd
          (pr.blkIdx + 1) d1.currBlock.buf) = some pr' ∧
          SizedBlock d.objmd pr' (d3.currBlock.blkIdx + 1)
      rw [t3]
      exact fun _ => ⟨t4, _, rfl, hrb⟩
    · show d3.currBlock.blkIdx = d.currBlock.blkIdx + 1
      rw [t3]
      exact q1
  · rw [if_neg (fun h => hmore h.2)]
    refine ⟨_, _, rfl, ⟨f3, (RandomFI_snd w).1, RandomFI_fi s w hfi, f5, hprS, ?_, ?_, ?_, ?_⟩,
      f2, q1⟩
    · show pr.blkIdx * d.objmd.Data.BlockSize < d.objmd.Smd.Size
      omega
    · show pr.blkIdx * d.objmd.Data.BlockSize ≤ d1.off
      rw [f2]
      omega
    · show d1.off ≤ pr.blkIdx * d.objmd.Data.BlockSize + pr.n
      rw [f2]
      omega
    · intro (h : (pr.blkIdx + 1) * d.objmd.Data.BlockSize < d.objmd.Smd.Size)
      exact absurd (show d.off + pr.n < d.objmd.Smd.Size by omega) hmore

/-- One `Read`, the awaited prefetch delivered, on a reader that satisfies the
invariant: it returns without panic, with `io.EOF` or no error, the reader
satisfies the invariant afterwards, and with a non-empty buffer below `size`
it hands over at least one byte. -/
theorem Read_inv {σ : Type} (s : S3Server σ) (md : ObjectMD) (st0 : σ)
    (hB : 0 < md.Data.BlockSize)
    (hlen : md.Data.Blocks.length = nBlocks md.Data.BlockSize md.Smd.Size)
    (hback : ReadsSized s st0 md) (d : objectDataIOReader) (w : World σ) (p : List Byte)
    (hinv : ReaderInv s md st0 d w) :
    ∃ res, Read s SelectEv.recv d p w = Except.ok res ∧ ReaderInv s md st0 res.d res.w ∧
      (res.err = none ∨ res.err = some ReadErr.EOF) ∧
      (d.off < md.Smd.Size → 0 < p.length → 0 < res.n) ∧
      (md.Smd.Size ≤ d.off → res.n = 0 ∧ res.err = some ReadErr.EOF) := by
  have hinv0 := hinv
  obtain ⟨hobj, _, _, _, _, hk, hlo, _, _⟩ := hinv
  by_cases hend : md.Smd.Size ≤ d.off
  · refine ⟨⟨0, some ReadErr.EOF, p, d, w⟩, ?_, hinv0, Or.inr rfl, fun h => absurd hend (by omega),
      fun _ => ⟨rfl, rfl⟩⟩
    unfold Read
    rw [if_pos (by rw [hobj]; exact hend)]
  · have hoff : d.off < md.Smd.Size := by omega
    by_cases hin : d.off < (d.currBlock.blkIdx + 1) * md.Data.BlockSize
    · have hidx : d.off / d.objmd.Data.BlockSize = d.currBlock.blkIdx := by
        rw [hobj]
        exact Nat.div_eq_of_lt_le hlo hin
      have hmod : d.off % d.objmd.Data.BlockSize
          = d.off - d.currBlock.blkIdx * md.Data.BlockSize := by
        have h1 := Nat.div_add_mod d.off d.objmd.Data.BlockSize
        rw [hidx, Nat.mul_comm, hobj] at h1
        rw [hobj]
        omega
      have hRead : Read s SelectEv.recv d p w = readFill d d.currBlock.blkIdx
          (d.off % d.objmd.Data.BlockSize) p w := by
        unfold Read
        rw [if_neg (by rw [hobj]; omega), if_neg (by rw [hobj]; omega)]
        simp only [hidx, lt_irrefl, gt_iff_lt, if_false]
      obtain ⟨res, h1, h2, h3, h4⟩ := readFill_inv s md st0 d w p d.currBlock.blkIdx
        (d.off % d.objmd.Data.BlockSize) hinv0 hoff hin hmod
      exact ⟨res, by rw [hRead]; exact h1, h2, h3, fun _ hp => h4 hp, fun h => absurd h hend⟩
    · obtain ⟨d', w', hRead, hinv', hoff', hidx'⟩ :=
        Read_boundary_inv s md st0 hB hlen hback d w p hinv0 hoff hin
      have e1 : (d.currBlock.blkIdx + 1) * md.Data.BlockSize
          = d.currBlock.blkIdx * md.Data.BlockSize + md.Data.BlockSize := by ring
      have e2 : (d.currBlock.blkIdx + 1 + 1) * md.Data.BlockSize
          = d.currBlock.blkIdx * md.Data.BlockSize + md.Data.BlockSize + md.Data.BlockSize := by
        ring
      have hn := hinv0.2.2.2.2.1.2.2.1
      have hhi := hinv0.2.2.2.2.2.2.2.1
      obtain ⟨res, h1, h2, h3, h4⟩ := readFill_inv s md st0 d' w' p (d.currBlock.blkIdx + 1) 0
        hinv' (by omega) (by rw [hidx', hoff']; omega) (by rw [hidx', hoff']; omega)
      exact ⟨res, by rw [hRead]; exact h1, h2, h3, fun _ hp => h4 hp, fun h => absurd h hend⟩

/-- Every reachable reader state satisfies the invariant. -/
theorem reachable_inv {σ : Type} (s : S3Server σ) (resp : Response)
    (bkname objname : String) (w0 : World σ) (md : ObjectMD) (hbody : resp.Body = none)
    (hmd : (getObjectMD s w0.store bkname objname).1 = some md)
    (hB : 0 < md.Data.BlockSize)
    (hlen : md.Data.Blocks.length = nBlocks md.Data.BlockSize md.Smd.Size)
    (hback : ReadsSized s w0.store md) (hfi : s.FIEnabled = false → w0.fi = [])
    (d : objectDataIOReader) (w : World σ)
    (hreach : Reachable s resp bkname objname w0 d w) : ReaderInv s md w0.store d w := by
  induction hreach with
  | start resp1 w1 rd hrun hrd =>
    exact (getObjectOp_inv s resp bkname objname w0 md hbody hmd hB hlen hback hfi
      resp1 w1 rd hrun hrd).1
  | read d w p res _ hread ih =>
    obtain ⟨res', h1, h2, _⟩ := Read_inv s md w0.store hB hlen hback d w p ih
    rw [hread] at h1
    simp only [Except.ok.injEq] at h1
    rw [h1]
    exact h2

theorem store3_readsSized : ReadsSized (memServer 4 [md3]) store3 md3 := by
  intro k buf hk hbuf
  have hk0 : k = 0 := by
    have : md3.Data.Blocks.length = 1 := rfl
    omega
  subst hk0
  have hlen : ([1, 2, 3] : List Byte).length ≤ buf.length := by
    rw [hbuf]
    decide
  obtain ⟨r1, r2, _, r4⟩ := memBackend_contentStore.read_block store3 "d3" [1, 2, 3] buf rfl hlen
  exact ⟨r2, r1, r4⟩

theorem store3_start :
    getObjectOp (memServer 4 [md3]) newResponse "b1" "/k1" (World.init store3)
      = Except.ok ({ newResponse with StatusCode := StatusOK, Status := StatusOKStr,
                                      ContentLength := 3, Body := some rd3 },
          World.init store3) := by
  rfl

theorem store3_read :
    Read (memServer 4 [md3]) SelectEv.recv rd3 [0, 0, 0, 0] (World.init store3)
      = Except.ok ⟨3, some ReadErr.EOF, [1, 2, 3, 0], { rd3 with off := 3 },
          World.init store3⟩ := by
  rfl

theorem store3_reach_start :
    Reachable (memServer 4 [md3]) newResponse "b1" "/k1" (World.init store3) rd3
      (World.init store3) :=
  Reachable.start _ _ rd3 store3_start rfl

theorem store3_reach_end :
    Reachable (memServer 4 [md3]) newResponse "b1" "/k1" (World.init store3)
      { rd3 with off := 3 } (World.init store3) :=
  Reachable.read rd3 (World.init store3) [0, 0, 0, 0] _ store3_reach_start store3_read


/-- C14 (amended). Reader state invariant. `getObjectOp` reads a metadata
record `md` with `block_size > 0` and `len(blocks) = ceil(size / block_size)`
from a backend that returns `block_size` bytes for every block but the last
and the remaining bytes for the last, faults being injected only when fault
injection is enabled. Then every state reachable from `getObjectOp` by `Read`
calls, each awaited prefetch delivered, is a reader over `md` with
`off ≤ size`; with `off < size`, `off / block_size` is `curr.blkIdx`, or it is
`curr.blkIdx + 1` with `off = (curr.blkIdx + 1) * block_size` and `waitBlock`
true. A `Read` in such a state returns without panic, with no error or
`io.EOF`, so neither "read previous data again" nor "no prefetch task"; with
a non-empty buffer and `off < size` it returns `n > 0`, and with `off = size`
it returns `(0, io.EOF)`. -/
theorem reader_invariant {σ : Type} (s : S3Server σ) (resp : Response)
    (bkname objname : String) (w0 : World σ) (md : ObjectMD) (hbody : resp.Body = none)
    (hmd : (getObjectMD s w0.store bkname objname).1 = some md)
    (hB : 0 < md.Data.BlockSize)
    (hlen : md.Data.Blocks.length = nBlocks md.Data.BlockSize md.Smd.Size)
    (hback : ReadsSized s w0.store md) (hfi : s.FIEnabled = false → w0.fi = [])
    (d : objectDataIOReader) (w : World σ)
    (hreach : Reachable s resp bkname objname w0 d w) :
    d.objmd = md ∧ d.off ≤ md.Smd.Size ∧
    (d.off < md.Smd.Size →
      d.off / md.Data.BlockSize = d.currBlock.blkIdx ∨
      (d.off / md.Data.BlockSize = d.currBlock.blkIdx + 1 ∧
        d.off = (d.currBlock.blkIdx + 1) * md.Data.BlockSize ∧ d.waitBlock = true)) ∧
    ∀ p : List Byte, ∃ res, Read s SelectEv.recv d p w = Except.ok res ∧
      (res.err = none ∨ res.err = some ReadErr.EOF) ∧
      res.err ≠ some (ReadErr.other "Invalid read request, read previous data again") ∧
      res.err ≠ some (ReadErr.other "InternalError, no prefetch task") ∧
      (d.off < md.Smd.Size → 0 < p.length → 0 < res.n) ∧
      (d.off = md.Smd.Size → res.n = 0 ∧ res.err = some ReadErr.EOF) := by
  have hinv := reachable_inv s resp bkname objname w0 md hbody hmd hB hlen hback hfi d w hreach
  have hinv0 := hinv
  obtain ⟨hobj, _, _, _, ⟨_, _, g3, _⟩, hk, hlo, hhi, hnext⟩ := hinv
  have e1 : (d.currBlock.blkIdx + 1) * md.Data.BlockSize
      = d.currBlock.blkIdx * md.Data.BlockSize + md.Data.BlockSize := by ring
  have e2 : (d.currBlock.blkIdx + 1 + 1) * md.Data.BlockSize
      = d.currBlock.blkIdx * md.Data.BlockSize + md.Data.BlockSize + md.Data.BlockSize := by
    ring
  refine ⟨hobj, by omega, fun hoff => ?_, fun p => ?_⟩
  · by_cases hin : d.off < (d.currBlock.blkIdx + 1) * md.Data.BlockSize
    · exact Or.inl (Nat.div_eq_of_lt_le hlo hin)
    · have hk1 : (d.currBlock.blkIdx + 1) * md.Data.BlockSize < md.Smd.Size := by omega
      exact Or.inr ⟨Nat.div_eq_of_lt_le (by omega)
        (by show d.off < (d.currBlock.blkIdx + 1 + 1) * md.Data.BlockSize; omega),
        by omega, (hnext hk1).1⟩
  · obtain ⟨res, h1, _, h3, h4, h5⟩ := Read_inv s md w0.store hB hlen hback d w p hinv0
    refine ⟨res, h1, h3, ?_, ?_, h4, fun h => h5 (by omega)⟩
    · rcases h3 with h | h <;> rw [h] <;> simp
    · rcases h3 with h | h <;> rw [h] <;> simp

theorem reader_invariant_witness :
    rd3.objmd = md3 ∧ rd3.off ≤ md3.Smd.Size ∧
    (rd3.off < md3.Smd.Size →
      rd3.off / md3.Data.BlockSize = rd3.currBlock.blkIdx ∨
      (rd3.off / md3.Data.BlockSize = rd3.currBlock.blkIdx + 1 ∧
        rd3.off = (rd3.currBlock.blkIdx + 1) * md3.Data.BlockSize ∧ rd3.waitBlock = true)) ∧
    ∀ p : List Byte, ∃ res,
      Read (memServer 4 [md3]) SelectEv.recv rd3 p (World.init store3) = Except.ok res ∧
      (res.err = none ∨ res.err = some ReadErr.EOF) ∧
      res.err ≠ some (ReadErr.other "Invalid read request, read previous data again") ∧
      res.err ≠ some (ReadErr.other "InternalError, no prefetch task") ∧
      (rd3.off < md3.Smd.Size → 0 < p.length → 0 < res.n) ∧
      (rd3.off = md3.Smd.Size → res.n = 0 ∧ res.err = some ReadErr.EOF) :=
  reader_invariant (memServer 4 [md3]) newResponse "b1" "/k1" (World.init store3) md3 rfl rfl
    (by decide) (by decide) store3_readsSized (fun _ => rfl) rd3 (World.init store3)
    store3_reach_start

/-- C14 (as stated). The record `md3` (block size 4, one block, size 3) and
its store meet the premises; the reader state after one `Read` of its three
bytes is reachable, and a `Read` there with a buffer of one byte returns
`n = 0` with `io.EOF`. -/
theorem read_at_end_returns_zero :
    (getObjectMD (memServer 4 [md3]) (World.init store3).store "b1" "/k1").1 = some md3 ∧
    0 < md3.Data.BlockSize ∧
    md3.Data.Blocks.length = nBlocks md3.Data.BlockSize md3.Smd.Size ∧
    ReadsSized (memServer 4 [md3]) (World.init store3).store md3 ∧
    Reachable (memServer 4 [md3]) newResponse "b1" "/k1" (World.init store3)
      { rd3 with off := 3 } (World.init store3) ∧
    Read (memServer 4 [md3]) SelectEv.recv { rd3 with off := 3 } [0] (World.init store3)
      = Except.ok ⟨0, some ReadErr.EOF, [0], { rd3 with off := 3 }, World.init store3⟩ :=
  ⟨rfl, by decide, by decide, store3_readsSized, store3_reach_end, rfl⟩

/-! ## A body that answers zero bytes twice -/

set_option maxRecDepth 100000 in
/-- C2. `PUT /b1/k1` with `Content-Length: 4` whose body answers zero bytes
without error twice and then hands over `1, 2, 3, 4`: `putObject` answers 200,
and the etag of the record and the `ETag` header are the MD5 of four zero
bytes, not of the payload, which is left unread in the body. -/
theorem put_zero_reads_wrong_etag :
    payload reqZeroReads.Body = [1, 2, 3, 4] ∧ reqZeroReads.ContentLength = 4 ∧
    (putObject (memServer DataBlockSize [mdZeroReads DataBlockSize "b1" "/k1"]) reqZeroReads
        newResponse "b1" "/k1" (World.init MemStore.empty)).map
      (fun res => (res.resp.StatusCode, res.md.Smd.Etag, headerGet res.resp.Header ETag,
        res.body))
      = some (200, md5Hex [0, 0, 0, 0], some (md5Hex [0, 0, 0, 0]), [⟨[1, 2, 3, 4], none⟩]) ∧
    md5Hex [0, 0, 0, 0] ≠ md5Hex [1, 2, 3, 4] := by
  decide

set_option maxRecDepth 100000 in
/-- C3. `putObjectData` on a body that answers zero bytes without error twice
before its payload. With `Content-Length: 4` (small-object path, block size
131072) it succeeds and records as block 0 the MD5 of four zero bytes, not of
the payload bytes `[0, 4)`. With `Content-Length: 9` and block size 4
(streaming path) it succeeds and records four blocks, the first the MD5 of
the empty block, while `ceil(9 / 4)` is 3. -/
theorem put_zero_reads_wrong_blocks :
    payload reqZeroReads.Body = [1, 2, 3, 4] ∧
    (putObjectData (memServer DataBlockSize []) reqZeroReads (mdStart DataBlockSize 4)
        (World.init MemStore.empty)).map (fun res => (res.status, res.md.Data.Blocks))
      = some (200, [md5Hex [0, 0, 0, 0]]) ∧
    md5Hex [0, 0, 0, 0] ≠ md5Hex (blockAt DataBlockSize [1, 2, 3, 4] 0) ∧
    payload req9ZeroReads.Body = [1, 2, 3, 4, 5, 6, 7, 8, 9] ∧
    (putObjectData (memServer 4 []) req9ZeroReads (mdStart 4 9)
        (World.init MemStore.empty)).map (fun res => (res.status, res.md.Data.Blocks))
      = some (200, [md5Hex [], md5Hex [1, 2, 3, 4], md5Hex [5, 6, 7, 8], md5Hex [9]]) ∧
    nBlocks 4 9 = 3 := by
  decide

set_option maxRecDepth 100000 in
/-- C5. After `PUT /b1/k1` of the bytes `1, 2, 3, 4`, a second PUT of the same
payload under `/b2/k2` whose body first answers zero bytes without error twice
succeeds, makes one `WriteDataBlock` call, and records `dd_blocks = 0` against
one block. -/
theorem second_put_zero_reads_writes :
    payload req4.Body = payload reqZeroReads.Body ∧
    ((putObject (memServer DataBlockSize [md4 DataBlockSize, mdZeroReads DataBlockSize "b2" "/k2"])
        req4 newResponse "b1" "/k1" (World.init MemStore.empty)).bind fun r1 =>
      (putObject (memServer DataBlockSize [md4 DataBlockSize, mdZeroReads DataBlockSize "b2" "/k2"])
        reqZeroReads newResponse "b2" "/k2" r1.w).map fun r2 =>
        (r1.resp.StatusCode, r2.resp.StatusCode, countWrites r2.w.trace - countWrites r1.w.trace,
          r2.md.Data.DdBlocks, r2.md.Data.Blocks.length))
      = some (200, 200, 1, 0, 1) := by
  decide

set_option maxRecDepth 100000 in
/-- C1. `PUT /b1/k1` with `Content-Length: 4` whose body answers zero bytes
without error twice and then hands over `1, 2, 3, 4` is answered 200; the GET
that follows answers 200 with `Content-Length: 4`, and reading its body to
`io.EOF` yields four zero bytes, not the payload. -/
theorem round_trip_zero_reads :
    payload reqZeroReads.Body = [1, 2, 3, 4] ∧
    ((putObject (memServer 4 [mdZeroReads 4 "b1" "/k1"]) reqZeroReads newResponse "b1" "/k1"
        (World.init MemStore.empty)).bind fun r1 =>
      (getObjectOp (memServer 4 [mdZeroReads 4 "b1" "/k1"]) newResponse "b1" "/k1"
        r1.w).toOption.bind fun g =>
      g.1.Body.bind fun rd =>
      (readAll (memServer 4 [mdZeroReads 4 "b1" "/k1"]) (fun _ => 4) 5 0 rd g.2 []).bind fun o =>
      o.toOption.map fun out =>
        (r1.resp.StatusCode, g.1.StatusCode, g.1.ContentLength, out.1, out.2.1))
      = some (200, 200, 4, [0, 0, 0, 0], ReadErr.EOF) := by
  decide

end S3
